import Mathlib

/-!
Shallow embedding of `redblacktree/red_black_tree.py`.

The Python implementation is a pointer-based red-black tree: objects of
class `Node` carry `key`, `color`, `left`, `right`, `parent`, and the class
`RedBlackTree` holds a `root` reference.  We embed the object heap as an
arena: a list of node records addressed by `Nat` indices, `Option Nat`
standing for a possibly-`None` reference.  Every method is translated
line by line; `while` loops become fuel-indexed recursive functions (the
fuel `nodes.length + 1` is ample for every execution the theorems touch,
and the concrete evaluations below never exhaust it).  All reads are made
from the current state in program order, so interleaved reads and writes
match the Python semantics exactly.
-/

namespace RB

/-- `class Color(Enum)`: RED = 0, BLACK = 1. -/
inductive Color where
  | RED : Color
  | BLACK : Color
deriving DecidableEq, Repr

/-- `class Node`: key, color, left/right children and parent back-reference. -/
structure Node where
  key : Int
  color : Color
  left : Option Nat
  right : Option Nat
  parent : Option Nat
deriving DecidableEq, Repr

/-- `Node.__init__(key)`: fresh nodes are RED with no links. -/
def Node.make (key : Int) : Node :=
  ⟨key, Color.RED, none, none, none⟩

/-- `class RedBlackTree`: the arena of allocated nodes plus the root reference. -/
structure RedBlackTree where
  nodes : List Node
  root : Option Nat
deriving DecidableEq, Repr

/-- `RedBlackTree.__init__`: empty tree. -/
def RedBlackTree.empty : RedBlackTree := ⟨[], none⟩

namespace RedBlackTree

/-- Dereference a node index (indices used by the code are always in range). -/
def get (t : RedBlackTree) (i : Nat) : Node :=
  t.nodes.getD i (Node.make 0)

def setNode (t : RedBlackTree) (i : Nat) (n : Node) : RedBlackTree :=
  ⟨t.nodes.set i n, t.root⟩

def setKey (t : RedBlackTree) (i : Nat) (k : Int) : RedBlackTree :=
  t.setNode i { t.get i with key := k }

def setColor (t : RedBlackTree) (i : Nat) (c : Color) : RedBlackTree :=
  t.setNode i { t.get i with color := c }

def setLeft (t : RedBlackTree) (i : Nat) (l : Option Nat) : RedBlackTree :=
  t.setNode i { t.get i with left := l }

def setRight (t : RedBlackTree) (i : Nat) (r : Option Nat) : RedBlackTree :=
  t.setNode i { t.get i with right := r }

def setParent (t : RedBlackTree) (i : Nat) (p : Option Nat) : RedBlackTree :=
  t.setNode i { t.get i with parent := p }

def setRoot (t : RedBlackTree) (r : Option Nat) : RedBlackTree :=
  ⟨t.nodes, r⟩

/-- `left_rotate(self, x)`, lines 34-60.  The guard `if x is None or
x.right is None: return` makes the call a silent no-op. -/
def left_rotate (t : RedBlackTree) (x : Option Nat) : RedBlackTree :=
  match x with
  | none => t
  | some x =>
    match (t.get x).right with
    | none => t
    | some y =>
      -- x.right = y.left
      let t := t.setRight x ((t.get y).left)
      -- if y.left is not None: y.left.parent = x
      let t := match (t.get y).left with
               | some yl => t.setParent yl (some x)
               | none => t
      -- y.parent = x.parent
      let t := t.setParent y ((t.get x).parent)
      -- root / grandparent child-slot update
      let t := match (t.get x).parent with
               | none => t.setRoot (some y)
               | some p =>
                 if (t.get p).left = some x then t.setLeft p (some y)
                 else t.setRight p (some y)
      -- y.left = x ; x.parent = y
      let t := t.setLeft y (some x)
      t.setParent x (some y)

/-- `right_rotate(self, y)`, lines 62-88: the mirror image. -/
def right_rotate (t : RedBlackTree) (y : Option Nat) : RedBlackTree :=
  match y with
  | none => t
  | some y =>
    match (t.get y).left with
    | none => t
    | some x =>
      -- y.left = x.right
      let t := t.setLeft y ((t.get x).right)
      -- if x.right is not None: x.right.parent = y
      let t := match (t.get x).right with
               | some xr => t.setParent xr (some y)
               | none => t
      -- x.parent = y.parent
      let t := t.setParent x ((t.get y).parent)
      let t := match (t.get y).parent with
               | none => t.setRoot (some x)
               | some p =>
                 if (t.get p).left = some y then t.setLeft p (some x)
                 else t.setRight p (some x)
      -- x.right = y ; y.parent = x
      let t := t.setRight x (some y)
      t.setParent y (some x)

/-- The BST descent loop of `insert`, lines 102-107: `y` trails one step
behind `x`; ties (`key ≥ x.key`) go right. -/
def insertDescend : Nat → RedBlackTree → Int → Option Nat → Option Nat → Option Nat
  | 0, _, _, _, y => y
  | fuel + 1, t, key, x, y =>
    match x with
    | none => y
    | some xi =>
      insertDescend fuel t key
        (if key < (t.get xi).key then (t.get xi).left else (t.get xi).right)
        (some xi)

/-- Lines 97-116 of `insert`: allocate the RED node `z`, descend to the
attachment parent `y`, and link `z` in (at the root when `y` is None,
otherwise on the side given by the final comparison).  Returns the new
state together with `z`'s index. -/
def insertPlace (t : RedBlackTree) (key : Int) : RedBlackTree × Nat :=
  let z := t.nodes.length
  let t : RedBlackTree := ⟨t.nodes ++ [Node.make key], t.root⟩
  let y := insertDescend (t.nodes.length + 1) t key t.root none
  let t := t.setParent z y
  let t := match y with
           | none => t.setRoot (some z)
           | some yi =>
             if key < (t.get yi).key then t.setLeft yi (some z)
             else t.setRight yi (some z)
  (t, z)

/-- One-or-more passes of the `fix_insert` while loop, lines 127-160.
State is the tree plus the current `z`. -/
def fixInsertGo : Nat → RedBlackTree → Nat → RedBlackTree
  | 0, t, _ => t
  | fuel + 1, t, z =>
    -- while z != self.root and z.parent is not None and z.parent.color == RED
    if t.root = some z then t
    else
      match (t.get z).parent with
      | none => t
      | some p =>
        if (t.get p).color ≠ Color.RED then t
        else
          -- if z.parent.parent is None: break
          match (t.get p).parent with
          | none => t
          | some g =>
            if (t.get g).left = some p then
              -- y = z.parent.parent.right  (uncle); `else` covers None and BLACK
              match (t.get g).right with
              | some ui =>
                if (t.get ui).color = Color.RED then
                  -- recolor case: parent, uncle BLACK; grandparent RED; z = grandparent
                  let t := t.setColor p Color.BLACK
                  let t := t.setColor ui Color.BLACK
                  let t := t.setColor g Color.RED
                  fixInsertGo fuel t g
                else
                  -- if z == z.parent.right: z = z.parent; left_rotate(z)
                  let zt : Nat × RedBlackTree :=
                    if (t.get p).right = some z then (p, left_rotate t (some p))
                    else (z, t)
                  let z := zt.1
                  let t := zt.2
                  -- if z.parent is not None and z.parent.parent is not None: recolor + rotate
                  let t := match (t.get z).parent with
                           | none => t
                           | some p2 =>
                             match (t.get p2).parent with
                             | none => t
                             | some g2 =>
                               let t := t.setColor p2 Color.BLACK
                               let t := t.setColor g2 Color.RED
                               right_rotate t (some g2)
                  fixInsertGo fuel t z
              | none =>
                  let zt : Nat × RedBlackTree :=
                    if (t.get p).right = some z then (p, left_rotate t (some p))
                    else (z, t)
                  let z := zt.1
                  let t := zt.2
                  let t := match (t.get z).parent with
                           | none => t
                           | some p2 =>
                             match (t.get p2).parent with
                             | none => t
                             | some g2 =>
                               let t := t.setColor p2 Color.BLACK
                               let t := t.setColor g2 Color.RED
                               right_rotate t (some g2)
                  fixInsertGo fuel t z
            else
              -- mirror: y = z.parent.parent.left
              match (t.get g).left with
              | some ui =>
                if (t.get ui).color = Color.RED then
                  let t := t.setColor p Color.BLACK
                  let t := t.setColor ui Color.BLACK
                  let t := t.setColor g Color.RED
                  fixInsertGo fuel t g
                else
                  -- if z == z.parent.left: z = z.parent; right_rotate(z)
                  let zt : Nat × RedBlackTree :=
                    if (t.get p).left = some z then (p, right_rotate t (some p))
                    else (z, t)
                  let z := zt.1
                  let t := zt.2
                  let t := match (t.get z).parent with
                           | none => t
                           | some p2 =>
                             match (t.get p2).parent with
                             | none => t
                             | some g2 =>
                               let t := t.setColor p2 Color.BLACK
                               let t := t.setColor g2 Color.RED
                               left_rotate t (some g2)
                  fixInsertGo fuel t z
              | none =>
                  let zt : Nat × RedBlackTree :=
                    if (t.get p).left = some z then (p, right_rotate t (some p))
                    else (z, t)
                  let z := zt.1
                  let t := zt.2
                  let t := match (t.get z).parent with
                           | none => t
                           | some p2 =>
                             match (t.get p2).parent with
                             | none => t
                             | some g2 =>
                               let t := t.setColor p2 Color.BLACK
                               let t := t.setColor g2 Color.RED
                               left_rotate t (some g2)
                  fixInsertGo fuel t z

/-- `fix_insert(self, z)`, lines 120-163: the loop followed by blackening
the root. -/
def fix_insert (t : RedBlackTree) (z : Nat) : RedBlackTree :=
  let t := fixInsertGo (t.nodes.length + 1) t z
  match t.root with
  | none => t
  | some r => t.setColor r Color.BLACK

/-- `insert(self, key)`, lines 90-118: place the node, then fix up. -/
def insert (t : RedBlackTree) (key : Int) : RedBlackTree :=
  let tz := insertPlace t key
  fix_insert tz.1 tz.2

/-- The `search` loop, lines 371-377: iterative BST descent stopping at
the first node whose key matches. -/
def searchGo : Nat → RedBlackTree → Int → Option Nat → Option Nat
  | 0, _, _, temp => temp
  | fuel + 1, t, key, temp =>
    match temp with
    | none => none
    | some i =>
      if (t.get i).key = key then some i
      else searchGo fuel t key
        (if key < (t.get i).key then (t.get i).left else (t.get i).right)

/-- `search(self, key)`, lines 361-377. -/
def search (t : RedBlackTree) (key : Int) : Option Nat :=
  searchGo (t.nodes.length + 1) t key t.root

/-- The descent loop of `find_min`, lines 392-393. -/
def findMinGo : Nat → RedBlackTree → Nat → Nat
  | 0, _, temp => temp
  | fuel + 1, t, temp =>
    match (t.get temp).left with
    | none => temp
    | some l => findMinGo fuel t l

/-- `find_min(self, node)`, lines 379-394: None in, None out; otherwise
the leftmost node of the subtree. -/
def find_min (t : RedBlackTree) (node : Option Nat) : Option Nat :=
  match node with
  | none => none
  | some n => some (findMinGo (t.nodes.length + 1) t n)

/-- The descent loop of `find_max`, lines 409-410. -/
def findMaxGo : Nat → RedBlackTree → Nat → Nat
  | 0, _, temp => temp
  | fuel + 1, t, temp =>
    match (t.get temp).right with
    | none => temp
    | some r => findMaxGo fuel t r

/-- `find_max(self, node)`, lines 396-411. -/
def find_max (t : RedBlackTree) (node : Option Nat) : Option Nat :=
  match node with
  | none => none
  | some n => some (findMaxGo (t.nodes.length + 1) t n)

/-- `get_height(self, x)`, lines 413-428, with fuel for the structural
recursion over child links: None has height -1. -/
def getHeightGo : Nat → RedBlackTree → Option Nat → Int
  | _, _, none => -1
  | 0, _, some _ => 0
  | fuel + 1, t, some x =>
    max (getHeightGo fuel t (t.get x).left) (getHeightGo fuel t (t.get x).right) + 1

/-- `get_height` entry point with ample fuel. -/
def get_height (t : RedBlackTree) (x : Option Nat) : Int :=
  getHeightGo (t.nodes.length + 1) t x

/-- The parent-climbing loop of `successor`, lines 482-484. -/
def succClimb : Nat → RedBlackTree → Nat → Option Nat → Option Nat
  | 0, _, _, y => y
  | fuel + 1, t, node, y =>
    match y with
    | none => none
    | some yi =>
      if (t.get yi).right = some node then succClimb fuel t yi ((t.get yi).parent)
      else some yi

/-- `successor(self, node)`, lines 466-485. -/
def successor (t : RedBlackTree) (node : Option Nat) : Option Nat :=
  match node with
  | none => none
  | some n =>
    match (t.get n).right with
    | some r => find_min t (some r)
    | none => succClimb (t.nodes.length + 1) t n ((t.get n).parent)

/-- The parent-climbing loop of `predecessor`, lines 503-505. -/
def predClimb : Nat → RedBlackTree → Nat → Option Nat → Option Nat
  | 0, _, _, y => y
  | fuel + 1, t, node, y =>
    match y with
    | none => none
    | some yi =>
      if (t.get yi).left = some node then predClimb fuel t yi ((t.get yi).parent)
      else some yi

/-- `predecessor(self, node)`, lines 487-506. -/
def predecessor (t : RedBlackTree) (node : Option Nat) : Option Nat :=
  match node with
  | none => none
  | some n =>
    match (t.get n).left with
    | some l => find_max t (some l)
    | none => predClimb (t.nodes.length + 1) t n ((t.get n).parent)

/-- `in_order_traversal(self, node)`, lines 546-559, as the list of
(key, color) pairs it prints, in print order. -/
def inOrderGo : Nat → RedBlackTree → Option Nat → List (Int × Color)
  | _, _, none => []
  | 0, _, some _ => []
  | fuel + 1, t, some n =>
    inOrderGo fuel t (t.get n).left
      ++ [((t.get n).key, (t.get n).color)]
      ++ inOrderGo fuel t (t.get n).right

/-- `in_order_traversal` from a given node, with ample fuel. -/
def in_order_traversal (t : RedBlackTree) (node : Option Nat) : List (Int × Color) :=
  inOrderGo (t.nodes.length + 1) t node

/-- `fix_delete`'s while loop, lines 222-283.  State: tree plus current
`x` (may become None via `x = x.parent`).  Branches where Python would
dereference a None parent are unreachable in every execution below and
are modelled as ending the loop. -/
def fixDeleteGo : Nat → RedBlackTree → Option Nat → RedBlackTree × Option Nat
  | 0, t, x => (t, x)
  | fuel + 1, t, x =>
    match x with
    | none => (t, x)
    | some xi =>
      if t.root = some xi then (t, x)
      else if (t.get xi).color ≠ Color.BLACK then (t, x)
      else
        match (t.get xi).parent with
        | none => (t, x)
        | some p =>
          if (t.get p).left = some xi then
            match (t.get p).right with
            | none => (t, x)          -- if w is None: break
            | some w0 =>
              -- if w.color == RED: recolor, left_rotate(x.parent), refresh w
              let t := if (t.get w0).color = Color.RED then
                         let t := t.setColor w0 Color.BLACK
                         let t := t.setColor p Color.RED
                         left_rotate t (some p)
                       else t
              match (t.get xi).parent with
              | none => (t, some xi)  -- unreachable None dereference
              | some p1 =>
                match (t.get p1).right with
                | none => (t, some xi)  -- if w is None: break
                | some w =>
                  let wlB := match (t.get w).left with
                             | none => true
                             | some l => (t.get l).color = Color.BLACK
                  let wrB := match (t.get w).right with
                             | none => true
                             | some r => (t.get r).color = Color.BLACK
                  if wlB && wrB then
                    -- both of w's children black: w.color = RED; x = x.parent
                    let t := t.setColor w Color.RED
                    fixDeleteGo fuel t ((t.get xi).parent)
                  else
                    let tw : RedBlackTree × Option Nat :=
                      if wrB then
                        -- near-child case: blacken w.left, redden w, right_rotate(w)
                        let t := match (t.get w).left with
                                 | some l => t.setColor l Color.BLACK
                                 | none => t
                        let t := t.setColor w Color.RED
                        let t := right_rotate t (some w)
                        match (t.get xi).parent with
                        | none => (t, none)    -- unreachable None dereference
                        | some p2 => (t, (t.get p2).right)
                      else (t, some w)
                    let t := tw.1
                    let t := match tw.2 with
                             | none => t       -- if w is not None: (skip)
                             | some w2 =>
                               let t := match (t.get w2).right with
                                        | some r => t.setColor r Color.BLACK
                                        | none => t
                               match (t.get xi).parent with
                               | none => t     -- unreachable None dereference
                               | some p3 =>
                                 let t := t.setColor w2 ((t.get p3).color)
                                 let t := t.setColor p3 Color.BLACK
                                 left_rotate t (some p3)
                    -- x = self.root
                    fixDeleteGo fuel t t.root
          else
            match (t.get p).left with
            | none => (t, x)          -- if w is None: break
            | some w0 =>
              let t := if (t.get w0).color = Color.RED then
                         let t := t.setColor w0 Color.BLACK
                         let t := t.setColor p Color.RED
                         right_rotate t (some p)
                       else t
              match (t.get xi).parent with
              | none => (t, some xi)
              | some p1 =>
                match (t.get p1).left with
                | none => (t, some xi)
                | some w =>
                  let wrB := match (t.get w).right with
                             | none => true
                             | some r => (t.get r).color = Color.BLACK
                  let wlB := match (t.get w).left with
                             | none => true
                             | some l => (t.get l).color = Color.BLACK
                  if wrB && wlB then
                    let t := t.setColor w Color.RED
                    fixDeleteGo fuel t ((t.get xi).parent)
                  else
                    let tw : RedBlackTree × Option Nat :=
                      if wlB then
                        let t := match (t.get w).right with
                                 | some r => t.setColor r Color.BLACK
                                 | none => t
                        let t := t.setColor w Color.RED
                        let t := left_rotate t (some w)
                        match (t.get xi).parent with
                        | none => (t, none)
                        | some p2 => (t, (t.get p2).left)
                      else (t, some w)
                    let t := tw.1
                    let t := match tw.2 with
                             | none => t
                             | some w2 =>
                               let t := match (t.get w2).left with
                                        | some l => t.setColor l Color.BLACK
                                        | none => t
                               match (t.get xi).parent with
                               | none => t
                               | some p3 =>
                                 let t := t.setColor w2 ((t.get p3).color)
                                 let t := t.setColor p3 Color.BLACK
                                 right_rotate t (some p3)
                    fixDeleteGo fuel t t.root

/-- `fix_delete(self, x)`, lines 215-286: the loop, then
`if x is not None: x.color = BLACK`. -/
def fix_delete (t : RedBlackTree) (x : Nat) : RedBlackTree :=
  let tx := fixDeleteGo (t.nodes.length + 1) t (some x)
  match tx.2 with
  | some xi => tx.1.setColor xi Color.BLACK
  | none => tx.1

/-- `fix_delete_null`'s while loop, lines 296-359.  Note: it computes the
sibling `w` of `parent` itself (`parent.parent.right`/`.left`), one level
above the deficient nil position, and has no trailing recolor. -/
def fixDeleteNullGo : Nat → RedBlackTree → Option Nat → RedBlackTree
  | 0, t, _ => t
  | fuel + 1, t, par =>
    match par with
    | none => t
    | some pi =>
      if t.root = some pi then t
      else
        match (t.get pi).parent with
        | none => t                    -- if parent.parent is None: break
        | some g =>
          if (t.get g).left = some pi then
            match (t.get g).right with
            | none => t               -- if w is None: break
            | some w0 =>
              -- if w.color == RED: blacken w, redden parent.parent, left_rotate it
              let t := if (t.get w0).color = Color.RED then
                         let t := t.setColor w0 Color.BLACK
                         let t := t.setColor g Color.RED
                         left_rotate t (some g)
                       else t
              -- w = parent.parent.right (refreshed after a rotation; same value
              -- as w0 when the branch above was not taken)
              match (t.get pi).parent with
              | none => t             -- unreachable None dereference
              | some g1 =>
                match (t.get g1).right with
                | none => t           -- if w is None: break
                | some w =>
                  let wlB := match (t.get w).left with
                             | none => true
                             | some l => (t.get l).color = Color.BLACK
                  let wrB := match (t.get w).right with
                             | none => true
                             | some r => (t.get r).color = Color.BLACK
                  if wlB && wrB then
                    -- w.color = RED; parent = parent.parent
                    let t := t.setColor w Color.RED
                    fixDeleteNullGo fuel t ((t.get pi).parent)
                  else
                    let tw : RedBlackTree × Option Nat :=
                      if wrB then
                        let t := match (t.get w).left with
                                 | some l => t.setColor l Color.BLACK
                                 | none => t
                        let t := t.setColor w Color.RED
                        let t := right_rotate t (some w)
                        -- if parent.parent is not None: w = parent.parent.right
                        match (t.get pi).parent with
                        | some g2 => (t, (t.get g2).right)
                        | none => (t, some w)
                      else (t, some w)
                    let t := tw.1
                    -- if w is not None and parent.parent is not None:
                    let t := match tw.2 with
                             | none => t
                             | some w2 =>
                               match (t.get pi).parent with
                               | none => t
                               | some g3 =>
                                 let t := match (t.get w2).right with
                                          | some r => t.setColor r Color.BLACK
                                          | none => t
                                 let t := t.setColor w2 ((t.get g3).color)
                                 let t := t.setColor g3 Color.BLACK
                                 left_rotate t (some g3)
                    t                 -- break
          else
            match (t.get g).left with
            | none => t
            | some w0 =>
              let t := if (t.get w0).color = Color.RED then
                         let t := t.setColor w0 Color.BLACK
                         let t := t.setColor g Color.RED
                         right_rotate t (some g)
                       else t
              match (t.get pi).parent with
              | none => t
              | some g1 =>
                match (t.get g1).left with
                | none => t
                | some w =>
                  let wrB := match (t.get w).right with
                             | none => true
                             | some r => (t.get r).color = Color.BLACK
                  let wlB := match (t.get w).left with
                             | none => true
                             | some l => (t.get l).color = Color.BLACK
                  if wrB && wlB then
                    let t := t.setColor w Color.RED
                    fixDeleteNullGo fuel t ((t.get pi).parent)
                  else
                    let tw : RedBlackTree × Option Nat :=
                      if wlB then
                        let t := match (t.get w).right with
                                 | some r => t.setColor r Color.BLACK
                                 | none => t
                        let t := t.setColor w Color.RED
                        let t := left_rotate t (some w)
                        match (t.get pi).parent with
                        | some g2 => (t, (t.get g2).left)
                        | none => (t, some w)
                      else (t, some w)
                    let t := tw.1
                    let t := match tw.2 with
                             | none => t
                             | some w2 =>
                               match (t.get pi).parent with
                               | none => t
                               | some g3 =>
                                 let t := match (t.get w2).left with
                                          | some l => t.setColor l Color.BLACK
                                          | none => t
                                 let t := t.setColor w2 ((t.get g3).color)
                                 let t := t.setColor g3 Color.BLACK
                                 right_rotate t (some g3)
                    t

/-- `fix_delete_null(self, parent)`, lines 288-359. -/
def fix_delete_null (t : RedBlackTree) (parent : Nat) : RedBlackTree :=
  fixDeleteNullGo (t.nodes.length + 1) t (some parent)

/-- `delete(self, key)`, lines 165-209: find `z`; pick the splice victim
`y` (`z` itself, or its in-order successor when `z` has two children);
`x` is `y`'s only child, possibly None; splice; copy the key when
`y != z`; fix up if `y` was BLACK. -/
def delete (t : RedBlackTree) (key : Int) : RedBlackTree :=
  match t.search key with
  | none => t
  | some z =>
    let y := if (t.get z).left = none ∨ (t.get z).right = none then z
             else
               match t.successor (some z) with
               | some s => s
               | none => z   -- unreachable: z has a right child here
    let x : Option Nat := match (t.get y).left with
                          | some l => some l
                          | none => (t.get y).right
    let xParent : Option Nat := match x with
                                | some _ => none
                                | none => (t.get y).parent
    let t := match x with
             | some xi => t.setParent xi ((t.get y).parent)
             | none => t
    let t := match (t.get y).parent with
             | none => t.setRoot x
             | some p =>
               if (t.get p).left = some y then t.setLeft p x
               else t.setRight p x
    let t := if y ≠ z then t.setKey z ((t.get y).key) else t
    if (t.get y).color = Color.BLACK then
      match x with
      | some xi => t.fix_delete xi
      | none =>
        match xParent with
        | some xp => t.fix_delete_null xp
        | none => t
    else t

/-- `remove(self, key)`, lines 211-213: alias for `delete`. -/
def remove (t : RedBlackTree) (key : Int) : RedBlackTree :=
  t.delete key

/-! Verification-layer definitions: reachability, invariant checkers, and
operation sequences, used to state the specification's properties. -/

/-- Indices of the nodes reachable from a given reference (preorder). -/
def subIdx : Nat → RedBlackTree → Option Nat → List Nat
  | _, _, none => []
  | 0, _, some _ => []
  | fuel + 1, t, some n =>
    n :: (subIdx fuel t (t.get n).left ++ subIdx fuel t (t.get n).right)

/-- All node indices reachable from the root. -/
def reach (t : RedBlackTree) : List Nat :=
  subIdx (t.nodes.length + 1) t t.root

/-- The keys of the tree, listed in preorder. -/
def keys (t : RedBlackTree) : List Int :=
  (t.reach).map fun i => (t.get i).key

/-- Invariant 1 of the spec: no red node has a red parent. -/
def redRedOk (t : RedBlackTree) : Bool :=
  (t.reach).all fun i =>
    if (t.get i).color = Color.RED then
      match (t.get i).parent with
      | none => true
      | some p => (t.get p).color ≠ Color.RED
    else true

/-- Black-height computation: `some n` when every downward path from the
reference to a nil leaf passes through exactly `n` black nodes, `none`
when the black-height is not uniform. -/
def bhGo : Nat → RedBlackTree → Option Nat → Option Nat
  | _, _, none => some 0
  | 0, _, some _ => none
  | fuel + 1, t, some n =>
    match bhGo fuel t (t.get n).left, bhGo fuel t (t.get n).right with
    | some a, some b =>
      if a = b then some (a + (if (t.get n).color = Color.BLACK then 1 else 0))
      else none
    | _, _ => none

/-- Invariant 2 of the spec: uniform black-height everywhere. -/
def bhOk (t : RedBlackTree) : Bool :=
  (bhGo (t.nodes.length + 1) t t.root).isSome

/-- Invariant 3 of the spec: the root, if present, is black. -/
def rootBlackOk (t : RedBlackTree) : Bool :=
  match t.root with
  | none => true
  | some r => (t.get r).color = Color.BLACK

/-- All three color invariants together. -/
def rbOk (t : RedBlackTree) : Bool :=
  t.redRedOk && t.bhOk && t.rootBlackOk

end RedBlackTree

/-- A public mutating operation of the tree's interface. -/
inductive Op where
  | ins : Int → Op
  | del : Int → Op
deriving DecidableEq, Repr

/-- Run a sequence of public operations. -/
def applyOps (t : RedBlackTree) : List Op → RedBlackTree
  | [] => t
  | Op.ins k :: rest => applyOps (t.insert k) rest
  | Op.del k :: rest => applyOps (t.delete k) rest

/-- Membership of node index `j` in the subtree referenced by the first
index argument (following child links). -/
inductive InT (t : RedBlackTree) : Option Nat → Nat → Prop
  | here (i : Nat) : InT t (some i) i
  | inl (i j : Nat) : InT t ((t.get i).left) j → InT t (some i) j
  | inr (i j : Nat) : InT t ((t.get i).right) j → InT t (some i) j

/-- `lowOk lo k`: the optional inclusive lower bound `lo` admits `k`. -/
def lowOk : Option Int → Int → Prop
  | none, _ => True
  | some lo, k => lo ≤ k

/-- `highOk k hi`: the optional exclusive upper bound `hi` admits `k`. -/
def highOk : Int → Option Int → Prop
  | _, none => True
  | k, some hi => k < hi

/-- The binary-search-tree shape maintained by the code: all indices in
range, every left descendant strictly below its ancestor's key and every
right descendant at least it (ties sit to the right, matching the
descent `if z.key < x.key ... else ...`), with `h` bounding the height
of the derivation. -/
inductive Sub (t : RedBlackTree) : Option Nat → Nat → Option Int → Option Int → Prop
  | nil (h : Nat) (lo hi : Option Int) : Sub t none h lo hi
  | node (i : Nat) (h : Nat) (lo hi : Option Int) :
      i < t.nodes.length →
      lowOk lo (t.get i).key →
      highOk (t.get i).key hi →
      Sub t ((t.get i).left) h lo (some (t.get i).key) →
      Sub t ((t.get i).right) h (some (t.get i).key) hi →
      Sub t (some i) (h + 1) lo hi

/-- `hiOk k hi`: the optional non-strict upper bound `hi` admits `k`.
(Non-strict on both sides: rotations on trees with duplicate keys move
an equal key into a left subtree, so only the non-strict form is an
invariant of the code.) -/
def hiOk : Int → Option Int → Prop
  | _, none => True
  | k, some hi => k ≤ hi

/-- Full structural well-formedness of the arena at a position: every
node in range, parent back-references exactly inverse to the owning
child links, keys within non-strict bounds, and the in-order member
list made explicit.  `h` bounds the height. -/
inductive Shaped (t : RedBlackTree) :
    Option Nat → Option Nat → Nat → Option Int → Option Int → List Nat → Prop
  | nil (par : Option Nat) (h : Nat) (lo hi : Option Int) : Shaped t none par h lo hi []
  | node (i : Nat) (par : Option Nat) (h : Nat) (lo hi : Option Int) (L R : List Nat) :
      i < t.nodes.length →
      (t.get i).parent = par →
      lowOk lo (t.get i).key →
      hiOk (t.get i).key hi →
      Shaped t ((t.get i).left) (some i) h lo (some ((t.get i).key)) L →
      Shaped t ((t.get i).right) (some i) h (some ((t.get i).key)) hi R →
      Shaped t (some i) par (h + 1) lo hi (L ++ i :: R)

/-- Global well-formedness: the whole arena reachable from the root is a
`Shaped` tree over a duplicate-free member list. -/
def WF (t : RedBlackTree) (mem : List Nat) : Prop :=
  (∃ h, Shaped t t.root none h none none mem) ∧ mem.Nodup

/-! Concrete tree states used by the scenario claims. -/

/-- Scenario: insert 10, then 20, then 30 into the empty tree. -/
def c4tree : RedBlackTree := applyOps RedBlackTree.empty [Op.ins 10, Op.ins 20, Op.ins 30]

/-- Scenario: `delete(20)` on the tree above. -/
def c5tree : RedBlackTree := c4tree.delete 20

/-- The sequence insert 10, 20, 30, 5 then delete 30: the deleted node is
a black leaf whose parent is the root, so `fix_delete_null` returns
without doing anything. -/
def bugTree : RedBlackTree :=
  applyOps RedBlackTree.empty [Op.ins 10, Op.ins 20, Op.ins 30, Op.ins 5, Op.del 30]

/-- The sequence insert 1,…,8 then delete 1: `fix_delete_null` recolors
the parent's sibling RED under a RED grandparent. -/
def redRedTree : RedBlackTree :=
  applyOps RedBlackTree.empty
    [Op.ins 1, Op.ins 2, Op.ins 3, Op.ins 4, Op.ins 5, Op.ins 6, Op.ins 7, Op.ins 8, Op.del 1]

/-- Round trip `insert 1; delete 1` performed on `bugTree`. -/
def c6after : RedBlackTree := (bugTree.insert 1).delete 1

/-- A hand-written three-node tree (20 black at the root, red children 10
and 30), used as the concrete input of witnesses. -/
def wtree : RedBlackTree :=
  ⟨[⟨20, Color.BLACK, some 1, some 2, none⟩,
    ⟨10, Color.RED, none, none, some 0⟩,
    ⟨30, Color.RED, none, none, some 0⟩], some 0⟩

/-! Theorems. -/

/-- Helper: the optional lower bound survives decreasing it along `≤`. -/
theorem lowOk_trans {lo : Option Int} {a b : Int} (h : lowOk lo a) (hab : a ≤ b) :
    lowOk lo b := by
  cases lo with
  | none => trivial
  | some v => exact le_trans h hab

/-- Helper: the optional upper bound survives decreasing the key. -/
theorem highOk_trans {hi : Option Int} {a b : Int} (hab : a < b) (h : highOk b hi) :
    highOk a hi := by
  cases hi with
  | none => trivial
  | some v => exact lt_trans hab h

/-- Every member of a `Sub`-shaped subtree is an in-range index whose key
lies inside the subtree's bounds. -/
theorem Sub.mem_spec {t : RedBlackTree} {x : Option Nat} {h : Nat} {lo hi : Option Int}
    (hsub : Sub t x h lo hi) :
    ∀ {j : Nat}, InT t x j →
      j < t.nodes.length ∧ lowOk lo ((t.get j).key) ∧ highOk ((t.get j).key) hi := by
  induction hsub with
  | nil h lo hi => intro j hj; cases hj
  | node i h lo hi hlt hlo hhi hL hR ihL ihR =>
    intro j hj
    cases hj with
    | here => exact ⟨hlt, hlo, hhi⟩
    | inl _ _ h2 =>
      obtain ⟨h1, h2b, h3⟩ := ihL h2
      exact ⟨h1, h2b, highOk_trans h3 hhi⟩
    | inr _ _ h2 =>
      obtain ⟨h1, h2b, h3⟩ := ihR h2
      exact ⟨h1, lowOk_trans hlo h2b, h3⟩

/-- When no member of the subtree carries the key, the `search` loop
comes back empty (given fuel at least the subtree height). -/
theorem searchGo_none {t : RedBlackTree} {K : Int} {x : Option Nat} {h : Nat}
    {lo hi : Option Int} (hsub : Sub t x h lo hi)
    (habs : ∀ j, InT t x j → (t.get j).key ≠ K) :
    ∀ fuel, h ≤ fuel → RedBlackTree.searchGo fuel t K x = none := by
  induction hsub with
  | nil h lo hi => intro fuel _; cases fuel <;> rfl
  | node i h lo hi hlt hlo hhi hL hR ihL ihR =>
    intro fuel hfuel
    cases fuel with
    | zero => omega
    | succ f =>
      simp only [RedBlackTree.searchGo]
      rw [if_neg (habs i (InT.here i))]
      by_cases hKlt : K < (t.get i).key
      · rw [if_pos hKlt]
        exact ihL (fun j hj => habs j (InT.inl i j hj)) f (by omega)
      · rw [if_neg hKlt]
        exact ihR (fun j hj => habs j (InT.inr i j hj)) f (by omega)

/-- Helper: reading back the node just written. -/
theorem get_setNode_self (t : RedBlackTree) (i : Nat) (n : Node) (hlt : i < t.nodes.length) :
    (t.setNode i n).get i = n := by
  show (t.nodes.set i n).getD i _ = n
  rw [List.getD_eq_getElem _ _ (by simpa using hlt)]
  simp

/-- Helper: writing one slot leaves every other slot unchanged. -/
theorem get_setNode_ne (t : RedBlackTree) {i j : Nat} (n : Node) (hne : i ≠ j) :
    (t.setNode i n).get j = t.get j := by
  show (t.nodes.set i n).getD j _ = t.nodes.getD j _
  simp [List.getD_eq_getD_get?, List.getElem?_set_ne hne]

/-- Helper: out-of-range reads give the default node. -/
theorem get_out_of_range (t : RedBlackTree) {i : Nat} (hge : t.nodes.length ≤ i) :
    t.get i = Node.make 0 :=
  List.getD_eq_default _ _ hge

/-- Helper: `setParent` rewrites only the parent field of its slot. -/
theorem get_setParent_self (t : RedBlackTree) (i : Nat) (p : Option Nat)
    (hlt : i < t.nodes.length) :
    (t.setParent i p).get i = { t.get i with parent := p } :=
  get_setNode_self t i _ hlt

theorem get_setParent_ne (t : RedBlackTree) {i j : Nat} (p : Option Nat) (hne : i ≠ j) :
    (t.setParent i p).get j = t.get j :=
  get_setNode_ne t _ hne

/-- Helper: `setLeft` rewrites only the left field of its slot. -/
theorem get_setLeft_self (t : RedBlackTree) (i : Nat) (v : Option Nat)
    (hlt : i < t.nodes.length) :
    (t.setLeft i v).get i = { t.get i with left := v } :=
  get_setNode_self t i _ hlt

theorem get_setLeft_ne (t : RedBlackTree) {i j : Nat} (v : Option Nat) (hne : i ≠ j) :
    (t.setLeft i v).get j = t.get j :=
  get_setNode_ne t _ hne

/-- Helper: `setRight` rewrites only the right field of its slot. -/
theorem get_setRight_self (t : RedBlackTree) (i : Nat) (v : Option Nat)
    (hlt : i < t.nodes.length) :
    (t.setRight i v).get i = { t.get i with right := v } :=
  get_setNode_self t i _ hlt

theorem get_setRight_ne (t : RedBlackTree) {i j : Nat} (v : Option Nat) (hne : i ≠ j) :
    (t.setRight i v).get j = t.get j :=
  get_setNode_ne t _ hne

/-- Helper: `setRoot` leaves the node arena untouched. -/
theorem get_setRoot (t : RedBlackTree) (r : Option Nat) (i : Nat) :
    (t.setRoot r).get i = t.get i := rfl

/-- Helper: node writes keep the arena length. -/
theorem length_setNode (t : RedBlackTree) (i : Nat) (n : Node) :
    (t.setNode i n).nodes.length = t.nodes.length :=
  List.length_set _ _ _

theorem length_setParent (t : RedBlackTree) (i : Nat) (p : Option Nat) :
    (t.setParent i p).nodes.length = t.nodes.length :=
  length_setNode t i _

theorem length_setLeft (t : RedBlackTree) (i : Nat) (v : Option Nat) :
    (t.setLeft i v).nodes.length = t.nodes.length :=
  length_setNode t i _

theorem length_setRight (t : RedBlackTree) (i : Nat) (v : Option Nat) :
    (t.setRight i v).nodes.length = t.nodes.length :=
  length_setNode t i _

theorem length_setRoot (t : RedBlackTree) (r : Option Nat) :
    (t.setRoot r).nodes.length = t.nodes.length := rfl

/-- Helper: appending nodes does not disturb existing slots. -/
theorem get_append_lt (t : RedBlackTree) (l : List Node) (r : Option Nat) {i : Nat}
    (hlt : i < t.nodes.length) :
    (RedBlackTree.mk (t.nodes ++ l) r).get i = t.get i :=
  List.getD_append _ _ _ _ hlt

/-- Helper: the appended node sits at index `t.nodes.length`. -/
theorem get_append_self (t : RedBlackTree) (n : Node) (r : Option Nat) :
    (RedBlackTree.mk (t.nodes ++ [n]) r).get t.nodes.length = n := by
  show (t.nodes ++ [n]).getD _ _ = n
  rw [List.getD_append_right _ _ _ _ (le_refl _)]
  simp

/-- Helper: the insert descent started on None returns the trailing node. -/
theorem insertDescend_none (fuel : Nat) (t : RedBlackTree) (K : Int) (y0 : Option Nat) :
    RedBlackTree.insertDescend fuel t K none y0 = y0 := by
  cases fuel <;> rfl

/-- The insert descent either confirms the subtree empty or lands on a
member node whose slot on the comparison side is free. -/
theorem descend_slot {t : RedBlackTree} {K : Int} {x : Option Nat} {h : Nat}
    {lo hi : Option Int} (hsub : Sub t x h lo hi) :
    ∀ fuel, h ≤ fuel → ∀ y0 : Option Nat,
      (RedBlackTree.insertDescend fuel t K x y0 = y0 ∧ x = none) ∨
      (∃ yi, RedBlackTree.insertDescend fuel t K x y0 = some yi ∧ InT t x yi ∧
        ((K < (t.get yi).key ∧ (t.get yi).left = none) ∨
         (¬K < (t.get yi).key ∧ (t.get yi).right = none))) := by
  induction hsub with
  | nil h lo hi => intro fuel _ y0; exact Or.inl ⟨insertDescend_none fuel t K y0, rfl⟩
  | node i h lo hi hlt hlo hhi hL hR ihL ihR =>
    intro fuel hfuel y0
    cases fuel with
    | zero => omega
    | succ f =>
      right
      simp only [RedBlackTree.insertDescend]
      by_cases hKlt : K < (t.get i).key
      · rw [if_pos hKlt]
        rcases ihL f (by omega) (some i) with ⟨heq, hnone⟩ | ⟨yi, heq, hmem, hslot⟩
        · rw [hnone] at heq
          exact ⟨i, by rw [hnone]; exact heq, InT.here i, Or.inl ⟨hKlt, hnone⟩⟩
        · exact ⟨yi, heq, InT.inl i yi hmem, hslot⟩
      · rw [if_neg hKlt]
        rcases ihR f (by omega) (some i) with ⟨heq, hnone⟩ | ⟨yi, heq, hmem, hslot⟩
        · rw [hnone] at heq
          exact ⟨i, by rw [hnone]; exact heq, InT.here i, Or.inr ⟨hKlt, hnone⟩⟩
        · exact ⟨yi, heq, InT.inr i yi hmem, hslot⟩

/-- When some member `j` carries exactly the key being inserted, the
descent goes right at `j` and lands inside `j`'s right subtree (or at
`j` itself when `j` has no right child). -/
theorem descend_right_of_eq {t : RedBlackTree} {K : Int} {x : Option Nat} {h : Nat}
    {lo hi : Option Int} (hsub : Sub t x h lo hi) :
    ∀ {j : Nat}, InT t x j → (t.get j).key = K →
    ∀ fuel, h ≤ fuel → ∀ y0 : Option Nat,
      ∃ yi, RedBlackTree.insertDescend fuel t K x y0 = some yi ∧
        (InT t ((t.get j).right) yi ∨ (yi = j ∧ (t.get j).right = none)) := by
  induction hsub with
  | nil h lo hi => intro j hj; cases hj
  | node i h lo hi hlt hlo hhi hL hR ihL ihR =>
    intro j hj hK fuel hfuel y0
    cases fuel with
    | zero => omega
    | succ f =>
      simp only [RedBlackTree.insertDescend]
      cases hj with
      | here =>
        have hKlt : ¬K < (t.get i).key := by rw [hK]; exact lt_irrefl K
        rw [if_neg hKlt]
        rcases descend_slot (K := K) hR f (by omega) (some i) with
          ⟨heq, hnone⟩ | ⟨yi, heq, hmem, _⟩
        · rw [hnone] at heq
          exact ⟨i, by rw [hnone]; exact heq, Or.inr ⟨rfl, hnone⟩⟩
        · exact ⟨yi, heq, Or.inl hmem⟩
      | inl _ _ h2 =>
        have hjk : (t.get j).key < (t.get i).key := (Sub.mem_spec hL h2).2.2
        have hKlt : K < (t.get i).key := by rw [← hK]; exact hjk
        rw [if_pos hKlt]
        exact ihL h2 hK f (by omega) (some i)
      | inr _ _ h2 =>
        have hjk : (t.get i).key ≤ (t.get j).key := (Sub.mem_spec hR h2).2.1
        have hKge : ¬K < (t.get i).key := by
          rw [hK] at hjk; exact not_lt.mpr hjk
        rw [if_neg hKge]
        exact ihR h2 hK f (by omega) (some i)

/-- The insert descent computes the same answer on the arena extended
with the fresh (still unlinked) node. -/
theorem descend_append {t : RedBlackTree} {K : Int} {l : List Node} {r : Option Nat}
    {x : Option Nat} {h : Nat} {lo hi : Option Int} (hsub : Sub t x h lo hi) :
    ∀ fuel, h ≤ fuel → ∀ y0 : Option Nat,
      RedBlackTree.insertDescend fuel (RedBlackTree.mk (t.nodes ++ l) r) K x y0 =
      RedBlackTree.insertDescend fuel t K x y0 := by
  induction hsub with
  | nil h lo hi => intro fuel _ y0; rw [insertDescend_none, insertDescend_none]
  | node i h lo hi hlt hlo hhi hL hR ihL ihR =>
    intro fuel hfuel y0
    cases fuel with
    | zero => omega
    | succ f =>
      simp only [RedBlackTree.insertDescend]
      rw [get_append_lt t l r hlt]
      by_cases hKlt : K < (t.get i).key
      · simp only [if_pos hKlt]
        exact ihL f (by omega) (some i)
      · simp only [if_neg hKlt]
        exact ihR f (by omega) (some i)

/-- Membership transfers to a modified arena as long as every child link
is either unchanged or was previously None. -/
theorem InT_mono {t u : RedBlackTree}
    (hLs : ∀ i, (u.get i).left = (t.get i).left ∨ (t.get i).left = none)
    (hRs : ∀ i, (u.get i).right = (t.get i).right ∨ (t.get i).right = none) :
    ∀ {x : Option Nat} {j : Nat}, InT t x j → InT u x j := by
  intro x j hj
  induction hj with
  | here i => exact InT.here i
  | inl i j h2 ih =>
    rcases hLs i with he | hn
    · exact InT.inl i j (by rw [he]; exact ih)
    · rw [hn] at h2; cases h2
  | inr i j h2 ih =>
    rcases hRs i with he | hn
    · exact InT.inr i j (by rw [he]; exact ih)
    · rw [hn] at h2; cases h2

/-- Membership extends one step down into a child slot. -/
theorem InT_snoc {u : RedBlackTree} {z : Nat} :
    ∀ {x : Option Nat} {yi : Nat}, InT u x yi →
      ((u.get yi).left = some z ∨ (u.get yi).right = some z) → InT u x z := by
  intro x yi hj
  induction hj with
  | here i =>
    intro hslot
    rcases hslot with hs | hs
    · exact InT.inl i z (by rw [hs]; exact InT.here z)
    · exact InT.inr i z (by rw [hs]; exact InT.here z)
  | inl i j h2 ih => intro hslot; exact InT.inl i z (ih hslot)
  | inr i j h2 ih => intro hslot; exact InT.inr i z (ih hslot)

/-- C7: the attachment phase of `insert` (lines 97-116, before fixup):
for every BST-shaped tree and key K, the descent inserts a fresh node
(one more arena slot, keys of existing nodes untouched — never rejected
or overwritten) colored RED, linked into a child slot that was None; the
slot's parent is a node reached by the descent, the fresh node hangs on
the side given by the final comparison, and for every node `j` whose key
equals K the fresh node ends up inside `j`'s right subtree (ties descend
right).  `insert` itself is the fixup applied to this attachment. -/
theorem C7_duplicates_nest_right (t : RedBlackTree) (K : Int) (h : Nat)
    (hsub : Sub t t.root h none none) (hh : h ≤ t.nodes.length + 1) :
    (RedBlackTree.insertPlace t K).2 = t.nodes.length ∧
    (RedBlackTree.insertPlace t K).1.nodes.length = t.nodes.length + 1 ∧
    (∀ i, i < t.nodes.length →
      ((RedBlackTree.insertPlace t K).1.get i).key = (t.get i).key) ∧
    ((RedBlackTree.insertPlace t K).1.get t.nodes.length).color = Color.RED ∧
    t.insert K =
      RedBlackTree.fix_insert (RedBlackTree.insertPlace t K).1 (RedBlackTree.insertPlace t K).2 ∧
    (∀ j, InT t t.root j → (t.get j).key = K →
      InT (RedBlackTree.insertPlace t K).1
        (((RedBlackTree.insertPlace t K).1.get j).right) t.nodes.length) ∧
    (t.root = none ∨
      ∃ yi, ((RedBlackTree.insertPlace t K).1.get t.nodes.length).parent = some yi ∧
        InT t t.root yi ∧
        ((K < (t.get yi).key ∧ (t.get yi).left = none ∧
           ((RedBlackTree.insertPlace t K).1.get yi).left = some t.nodes.length) ∨
         (¬K < (t.get yi).key ∧ (t.get yi).right = none ∧
           ((RedBlackTree.insertPlace t K).1.get yi).right = some t.nodes.length))) := by
  have hins : t.insert K =
      RedBlackTree.fix_insert (RedBlackTree.insertPlace t K).1
        (RedBlackTree.insertPlace t K).2 := rfl
  have hFlen : (t.nodes ++ [Node.make K]).length = t.nodes.length + 1 := by simp
  rcases descend_slot (K := K) hsub ((t.nodes ++ [Node.make K]).length + 1) (by omega) none with
    ⟨hyeq, hroot⟩ | ⟨yi, hyeq, hmem, hslot⟩
  · -- empty tree: the fresh node becomes the root
    have hyA : RedBlackTree.insertDescend ((t.nodes ++ [Node.make K]).length + 1)
        (RedBlackTree.mk (t.nodes ++ [Node.make K]) t.root) K t.root none = none := by
      rw [descend_append hsub _ (by omega) none, hyeq]
    have hplace : RedBlackTree.insertPlace t K =
        (((RedBlackTree.mk (t.nodes ++ [Node.make K]) t.root).setParent t.nodes.length
            none).setRoot (some t.nodes.length), t.nodes.length) := by
      simp only [RedBlackTree.insertPlace, hyA]
    rw [hplace] at hins ⊢
    have hgz : (((RedBlackTree.mk (t.nodes ++ [Node.make K]) t.root).setParent t.nodes.length
        none).setRoot (some t.nodes.length)).get t.nodes.length =
        { Node.make K with parent := none } := by
      rw [get_setRoot, get_setParent_self _ _ _ (by simp), get_append_self]
    refine ⟨rfl, ?_, ?_, ?_, hins, ?_, Or.inl hroot⟩
    · rw [length_setRoot, length_setParent]
      exact hFlen
    · intro i hilt
      rw [get_setRoot, get_setParent_ne _ _ (by omega), get_append_lt _ _ _ hilt]
    · rw [hgz]; rfl
    · intro j hj _
      rw [hroot] at hj
      cases hj
  · -- landed on a node yi with a free slot on the comparison side
    have hyi_lt : yi < t.nodes.length := (Sub.mem_spec hsub hmem).1
    have hyA : RedBlackTree.insertDescend ((t.nodes ++ [Node.make K]).length + 1)
        (RedBlackTree.mk (t.nodes ++ [Node.make K]) t.root) K t.root none = some yi := by
      rw [descend_append hsub _ (by omega) none, hyeq]
    have hzne : t.nodes.length ≠ yi := by omega
    have hgetBA : ((RedBlackTree.mk (t.nodes ++ [Node.make K]) t.root).setParent
        t.nodes.length (some yi)).get yi = t.get yi := by
      rw [get_setParent_ne _ _ hzne, get_append_lt _ _ _ hyi_lt]
    have hBlen : (((RedBlackTree.mk (t.nodes ++ [Node.make K]) t.root).setParent
        t.nodes.length (some yi))).nodes.length = t.nodes.length + 1 := by
      rw [length_setParent]
      exact hFlen
    have hgBz : (((RedBlackTree.mk (t.nodes ++ [Node.make K]) t.root).setParent
        t.nodes.length (some yi))).get t.nodes.length =
        { Node.make K with parent := some yi } := by
      rw [get_setParent_self _ _ _ (by simp), get_append_self]
    by_cases hKlt : K < (t.get yi).key
    · -- attach on the left of yi
      have hslotL : (t.get yi).left = none := by
        rcases hslot with ⟨_, hs⟩ | ⟨hn, _⟩
        · exact hs
        · exact absurd hKlt hn
      have hplace : RedBlackTree.insertPlace t K =
          (((RedBlackTree.mk (t.nodes ++ [Node.make K]) t.root).setParent t.nodes.length
              (some yi)).setLeft yi (some t.nodes.length), t.nodes.length) := by
        simp only [RedBlackTree.insertPlace, hyA, hgetBA, if_pos hKlt]
      rw [hplace] at hins ⊢
      set tC := ((RedBlackTree.mk (t.nodes ++ [Node.make K]) t.root).setParent t.nodes.length
          (some yi)).setLeft yi (some t.nodes.length) with htC
      have hgCyi : tC.get yi = { t.get yi with left := some t.nodes.length } := by
        rw [htC, get_setLeft_self _ _ _ (by omega), hgetBA]
      have hgCz : tC.get t.nodes.length = { Node.make K with parent := some yi } := by
        rw [htC, get_setLeft_ne _ _ (fun he => hzne he.symm), hgBz]
      have hClen : tC.nodes.length = t.nodes.length + 1 := by
        rw [htC, length_setLeft, length_setParent]
        exact hFlen
      have hgC_ne : ∀ i, i ≠ yi → i ≠ t.nodes.length → tC.get i = t.get i := by
        intro i hiy hiz
        by_cases hilt : i < t.nodes.length
        · rw [htC, get_setLeft_ne _ _ (fun he => hiy he.symm),
            get_setParent_ne _ _ (fun he => hiz he.symm), get_append_lt _ _ _ hilt]
        · have h1 : tC.get i = Node.make 0 := get_out_of_range _ (by rw [hClen]; omega)
          have h2 : t.get i = Node.make 0 := get_out_of_range _ (by omega)
          rw [h1, h2]
      have hLs : ∀ i, (tC.get i).left = (t.get i).left ∨ (t.get i).left = none := by
        intro i
        by_cases hiy : i = yi
        · subst hiy; exact Or.inr hslotL
        · by_cases hiz : i = t.nodes.length
          · subst hiz
            right
            rw [get_out_of_range _ (le_refl _)]
            rfl
          · exact Or.inl (by rw [hgC_ne i hiy hiz])
      have hRs : ∀ i, (tC.get i).right = (t.get i).right ∨ (t.get i).right = none := by
        intro i
        by_cases hiy : i = yi
        · subst hiy; exact Or.inl (by rw [hgCyi])
        · by_cases hiz : i = t.nodes.length
          · subst hiz
            right
            rw [get_out_of_range _ (le_refl _)]
            rfl
          · exact Or.inl (by rw [hgC_ne i hiy hiz])
      refine ⟨rfl, hClen, ?_, ?_, hins, ?_, Or.inr ⟨yi, ?_, hmem, Or.inl ⟨hKlt, hslotL, ?_⟩⟩⟩
      · intro i hilt
        by_cases hiy : i = yi
        · subst hiy; rw [hgCyi]
        · rw [hgC_ne i hiy (by omega)]
      · rw [hgCz]; rfl
      · intro j hj hKj
        have hyij : yi ≠ j := by
          intro he
          rw [he, hKj] at hKlt
          exact lt_irrefl K hKlt
        obtain ⟨yi2, hy2, hdisj⟩ := descend_right_of_eq hsub hj hKj
          ((t.nodes ++ [Node.make K]).length + 1) (by omega) none
        rw [hyeq] at hy2
        have hy12 : yi2 = yi := (Option.some.inj hy2).symm
        rw [hy12] at hdisj
        rcases hdisj with hmem2 | ⟨hji, _⟩
        · have hj_lt : j < t.nodes.length := (Sub.mem_spec hsub hj).1
          rw [hgC_ne j (fun he => hyij he.symm) (by omega)]
          exact InT_snoc (InT_mono hLs hRs hmem2) (Or.inl (by rw [hgCyi]))
        · exact absurd hji hyij
      · rw [hgCz]
      · rw [hgCyi]
    · -- attach on the right of yi
      have hslotR : (t.get yi).right = none := by
        rcases hslot with ⟨hl, _⟩ | ⟨_, hs⟩
        · exact absurd hl hKlt
        · exact hs
      have hplace : RedBlackTree.insertPlace t K =
          (((RedBlackTree.mk (t.nodes ++ [Node.make K]) t.root).setParent t.nodes.length
              (some yi)).setRight yi (some t.nodes.length), t.nodes.length) := by
        simp only [RedBlackTree.insertPlace, hyA, hgetBA, if_neg hKlt]
      rw [hplace] at hins ⊢
      set tC := ((RedBlackTree.mk (t.nodes ++ [Node.make K]) t.root).setParent t.nodes.length
          (some yi)).setRight yi (some t.nodes.length) with htC
      have hgCyi : tC.get yi = { t.get yi with right := some t.nodes.length } := by
        rw [htC, get_setRight_self _ _ _ (by omega), hgetBA]
      have hgCz : tC.get t.nodes.length = { Node.make K with parent := some yi } := by
        rw [htC, get_setRight_ne _ _ (fun he => hzne he.symm), hgBz]
      have hClen : tC.nodes.length = t.nodes.length + 1 := by
        rw [htC, length_setRight, length_setParent]
        exact hFlen
      have hgC_ne : ∀ i, i ≠ yi → i ≠ t.nodes.length → tC.get i = t.get i := by
        intro i hiy hiz
        by_cases hilt : i < t.nodes.length
        · rw [htC, get_setRight_ne _ _ (fun he => hiy he.symm),
            get_setParent_ne _ _ (fun he => hiz he.symm), get_append_lt _ _ _ hilt]
        · have h1 : tC.get i = Node.make 0 := get_out_of_range _ (by rw [hClen]; omega)
          have h2 : t.get i = Node.make 0 := get_out_of_range _ (by omega)
          rw [h1, h2]
      have hLs : ∀ i, (tC.get i).left = (t.get i).left ∨ (t.get i).left = none := by
        intro i
        by_cases hiy : i = yi
        · subst hiy; exact Or.inl (by rw [hgCyi])
        · by_cases hiz : i = t.nodes.length
          · subst hiz
            right
            rw [get_out_of_range _ (le_refl _)]
            rfl
          · exact Or.inl (by rw [hgC_ne i hiy hiz])
      have hRs : ∀ i, (tC.get i).right = (t.get i).right ∨ (t.get i).right = none := by
        intro i
        by_cases hiy : i = yi
        · subst hiy; exact Or.inr hslotR
        · by_cases hiz : i = t.nodes.length
          · subst hiz
            right
            rw [get_out_of_range _ (le_refl _)]
            rfl
          · exact Or.inl (by rw [hgC_ne i hiy hiz])
      refine ⟨rfl, hClen, ?_, ?_, hins, ?_, Or.inr ⟨yi, ?_, hmem, Or.inr ⟨hKlt, hslotR, ?_⟩⟩⟩
      · intro i hilt
        by_cases hiy : i = yi
        · subst hiy; rw [hgCyi]
        · rw [hgC_ne i hiy (by omega)]
      · rw [hgCz]; rfl
      · intro j hj hKj
        obtain ⟨yi2, hy2, hdisj⟩ := descend_right_of_eq hsub hj hKj
          ((t.nodes ++ [Node.make K]).length + 1) (by omega) none
        rw [hyeq] at hy2
        have hy12 : yi2 = yi := (Option.some.inj hy2).symm
        rw [hy12] at hdisj
        by_cases hyj : yi = j
        · subst hyj
          rw [hgCyi]
          exact InT.here t.nodes.length
        · rcases hdisj with hmem2 | ⟨hji, _⟩
          · have hj_lt : j < t.nodes.length := (Sub.mem_spec hsub hj).1
            rw [hgC_ne j (fun he => hyj he.symm) (by omega)]
            exact InT_snoc (InT_mono hLs hRs hmem2) (Or.inr (by rw [hgCyi]))
          · exact absurd hji hyj
      · rw [hgCz]
      · rw [hgCyi]

/-- C7 (witness): inserting the duplicate key 20 into the concrete
three-node tree (whose root already has key 20) allocates slot 3, colors
it RED, and places it inside the root's right subtree. -/
theorem C7_duplicates_nest_right_witness :
    (RedBlackTree.insertPlace wtree 20).2 = 3 ∧
    ((RedBlackTree.insertPlace wtree 20).1.get 3).color = Color.RED ∧
    InT (RedBlackTree.insertPlace wtree 20).1
      (((RedBlackTree.insertPlace wtree 20).1.get 0).right) 3 := by
  have hsub : Sub wtree wtree.root 2 none none := by
    show Sub wtree (some 0) 2 none none
    refine Sub.node 0 1 none none (by decide) trivial trivial ?_ ?_
    · exact Sub.node 1 0 none (some (wtree.get 0).key) (by decide) trivial
        (show (10 : Int) < 20 by decide) (Sub.nil 0 _ _) (Sub.nil 0 _ _)
    · exact Sub.node 2 0 (some (wtree.get 0).key) none (by decide)
        (show (20 : Int) ≤ 30 by decide) trivial (Sub.nil 0 _ _) (Sub.nil 0 _ _)
  have hc := C7_duplicates_nest_right wtree 20 2 hsub (by decide)
  exact ⟨hc.1, hc.2.2.2.1, hc.2.2.2.2.2.1 0 (InT.here 0) rfl⟩

/-- C8: deleting (or `remove`-ing) a key absent from the tree is a
silent no-op: `search` returns None and `delete` returns before touching
anything, so the state is bit-for-bit unchanged and no error occurs. -/
theorem C8_delete_absent_noop (t : RedBlackTree) (K : Int) (h : Nat)
    (hsub : Sub t t.root h none none) (hh : h ≤ t.nodes.length + 1)
    (habs : ∀ j, InT t t.root j → (t.get j).key ≠ K) :
    t.delete K = t ∧ t.remove K = t := by
  have hs : t.search K = none := searchGo_none hsub habs _ hh
  constructor
  · unfold RedBlackTree.delete
    rw [hs]
  · unfold RedBlackTree.remove RedBlackTree.delete
    rw [hs]

/-- C8 (witness): deleting the absent key 99 from the concrete
three-node tree leaves it unchanged. -/
theorem C8_delete_absent_noop_witness :
    wtree.delete 99 = wtree ∧ wtree.remove 99 = wtree := by
  have hsub : Sub wtree wtree.root 2 none none := by
    show Sub wtree (some 0) 2 none none
    refine Sub.node 0 1 none none (by decide) trivial trivial ?_ ?_
    · exact Sub.node 1 0 none (some (wtree.get 0).key) (by decide) trivial
        (show (10 : Int) < 20 by decide) (Sub.nil 0 _ _) (Sub.nil 0 _ _)
    · exact Sub.node 2 0 (some (wtree.get 0).key) none (by decide)
        (show (20 : Int) ≤ 30 by decide) trivial (Sub.nil 0 _ _) (Sub.nil 0 _ _)
  have habs : ∀ j, InT wtree wtree.root j → (wtree.get j).key ≠ 99 := by
    intro j hj
    have hj0 : InT wtree (some 0) j := hj
    cases hj0 with
    | here => decide
    | inl _ _ h2 =>
      have h2a : InT wtree (some 1) j := h2
      cases h2a with
      | here => decide
      | inl _ _ h3 => cases (show InT wtree none j from h3)
      | inr _ _ h3 => cases (show InT wtree none j from h3)
    | inr _ _ h2 =>
      have h2a : InT wtree (some 2) j := h2
      cases h2a with
      | here => decide
      | inl _ _ h3 => cases (show InT wtree none j from h3)
      | inr _ _ h3 => cases (show InT wtree none j from h3)
  exact C8_delete_absent_noop wtree 99 2 hsub (by decide) habs

/-- C1: the claim says uniform black-height holds after every completed
public operation; it fails.  After insert 10, 20, 30, 5 the tree is
20B(10B(5R), 30B); `delete(30)` splices a black leaf whose parent is the
root, and `fix_delete_null`'s loop (guarded by `parent != self.root`)
never runs, so the path root→nil on the right has fewer black nodes than
root→10→nil. -/
theorem C1_black_height_bug : RedBlackTree.bhOk bugTree = false := by decide

/-- C2: the claim says no red node ever has a red parent after a
completed public operation; it fails.  After insert 1,…,8 then delete 1,
`fix_delete_null` recolors node 5 RED while its parent 4 is RED (the
both-children-black case never checks the recolored node's parent), and
the final tree contains the red node 2 whose parent 4 is red. -/
theorem C2_red_red_bug : RedBlackTree.redRedOk redRedTree = false := by decide

/-- C4: inserting 10, then 20, then 30 into the empty tree produces
exactly the tree with root 20 BLACK, left child 10 RED, right child 30
RED, and no further nodes (the arena has exactly the three nodes, with
the parent links matching). -/
theorem C4_insert_10_20_30 :
    c4tree.root = some 1 ∧
    c4tree.get 1 = ⟨20, Color.BLACK, some 0, some 2, none⟩ ∧
    c4tree.get 0 = ⟨10, Color.RED, none, none, some 1⟩ ∧
    c4tree.get 2 = ⟨30, Color.RED, none, none, some 1⟩ ∧
    c4tree.nodes.length = 3 := by decide

/-- C5: `delete(20)` on the 10/20/30 tree leaves exactly the keys
{10, 30}, satisfies all three red-black invariants, and `find_min` /
`find_max` from the root report 10 and 30. -/
theorem C5_delete_root :
    (↑(RedBlackTree.keys c5tree) : Multiset Int) = {10, 30} ∧
    RedBlackTree.rbOk c5tree = true ∧
    (RedBlackTree.find_min c5tree c5tree.root).map (fun i => (c5tree.get i).key) = some 10 ∧
    (RedBlackTree.find_max c5tree c5tree.root).map (fun i => (c5tree.get i).key) = some 30 := by
  decide

/-- C6: the claim requires that inserting then deleting a key restores
the key multiset AND that the red-black invariants hold afterwards.  On
the reachable state `bugTree` the round trip `insert 1; delete 1`
restores the multiset, but the result still violates uniform
black-height, so the conjunction the claim asserts is false. -/
theorem C6_round_trip_bug :
    (↑(RedBlackTree.keys c6after) : Multiset Int) = ↑(RedBlackTree.keys bugTree) ∧
    RedBlackTree.bhOk c6after = false := by decide

/-- C9 (counterexample): the claim says a rotation whose pivot child is
missing asserts / signals a fatal fault; in the code it is a silent
no-op.  Node 1 of `wtree` (key 10) has no children, and both rotations
on it return the tree completely unchanged. -/
theorem C9_not_asserting :
    (wtree.get 1).right = none ∧ RedBlackTree.left_rotate wtree (some 1) = wtree ∧
    (wtree.get 1).left = none ∧ RedBlackTree.right_rotate wtree (some 1) = wtree := by
  decide

/-- C9 (amended): calling `left_rotate` on a node whose right child is
missing (or `right_rotate` on a node whose left child is missing, or
either rotation on None) is a silent no-op: the guard returns with the
tree unchanged and no error is signalled. -/
theorem C9_rotation_missing_child_noop (t : RedBlackTree) (x : Nat) :
    ((t.get x).right = none → t.left_rotate (some x) = t) ∧
    ((t.get x).left = none → t.right_rotate (some x) = t) ∧
    t.left_rotate none = t ∧ t.right_rotate none = t := by
  refine ⟨fun hr => ?_, fun hl => ?_, rfl, rfl⟩
  · simp [RedBlackTree.left_rotate, hr]
  · simp [RedBlackTree.right_rotate, hl]

/-- C9 (witness): the amended no-op behaviour evaluated on `wtree` at
node 1, which lacks both children. -/
theorem C9_rotation_missing_child_noop_witness :
    RedBlackTree.left_rotate wtree (some 1) = wtree ∧
    RedBlackTree.right_rotate wtree (some 1) = wtree :=
  ⟨(C9_rotation_missing_child_noop wtree 1).1 (by decide),
   (C9_rotation_missing_child_noop wtree 1).2.1 (by decide)⟩

/-- Helper: `get_height` of None is -1 at any fuel. -/
theorem getHeightGo_none (fuel : Nat) (t : RedBlackTree) :
    RedBlackTree.getHeightGo fuel t none = -1 := by
  cases fuel <;> rfl

/-- C10: every query operation is total at the empty-tree / null-node
edge: `search` on the empty tree returns None for every key, `find_min`,
`find_max`, `successor` and `predecessor` of None return None, and
`get_height` of None is -1.  (All of these are pure functions of the
tree in this embedding: none of them produces a new tree state, which is
the shallow form of "none of these mutates the tree".) -/
theorem C10_null_queries_total (t : RedBlackTree) (key : Int) :
    RedBlackTree.search RedBlackTree.empty key = none ∧
    t.find_min none = none ∧
    t.find_max none = none ∧
    t.successor none = none ∧
    t.predecessor none = none ∧
    t.get_height none = -1 := by
  refine ⟨rfl, rfl, rfl, rfl, rfl, ?_⟩
  exact getHeightGo_none _ t


/-! Structural lemmas about `Shaped`, towards the in-order sortedness
invariant. -/

/-- Heights in `Shaped` can be padded upward. -/
theorem shaped_height_le {t : RedBlackTree} :
    ∀ {x par : Option Nat} {h : Nat} {lo hi : Option Int} {mem : List Nat},
      Shaped t x par h lo hi mem → ∀ {h2 : Nat}, h ≤ h2 → Shaped t x par h2 lo hi mem := by
  intro x par h lo hi mem hs
  induction hs with
  | nil par h lo hi => intro h2 _; exact Shaped.nil par h2 lo hi
  | node i par h lo hi L R hlt hpar hlo hhi hL hR ihL ihR =>
    intro h2 hle
    cases h2 with
    | zero => omega
    | succ h3 =>
      exact Shaped.node i par h3 lo hi L R hlt hpar hlo hhi
        (ihL (by omega)) (ihR (by omega))

/-- A `Shaped` derivation transfers to any arena that is at least as
long and agrees with the old one on every member's key and links
(colors are free). -/
theorem shaped_fields_frame {t u : RedBlackTree}
    (hlen : t.nodes.length ≤ u.nodes.length) :
    ∀ {x par : Option Nat} {h : Nat} {lo hi : Option Int} {mem : List Nat},
      Shaped t x par h lo hi mem →
      (∀ j, j ∈ mem → (u.get j).key = (t.get j).key ∧ (u.get j).left = (t.get j).left ∧
        (u.get j).right = (t.get j).right ∧ (u.get j).parent = (t.get j).parent) →
      Shaped u x par h lo hi mem := by
  intro x par h lo hi mem hs
  induction hs with
  | nil par h lo hi => intro _; exact Shaped.nil par h lo hi
  | node i par h lo hi L R hlt hpar hlo hhi hL hR ihL ihR =>
    intro hag
    obtain ⟨hk, hl, hr, hp⟩ := hag i (by simp)
    refine Shaped.node i par h lo hi L R (lt_of_lt_of_le hlt hlen) ?_ ?_ ?_ ?_ ?_
    · rw [hp, hpar]
    · rw [hk]; exact hlo
    · rw [hk]; exact hhi
    · rw [hl, hk]
      exact ihL fun j hj => hag j (by simp [hj])
    · rw [hr, hk]
      exact ihR fun j hj => hag j (by simp [hj])

/-- Helper: the optional non-strict upper bound survives decreasing the
key. -/
theorem hiOk_trans {hi : Option Int} {a b : Int} (hab : a ≤ b) (h : hiOk b hi) :
    hiOk a hi := by
  cases hi with
  | none => trivial
  | some v => exact le_trans hab h

/-- Every member of a `Shaped` subtree is in range with its key inside
the subtree's bounds. -/
theorem shaped_mem_props {t : RedBlackTree} :
    ∀ {x par : Option Nat} {h : Nat} {lo hi : Option Int} {mem : List Nat},
      Shaped t x par h lo hi mem → ∀ {j : Nat}, j ∈ mem →
      j < t.nodes.length ∧ lowOk lo ((t.get j).key) ∧ hiOk ((t.get j).key) hi := by
  intro x par h lo hi mem hs
  induction hs with
  | nil par h lo hi => intro j hj; cases hj
  | node i par h lo hi L R hlt hpar hlo hhi hL hR ihL ihR =>
    intro j hj
    rcases (by simpa using hj : j ∈ L ∨ j = i ∨ j ∈ R) with hjL | rfl | hjR
    · obtain ⟨h1, h2, h3⟩ := ihL hjL
      exact ⟨h1, h2, hiOk_trans h3 hhi⟩
    · exact ⟨hlt, hlo, hhi⟩
    · obtain ⟨h1, h2, h3⟩ := ihR hjR
      exact ⟨h1, lowOk_trans hlo h2, h3⟩

/-- The root of a non-empty `Shaped` subtree is one of its members. -/
theorem shaped_root_mem {t : RedBlackTree} {i : Nat} {par : Option Nat} {h : Nat}
    {lo hi : Option Int} {mem : List Nat} (hs : Shaped t (some i) par h lo hi mem) :
    i ∈ mem := by
  cases hs
  simp

/-- A member's parent field points either at the derivation's parent (at
the subtree root) or at another member owning it through a child slot. -/
theorem shaped_parent_field {t : RedBlackTree} :
    ∀ {x par : Option Nat} {h : Nat} {lo hi : Option Int} {mem : List Nat},
      Shaped t x par h lo hi mem → ∀ {j p : Nat}, j ∈ mem → (t.get j).parent = some p →
      (x = some j ∧ par = some p) ∨
      (p ∈ mem ∧ ((t.get p).left = some j ∨ (t.get p).right = some j)) := by
  intro x par h lo hi mem hs
  induction hs with
  | nil par h lo hi => intro j p hj; cases hj
  | node i par h lo hi L R hlt hpar hlo hhi hL hR ihL ihR =>
    intro j p hj hp
    rcases (by simpa using hj : j ∈ L ∨ j = i ∨ j ∈ R) with hjL | rfl | hjR
    · rcases ihL hjL hp with ⟨hx, hpeq⟩ | ⟨hpmem, hslot⟩
      · have hpi : i = p := by injection hpeq
        subst hpi
        exact Or.inr ⟨by simp, Or.inl hx⟩
      · exact Or.inr ⟨by simp [hpmem], hslot⟩
    · exact Or.inl ⟨rfl, by rw [← hp, hpar]⟩
    · rcases ihR hjR hp with ⟨hx, hpeq⟩ | ⟨hpmem, hslot⟩
      · have hpi : i = p := by injection hpeq
        subst hpi
        exact Or.inr ⟨by simp, Or.inr hx⟩
      · exact Or.inr ⟨by simp [hpmem], hslot⟩

/-- The left child of any member is a member. -/
theorem shaped_child_mem_left {t : RedBlackTree} :
    ∀ {x par : Option Nat} {h : Nat} {lo hi : Option Int} {mem : List Nat},
      Shaped t x par h lo hi mem → ∀ {j c : Nat}, j ∈ mem → (t.get j).left = some c →
      c ∈ mem := by
  intro x par h lo hi mem hs
  induction hs with
  | nil par h lo hi => intro j c hj; cases hj
  | node i par h lo hi L R hlt hpar hlo hhi hL hR ihL ihR =>
    intro j c hj hc
    rcases (by simpa using hj : j ∈ L ∨ j = i ∨ j ∈ R) with hjL | rfl | hjR
    · simp [ihL hjL hc]
    · rw [hc] at hL
      simp [shaped_root_mem hL]
    · simp [ihR hjR hc]

/-- The right child of any member is a member. -/
theorem shaped_child_mem_right {t : RedBlackTree} :
    ∀ {x par : Option Nat} {h : Nat} {lo hi : Option Int} {mem : List Nat},
      Shaped t x par h lo hi mem → ∀ {j c : Nat}, j ∈ mem → (t.get j).right = some c →
      c ∈ mem := by
  intro x par h lo hi mem hs
  induction hs with
  | nil par h lo hi => intro j c hj; cases hj
  | node i par h lo hi L R hlt hpar hlo hhi hL hR ihL ihR =>
    intro j c hj hc
    rcases (by simpa using hj : j ∈ L ∨ j = i ∨ j ∈ R) with hjL | rfl | hjR
    · simp [ihL hjL hc]
    · rw [hc] at hR
      simp [shaped_root_mem hR]
    · simp [ihR hjR hc]

/-- Widening the outer bounds of a `Shaped` derivation. -/
theorem shaped_bounds_mono {t : RedBlackTree} :
    ∀ {x par : Option Nat} {h : Nat} {lo hi : Option Int} {mem : List Nat},
      Shaped t x par h lo hi mem → ∀ {lo2 hi2 : Option Int},
      (∀ k, lowOk lo k → lowOk lo2 k) → (∀ k, hiOk k hi → hiOk k hi2) →
      Shaped t x par h lo2 hi2 mem := by
  intro x par h lo hi mem hs
  induction hs with
  | nil par h lo hi => intro lo2 hi2 _ _; exact Shaped.nil par h lo2 hi2
  | node i par h lo hi L R hlt hpar hlo hhi hL hR ihL ihR =>
    intro lo2 hi2 hl hh
    exact Shaped.node i par h lo2 hi2 L R hlt hpar (hl _ hlo) (hh _ hhi)
      (ihL hl (fun k hk => hk)) (ihR (fun k hk => hk) hh)

/-- The in-order member keys of a `Shaped` subtree are pairwise
non-decreasing. -/
theorem shaped_sorted {t : RedBlackTree} :
    ∀ {x par : Option Nat} {h : Nat} {lo hi : Option Int} {mem : List Nat},
      Shaped t x par h lo hi mem →
      List.Pairwise (· ≤ ·) (mem.map fun j => (t.get j).key) := by
  intro x par h lo hi mem hs
  induction hs with
  | nil par h lo hi => simp
  | node i par h lo hi L R hlt hpar hlo hhi hL hR ihL ihR =>
    rw [List.map_append, List.map_cons]
    rw [List.pairwise_append]
    refine ⟨ihL, List.pairwise_cons.2 ⟨?_, ihR⟩, ?_⟩
    · intro b hb
      obtain ⟨j, hj, rfl⟩ := List.mem_map.1 hb
      exact (shaped_mem_props hR hj).2.1
    · intro a ha b hb
      obtain ⟨j, hj, rfl⟩ := List.mem_map.1 ha
      have haj : (t.get j).key ≤ (t.get i).key := (shaped_mem_props hL hj).2.2
      rcases List.mem_cons.1 hb with rfl | hbR
      · exact haj
      · obtain ⟨j2, hj2, rfl⟩ := List.mem_map.1 hbR
        exact le_trans haj (shaped_mem_props hR hj2).2.1



/-! Record-level descriptions of the rotation primitives under the
distinctness facts that hold inside a well-formed tree. -/

/-- Record-level description of `left_rotate` at a node `xi` that is the left child of its parent `p`. -/
theorem left_rotate_desc_innerL {t : RedBlackTree} {xi yi p : Nat} {b : Option Nat}
    (hxi : xi < t.nodes.length) (hyi : yi < t.nodes.length) (hp : p < t.nodes.length)
    (hxr : (t.get xi).right = some yi) (hbdef : (t.get yi).left = b)
    (hpar : (t.get xi).parent = some p)
    (hside : (t.get p).left = some xi)
    (hxy : xi ≠ yi) (hxp : xi ≠ p) (hyp : yi ≠ p)
    (hbprop : ∀ bi, b = some bi → bi < t.nodes.length ∧ bi ≠ xi ∧ bi ≠ yi ∧ bi ≠ p) :
    (RedBlackTree.left_rotate t (some xi)).root = t.root ∧
    (RedBlackTree.left_rotate t (some xi)).nodes.length = t.nodes.length ∧
    (RedBlackTree.left_rotate t (some xi)).get xi =
      { t.get xi with right := b, parent := some yi } ∧
    (RedBlackTree.left_rotate t (some xi)).get yi =
      { t.get yi with left := some xi, parent := some p } ∧
    (RedBlackTree.left_rotate t (some xi)).get p = { t.get p with left := some yi } ∧
    (∀ bi, b = some bi →
      (RedBlackTree.left_rotate t (some xi)).get bi = { t.get bi with parent := some xi }) ∧
    (∀ j, j ≠ xi → j ≠ yi → j ≠ p → (∀ bi, b = some bi → j ≠ bi) →
      (RedBlackTree.left_rotate t (some xi)).get j = t.get j) := by
  rcases b with _ | bi
  · -- y has no left child
    have s1 : ((t.setRight xi none).get yi).left = none := by
      rw [get_setRight_ne t _ hxy, hbdef]
    have s2 : ((t.setRight xi none).get xi).parent = some p := by
      rw [get_setRight_self t _ _ hxi, hpar]
    have s3 : (((t.setRight xi none).setParent yi (some p)).get xi).parent = some p := by
      rw [get_setParent_ne _ _ (Ne.symm hxy)]
      exact s2
    have s4 : ((((t.setRight xi none).setParent yi (some p))).get p).left = some xi := by
      rw [get_setParent_ne _ _ hyp, get_setRight_ne t _ hxp, hside]
    have heq : RedBlackTree.left_rotate t (some xi) =
        ((((t.setRight xi none).setParent yi (some p)).setLeft p
          (some yi)).setLeft yi (some xi)).setParent xi (some yi) := by
      show (match (t.get xi).right with
        | none => t
        | some y =>
          let t1 := t.setRight xi ((t.get y).left)
          let t2 := match (t1.get y).left with
                   | some yl => t1.setParent yl (some xi)
                   | none => t1
          let t3 := t2.setParent y ((t2.get xi).parent)
          let t4 := match (t3.get xi).parent with
                   | none => t3.setRoot (some y)
                   | some q =>
                     if (t3.get q).left = some xi then t3.setLeft q (some y)
                     else t3.setRight q (some y)
          let t5 := t4.setLeft y (some xi)
          t5.setParent xi (some y)) = _
      rw [hxr]
      simp only [hbdef, s1, s2, s3, s4, if_pos]
    have hn1 : (t.setRight xi none).nodes.length = t.nodes.length := length_setNode _ _ _
    have hn2 : ((t.setRight xi none).setParent yi (some p)).nodes.length = t.nodes.length := by
      rw [length_setParent, hn1]
    have hn3 : (((t.setRight xi none).setParent yi (some p)).setLeft p
        (some yi)).nodes.length = t.nodes.length := by
      rw [length_setLeft, hn2]
    have hn4 : ((((t.setRight xi none).setParent yi (some p)).setLeft p
        (some yi)).setLeft yi (some xi)).nodes.length = t.nodes.length := by
      rw [length_setLeft, hn3]
    rw [heq]
    refine ⟨rfl, ?_, ?_, ?_, ?_, ?_, ?_⟩
    · rw [length_setParent, hn4]
    · rw [get_setParent_self _ _ _ (by rw [hn4]; exact hxi),
        get_setLeft_ne _ _ (Ne.symm hxy), get_setLeft_ne _ _ (Ne.symm hxp),
        get_setParent_ne _ _ (Ne.symm hxy), get_setRight_self t _ _ hxi]
    · rw [get_setParent_ne _ _ hxy,
        get_setLeft_self _ _ _ (by rw [hn3]; exact hyi),
        get_setLeft_ne _ _ (Ne.symm hyp),
        get_setParent_self _ _ _ (by rw [hn1]; exact hyi),
        get_setRight_ne t _ hxy]
    · rw [get_setParent_ne _ _ hxp, get_setLeft_ne _ _ hyp,
        get_setLeft_self _ _ _ (by rw [hn2]; exact hp),
        get_setParent_ne _ _ hyp, get_setRight_ne t _ hxp]
    · intro bi hbi; cases hbi
    · intro j hjx hjy hjp _
      rw [get_setParent_ne _ _ (Ne.symm hjx), get_setLeft_ne _ _ (Ne.symm hjy),
        get_setLeft_ne _ _ (Ne.symm hjp), get_setParent_ne _ _ (Ne.symm hjy),
        get_setRight_ne t _ (Ne.symm hjx)]
  · -- y has a left child bi, reparented to xi
    obtain ⟨hbi_lt, hbx, hby, hbp⟩ := hbprop bi rfl
    have s1 : ((t.setRight xi (some bi)).get yi).left = some bi := by
      rw [get_setRight_ne t _ hxy, hbdef]
    have s2 : (((t.setRight xi (some bi)).setParent bi (some xi)).get xi).parent = some p := by
      rw [get_setParent_ne _ _ hbx, get_setRight_self t _ _ hxi, hpar]
    have s3 : ((((t.setRight xi (some bi)).setParent bi (some xi)).setParent yi
        (some p)).get xi).parent = some p := by
      rw [get_setParent_ne _ _ (Ne.symm hxy)]
      exact s2
    have s4 : ((((t.setRight xi (some bi)).setParent bi (some xi)).setParent yi
        (some p)).get p).left = some xi := by
      rw [get_setParent_ne _ _ hyp, get_setParent_ne _ _ hbp, get_setRight_ne t _ hxp, hside]
    have heq : RedBlackTree.left_rotate t (some xi) =
        (((((t.setRight xi (some bi)).setParent bi (some xi)).setParent yi
          (some p)).setLeft p (some yi)).setLeft yi (some xi)).setParent xi (some yi) := by
      show (match (t.get xi).right with
        | none => t
        | some y =>
          let t1 := t.setRight xi ((t.get y).left)
          let t2 := match (t1.get y).left with
                   | some yl => t1.setParent yl (some xi)
                   | none => t1
          let t3 := t2.setParent y ((t2.get xi).parent)
          let t4 := match (t3.get xi).parent with
                   | none => t3.setRoot (some y)
                   | some q =>
                     if (t3.get q).left = some xi then t3.setLeft q (some y)
                     else t3.setRight q (some y)
          let t5 := t4.setLeft y (some xi)
          t5.setParent xi (some y)) = _
      rw [hxr]
      simp only [hbdef, s1, s2, s3, s4, if_pos]
    have hn1 : (t.setRight xi (some bi)).nodes.length = t.nodes.length := length_setNode _ _ _
    have hn1b : ((t.setRight xi (some bi)).setParent bi (some xi)).nodes.length =
        t.nodes.length := by
      rw [length_setParent, hn1]
    have hn2 : (((t.setRight xi (some bi)).setParent bi (some xi)).setParent yi
        (some p)).nodes.length = t.nodes.length := by
      rw [length_setParent, hn1b]
    have hn3 : ((((t.setRight xi (some bi)).setParent bi (some xi)).setParent yi
        (some p)).setLeft p (some yi)).nodes.length = t.nodes.length := by
      rw [length_setLeft, hn2]
    have hn4 : (((((t.setRight xi (some bi)).setParent bi (some xi)).setParent yi
        (some p)).setLeft p (some yi)).setLeft yi (some xi)).nodes.length = t.nodes.length := by
      rw [length_setLeft, hn3]
    rw [heq]
    refine ⟨rfl, ?_, ?_, ?_, ?_, ?_, ?_⟩
    · rw [length_setParent, hn4]
    · rw [get_setParent_self _ _ _ (by rw [hn4]; exact hxi),
        get_setLeft_ne _ _ (Ne.symm hxy), get_setLeft_ne _ _ (Ne.symm hxp),
        get_setParent_ne _ _ (Ne.symm hxy), get_setParent_ne _ _ hbx,
        get_setRight_self t _ _ hxi]
    · rw [get_setParent_ne _ _ hxy,
        get_setLeft_self _ _ _ (by rw [hn3]; exact hyi),
        get_setLeft_ne _ _ (Ne.symm hyp),
        get_setParent_self _ _ _ (by rw [hn1b]; exact hyi),
        get_setParent_ne _ _ hby, get_setRight_ne t _ hxy]
    · rw [get_setParent_ne _ _ hxp, get_setLeft_ne _ _ hyp,
        get_setLeft_self _ _ _ (by rw [hn2]; exact hp),
        get_setParent_ne _ _ hyp, get_setParent_ne _ _ hbp, get_setRight_ne t _ hxp]
    · intro bi2 hbi2
      have hbb : bi2 = bi := by injection hbi2.symm
      subst hbb
      rw [get_setParent_ne _ _ (Ne.symm hbx), get_setLeft_ne _ _ (Ne.symm hby),
        get_setLeft_ne _ _ (Ne.symm hbp), get_setParent_ne _ _ (Ne.symm hby),
        get_setParent_self _ _ _ (by rw [hn1]; exact hbi_lt),
        get_setRight_ne t _ (Ne.symm hbx)]
    · intro j hjx hjy hjp hjb
      have hjbi : j ≠ bi := hjb bi rfl
      rw [get_setParent_ne _ _ (Ne.symm hjx), get_setLeft_ne _ _ (Ne.symm hjy),
        get_setLeft_ne _ _ (Ne.symm hjp), get_setParent_ne _ _ (Ne.symm hjy),
        get_setParent_ne _ _ (Ne.symm hjbi), get_setRight_ne t _ (Ne.symm hjx)]

/-- Record-level description of `left_rotate` at a node `xi` that is not the left child of its parent `p`. -/
theorem left_rotate_desc_innerR {t : RedBlackTree} {xi yi p : Nat} {b : Option Nat}
    (hxi : xi < t.nodes.length) (hyi : yi < t.nodes.length) (hp : p < t.nodes.length)
    (hxr : (t.get xi).right = some yi) (hbdef : (t.get yi).left = b)
    (hpar : (t.get xi).parent = some p)
    (hside : ¬(t.get p).left = some xi)
    (hxy : xi ≠ yi) (hxp : xi ≠ p) (hyp : yi ≠ p)
    (hbprop : ∀ bi, b = some bi → bi < t.nodes.length ∧ bi ≠ xi ∧ bi ≠ yi ∧ bi ≠ p) :
    (RedBlackTree.left_rotate t (some xi)).root = t.root ∧
    (RedBlackTree.left_rotate t (some xi)).nodes.length = t.nodes.length ∧
    (RedBlackTree.left_rotate t (some xi)).get xi =
      { t.get xi with right := b, parent := some yi } ∧
    (RedBlackTree.left_rotate t (some xi)).get yi =
      { t.get yi with left := some xi, parent := some p } ∧
    (RedBlackTree.left_rotate t (some xi)).get p = { t.get p with right := some yi } ∧
    (∀ bi, b = some bi →
      (RedBlackTree.left_rotate t (some xi)).get bi = { t.get bi with parent := some xi }) ∧
    (∀ j, j ≠ xi → j ≠ yi → j ≠ p → (∀ bi, b = some bi → j ≠ bi) →
      (RedBlackTree.left_rotate t (some xi)).get j = t.get j) := by
  rcases b with _ | bi
  · -- y has no left child
    have s1 : ((t.setRight xi none).get yi).left = none := by
      rw [get_setRight_ne t _ hxy, hbdef]
    have s2 : ((t.setRight xi none).get xi).parent = some p := by
      rw [get_setRight_self t _ _ hxi, hpar]
    have s3 : (((t.setRight xi none).setParent yi (some p)).get xi).parent = some p := by
      rw [get_setParent_ne _ _ (Ne.symm hxy)]
      exact s2
    have s4 : ((((t.setRight xi none).setParent yi (some p))).get p).left = (t.get p).left := by
      rw [get_setParent_ne _ _ hyp, get_setRight_ne t _ hxp]
    have heq : RedBlackTree.left_rotate t (some xi) =
        ((((t.setRight xi none).setParent yi (some p)).setRight p
          (some yi)).setLeft yi (some xi)).setParent xi (some yi) := by
      show (match (t.get xi).right with
        | none => t
        | some y =>
          let t1 := t.setRight xi ((t.get y).left)
          let t2 := match (t1.get y).left with
                   | some yl => t1.setParent yl (some xi)
                   | none => t1
          let t3 := t2.setParent y ((t2.get xi).parent)
          let t4 := match (t3.get xi).parent with
                   | none => t3.setRoot (some y)
                   | some q =>
                     if (t3.get q).left = some xi then t3.setLeft q (some y)
                     else t3.setRight q (some y)
          let t5 := t4.setLeft y (some xi)
          t5.setParent xi (some y)) = _
      rw [hxr]
      simp only [hbdef, s1, s2, s3, s4, if_neg hside]
    have hn1 : (t.setRight xi none).nodes.length = t.nodes.length := length_setNode _ _ _
    have hn2 : ((t.setRight xi none).setParent yi (some p)).nodes.length = t.nodes.length := by
      rw [length_setParent, hn1]
    have hn3 : (((t.setRight xi none).setParent yi (some p)).setRight p
        (some yi)).nodes.length = t.nodes.length := by
      rw [length_setRight, hn2]
    have hn4 : ((((t.setRight xi none).setParent yi (some p)).setRight p
        (some yi)).setLeft yi (some xi)).nodes.length = t.nodes.length := by
      rw [length_setLeft, hn3]
    rw [heq]
    refine ⟨rfl, ?_, ?_, ?_, ?_, ?_, ?_⟩
    · rw [length_setParent, hn4]
    · rw [get_setParent_self _ _ _ (by rw [hn4]; exact hxi),
        get_setLeft_ne _ _ (Ne.symm hxy), get_setRight_ne _ _ (Ne.symm hxp),
        get_setParent_ne _ _ (Ne.symm hxy), get_setRight_self t _ _ hxi]
    · rw [get_setParent_ne _ _ hxy,
        get_setLeft_self _ _ _ (by rw [hn3]; exact hyi),
        get_setRight_ne _ _ (Ne.symm hyp),
        get_setParent_self _ _ _ (by rw [hn1]; exact hyi),
        get_setRight_ne t _ hxy]
    · rw [get_setParent_ne _ _ hxp, get_setLeft_ne _ _ hyp,
        get_setRight_self _ _ _ (by rw [hn2]; exact hp),
        get_setParent_ne _ _ hyp, get_setRight_ne t _ hxp]
    · intro bi hbi; cases hbi
    · intro j hjx hjy hjp _
      rw [get_setParent_ne _ _ (Ne.symm hjx), get_setLeft_ne _ _ (Ne.symm hjy),
        get_setRight_ne _ _ (Ne.symm hjp), get_setParent_ne _ _ (Ne.symm hjy),
        get_setRight_ne t _ (Ne.symm hjx)]
  · -- y has a left child bi, reparented to xi
    obtain ⟨hbi_lt, hbx, hby, hbp⟩ := hbprop bi rfl
    have s1 : ((t.setRight xi (some bi)).get yi).left = some bi := by
      rw [get_setRight_ne t _ hxy, hbdef]
    have s2 : (((t.setRight xi (some bi)).setParent bi (some xi)).get xi).parent = some p := by
      rw [get_setParent_ne _ _ hbx, get_setRight_self t _ _ hxi, hpar]
    have s3 : ((((t.setRight xi (some bi)).setParent bi (some xi)).setParent yi
        (some p)).get xi).parent = some p := by
      rw [get_setParent_ne _ _ (Ne.symm hxy)]
      exact s2
    have s4 : ((((t.setRight xi (some bi)).setParent bi (some xi)).setParent yi
        (some p)).get p).left = (t.get p).left := by
      rw [get_setParent_ne _ _ hyp, get_setParent_ne _ _ hbp, get_setRight_ne t _ hxp]
    have heq : RedBlackTree.left_rotate t (some xi) =
        (((((t.setRight xi (some bi)).setParent bi (some xi)).setParent yi
          (some p)).setRight p (some yi)).setLeft yi (some xi)).setParent xi (some yi) := by
      show (match (t.get xi).right with
        | none => t
        | some y =>
          let t1 := t.setRight xi ((t.get y).left)
          let t2 := match (t1.get y).left with
                   | some yl => t1.setParent yl (some xi)
                   | none => t1
          let t3 := t2.setParent y ((t2.get xi).parent)
          let t4 := match (t3.get xi).parent with
                   | none => t3.setRoot (some y)
                   | some q =>
                     if (t3.get q).left = some xi then t3.setLeft q (some y)
                     else t3.setRight q (some y)
          let t5 := t4.setLeft y (some xi)
          t5.setParent xi (some y)) = _
      rw [hxr]
      simp only [hbdef, s1, s2, s3, s4, if_neg hside]
    have hn1 : (t.setRight xi (some bi)).nodes.length = t.nodes.length := length_setNode _ _ _
    have hn1b : ((t.setRight xi (some bi)).setParent bi (some xi)).nodes.length =
        t.nodes.length := by
      rw [length_setParent, hn1]
    have hn2 : (((t.setRight xi (some bi)).setParent bi (some xi)).setParent yi
        (some p)).nodes.length = t.nodes.length := by
      rw [length_setParent, hn1b]
    have hn3 : ((((t.setRight xi (some bi)).setParent bi (some xi)).setParent yi
        (some p)).setRight p (some yi)).nodes.length = t.nodes.length := by
      rw [length_setRight, hn2]
    have hn4 : (((((t.setRight xi (some bi)).setParent bi (some xi)).setParent yi
        (some p)).setRight p (some yi)).setLeft yi (some xi)).nodes.length = t.nodes.length := by
      rw [length_setLeft, hn3]
    rw [heq]
    refine ⟨rfl, ?_, ?_, ?_, ?_, ?_, ?_⟩
    · rw [length_setParent, hn4]
    · rw [get_setParent_self _ _ _ (by rw [hn4]; exact hxi),
        get_setLeft_ne _ _ (Ne.symm hxy), get_setRight_ne _ _ (Ne.symm hxp),
        get_setParent_ne _ _ (Ne.symm hxy), get_setParent_ne _ _ hbx,
        get_setRight_self t _ _ hxi]
    · rw [get_setParent_ne _ _ hxy,
        get_setLeft_self _ _ _ (by rw [hn3]; exact hyi),
        get_setRight_ne _ _ (Ne.symm hyp),
        get_setParent_self _ _ _ (by rw [hn1b]; exact hyi),
        get_setParent_ne _ _ hby, get_setRight_ne t _ hxy]
    · rw [get_setParent_ne _ _ hxp, get_setLeft_ne _ _ hyp,
        get_setRight_self _ _ _ (by rw [hn2]; exact hp),
        get_setParent_ne _ _ hyp, get_setParent_ne _ _ hbp, get_setRight_ne t _ hxp]
    · intro bi2 hbi2
      have hbb : bi2 = bi := by injection hbi2.symm
      subst hbb
      rw [get_setParent_ne _ _ (Ne.symm hbx), get_setLeft_ne _ _ (Ne.symm hby),
        get_setRight_ne _ _ (Ne.symm hbp), get_setParent_ne _ _ (Ne.symm hby),
        get_setParent_self _ _ _ (by rw [hn1]; exact hbi_lt),
        get_setRight_ne t _ (Ne.symm hbx)]
    · intro j hjx hjy hjp hjb
      have hjbi : j ≠ bi := hjb bi rfl
      rw [get_setParent_ne _ _ (Ne.symm hjx), get_setLeft_ne _ _ (Ne.symm hjy),
        get_setRight_ne _ _ (Ne.symm hjp), get_setParent_ne _ _ (Ne.symm hjy),
        get_setParent_ne _ _ (Ne.symm hjbi), get_setRight_ne t _ (Ne.symm hjx)]

/-- Record-level description of `left_rotate` at the root (parent None). -/
theorem left_rotate_desc_root {t : RedBlackTree} {xi yi : Nat} {b : Option Nat}
    (hxi : xi < t.nodes.length) (hyi : yi < t.nodes.length)
    (hxr : (t.get xi).right = some yi) (hbdef : (t.get yi).left = b)
    (hpar : (t.get xi).parent = none)
    (hxy : xi ≠ yi)
    (hbprop : ∀ bi, b = some bi → bi < t.nodes.length ∧ bi ≠ xi ∧ bi ≠ yi) :
    (RedBlackTree.left_rotate t (some xi)).root = some yi ∧
    (RedBlackTree.left_rotate t (some xi)).nodes.length = t.nodes.length ∧
    (RedBlackTree.left_rotate t (some xi)).get xi =
      { t.get xi with right := b, parent := some yi } ∧
    (RedBlackTree.left_rotate t (some xi)).get yi =
      { t.get yi with left := some xi, parent := none } ∧
    (∀ bi, b = some bi →
      (RedBlackTree.left_rotate t (some xi)).get bi = { t.get bi with parent := some xi }) ∧
    (∀ j, j ≠ xi → j ≠ yi → (∀ bi, b = some bi → j ≠ bi) →
      (RedBlackTree.left_rotate t (some xi)).get j = t.get j) := by
  rcases b with _ | bi
  · have s1 : ((t.setRight xi none).get yi).left = none := by
      rw [get_setRight_ne t _ hxy, hbdef]
    have s2 : ((t.setRight xi none).get xi).parent = none := by
      rw [get_setRight_self t _ _ hxi, hpar]
    have s3 : (((t.setRight xi none).setParent yi none).get xi).parent = none := by
      rw [get_setParent_ne _ _ (Ne.symm hxy)]
      exact s2
    have heq : RedBlackTree.left_rotate t (some xi) =
        ((((t.setRight xi none).setParent yi none).setRoot
          (some yi)).setLeft yi (some xi)).setParent xi (some yi) := by
      show (match (t.get xi).right with
        | none => t
        | some y =>
          let t1 := t.setRight xi ((t.get y).left)
          let t2 := match (t1.get y).left with
                   | some yl => t1.setParent yl (some xi)
                   | none => t1
          let t3 := t2.setParent y ((t2.get xi).parent)
          let t4 := match (t3.get xi).parent with
                   | none => t3.setRoot (some y)
                   | some q =>
                     if (t3.get q).left = some xi then t3.setLeft q (some y)
                     else t3.setRight q (some y)
          let t5 := t4.setLeft y (some xi)
          t5.setParent xi (some y)) = _
      rw [hxr]
      simp only [hbdef, s1, s2, s3]
    have hn1 : (t.setRight xi none).nodes.length = t.nodes.length := length_setNode _ _ _
    have hn2 : ((t.setRight xi none).setParent yi none).nodes.length = t.nodes.length := by
      rw [length_setParent, hn1]
    have hn3 : (((t.setRight xi none).setParent yi none).setRoot
        (some yi)).nodes.length = t.nodes.length := by
      rw [length_setRoot, hn2]
    have hn4 : ((((t.setRight xi none).setParent yi none).setRoot
        (some yi)).setLeft yi (some xi)).nodes.length = t.nodes.length := by
      rw [length_setLeft, hn3]
    rw [heq]
    refine ⟨rfl, ?_, ?_, ?_, ?_, ?_⟩
    · rw [length_setParent, hn4]
    · rw [get_setParent_self _ _ _ (by rw [hn4]; exact hxi),
        get_setLeft_ne _ _ (Ne.symm hxy), get_setRoot,
        get_setParent_ne _ _ (Ne.symm hxy), get_setRight_self t _ _ hxi]
    · rw [get_setParent_ne _ _ hxy,
        get_setLeft_self _ _ _ (by rw [hn3]; exact hyi), get_setRoot,
        get_setParent_self _ _ _ (by rw [hn1]; exact hyi),
        get_setRight_ne t _ hxy]
    · intro bi hbi; cases hbi
    · intro j hjx hjy _
      rw [get_setParent_ne _ _ (Ne.symm hjx), get_setLeft_ne _ _ (Ne.symm hjy),
        get_setRoot, get_setParent_ne _ _ (Ne.symm hjy),
        get_setRight_ne t _ (Ne.symm hjx)]
  · obtain ⟨hbi_lt, hbx, hby⟩ := hbprop bi rfl
    have s1 : ((t.setRight xi (some bi)).get yi).left = some bi := by
      rw [get_setRight_ne t _ hxy, hbdef]
    have s2 : (((t.setRight xi (some bi)).setParent bi (some xi)).get xi).parent = none := by
      rw [get_setParent_ne _ _ hbx, get_setRight_self t _ _ hxi, hpar]
    have s3 : ((((t.setRight xi (some bi)).setParent bi (some xi)).setParent yi
        none).get xi).parent = none := by
      rw [get_setParent_ne _ _ (Ne.symm hxy)]
      exact s2
    have heq : RedBlackTree.left_rotate t (some xi) =
        (((((t.setRight xi (some bi)).setParent bi (some xi)).setParent yi
          none).setRoot (some yi)).setLeft yi (some xi)).setParent xi (some yi) := by
      show (match (t.get xi).right with
        | none => t
        | some y =>
          let t1 := t.setRight xi ((t.get y).left)
          let t2 := match (t1.get y).left with
                   | some yl => t1.setParent yl (some xi)
                   | none => t1
          let t3 := t2.setParent y ((t2.get xi).parent)
          let t4 := match (t3.get xi).parent with
                   | none => t3.setRoot (some y)
                   | some q =>
                     if (t3.get q).left = some xi then t3.setLeft q (some y)
                     else t3.setRight q (some y)
          let t5 := t4.setLeft y (some xi)
          t5.setParent xi (some y)) = _
      rw [hxr]
      simp only [hbdef, s1, s2, s3]
    have hn1 : (t.setRight xi (some bi)).nodes.length = t.nodes.length := length_setNode _ _ _
    have hn1b : ((t.setRight xi (some bi)).setParent bi (some xi)).nodes.length =
        t.nodes.length := by
      rw [length_setParent, hn1]
    have hn2 : (((t.setRight xi (some bi)).setParent bi (some xi)).setParent yi
        none).nodes.length = t.nodes.length := by
      rw [length_setParent, hn1b]
    have hn3 : ((((t.setRight xi (some bi)).setParent bi (some xi)).setParent yi
        none).setRoot (some yi)).nodes.length = t.nodes.length := by
      rw [length_setRoot, hn2]
    have hn4 : (((((t.setRight xi (some bi)).setParent bi (some xi)).setParent yi
        none).setRoot (some yi)).setLeft yi (some xi)).nodes.length = t.nodes.length := by
      rw [length_setLeft, hn3]
    rw [heq]
    refine ⟨rfl, ?_, ?_, ?_, ?_, ?_⟩
    · rw [length_setParent, hn4]
    · rw [get_setParent_self _ _ _ (by rw [hn4]; exact hxi),
        get_setLeft_ne _ _ (Ne.symm hxy), get_setRoot,
        get_setParent_ne _ _ (Ne.symm hxy), get_setParent_ne _ _ hbx,
        get_setRight_self t _ _ hxi]
    · rw [get_setParent_ne _ _ hxy,
        get_setLeft_self _ _ _ (by rw [hn3]; exact hyi), get_setRoot,
        get_setParent_self _ _ _ (by rw [hn1b]; exact hyi),
        get_setParent_ne _ _ hby, get_setRight_ne t _ hxy]
    · intro bi2 hbi2
      have hbb : bi2 = bi := by injection hbi2.symm
      subst hbb
      rw [get_setParent_ne _ _ (Ne.symm hbx), get_setLeft_ne _ _ (Ne.symm hby),
        get_setRoot, get_setParent_ne _ _ (Ne.symm hby),
        get_setParent_self _ _ _ (by rw [hn1]; exact hbi_lt),
        get_setRight_ne t _ (Ne.symm hbx)]
    · intro j hjx hjy hjb
      have hjbi : j ≠ bi := hjb bi rfl
      rw [get_setParent_ne _ _ (Ne.symm hjx), get_setLeft_ne _ _ (Ne.symm hjy),
        get_setRoot, get_setParent_ne _ _ (Ne.symm hjy),
        get_setParent_ne _ _ (Ne.symm hjbi), get_setRight_ne t _ (Ne.symm hjx)]

/-- Record-level description of `right_rotate` at a node `yi` that is the left child of its parent `p`. -/
theorem right_rotate_desc_innerL {t : RedBlackTree} {xi yi p : Nat} {b : Option Nat}
    (hxi : xi < t.nodes.length) (hyi : yi < t.nodes.length) (hp : p < t.nodes.length)
    (hyl : (t.get yi).left = some xi) (hbdef : (t.get xi).right = b)
    (hpar : (t.get yi).parent = some p)
    (hside : (t.get p).left = some yi)
    (hxy : xi ≠ yi) (hxp : xi ≠ p) (hyp : yi ≠ p)
    (hbprop : ∀ bi, b = some bi → bi < t.nodes.length ∧ bi ≠ xi ∧ bi ≠ yi ∧ bi ≠ p) :
    (RedBlackTree.right_rotate t (some yi)).root = t.root ∧
    (RedBlackTree.right_rotate t (some yi)).nodes.length = t.nodes.length ∧
    (RedBlackTree.right_rotate t (some yi)).get yi =
      { t.get yi with left := b, parent := some xi } ∧
    (RedBlackTree.right_rotate t (some yi)).get xi =
      { t.get xi with right := some yi, parent := some p } ∧
    (RedBlackTree.right_rotate t (some yi)).get p = { t.get p with left := some xi } ∧
    (∀ bi, b = some bi →
      (RedBlackTree.right_rotate t (some yi)).get bi = { t.get bi with parent := some yi }) ∧
    (∀ j, j ≠ xi → j ≠ yi → j ≠ p → (∀ bi, b = some bi → j ≠ bi) →
      (RedBlackTree.right_rotate t (some yi)).get j = t.get j) := by
  rcases b with _ | bi
  · have s1 : ((t.setLeft yi none).get xi).right = none := by
      rw [get_setLeft_ne t _ (Ne.symm hxy), hbdef]
    have s2 : ((t.setLeft yi none).get yi).parent = some p := by
      rw [get_setLeft_self t _ _ hyi, hpar]
    have s3 : (((t.setLeft yi none).setParent xi (some p)).get yi).parent = some p := by
      rw [get_setParent_ne _ _ hxy]
      exact s2
    have s4 : ((((t.setLeft yi none).setParent xi (some p))).get p).left = some yi := by
      rw [get_setParent_ne _ _ hxp, get_setLeft_ne t _ hyp, hside]
    have heq : RedBlackTree.right_rotate t (some yi) =
        ((((t.setLeft yi none).setParent xi (some p)).setLeft p
          (some xi)).setRight xi (some yi)).setParent yi (some xi) := by
      show (match (t.get yi).left with
        | none => t
        | some x =>
          let t1 := t.setLeft yi ((t.get x).right)
          let t2 := match (t1.get x).right with
                   | some xr => t1.setParent xr (some yi)
                   | none => t1
          let t3 := t2.setParent x ((t2.get yi).parent)
          let t4 := match (t3.get yi).parent with
                   | none => t3.setRoot (some x)
                   | some q =>
                     if (t3.get q).left = some yi then t3.setLeft q (some x)
                     else t3.setRight q (some x)
          let t5 := t4.setRight x (some yi)
          t5.setParent yi (some x)) = _
      rw [hyl]
      simp only [hbdef, s1, s2, s3, s4, if_pos]
    have hn1 : (t.setLeft yi none).nodes.length = t.nodes.length := length_setNode _ _ _
    have hn2 : ((t.setLeft yi none).setParent xi (some p)).nodes.length = t.nodes.length := by
      rw [length_setParent, hn1]
    have hn3 : (((t.setLeft yi none).setParent xi (some p)).setLeft p
        (some xi)).nodes.length = t.nodes.length := by
      rw [length_setLeft, hn2]
    have hn4 : ((((t.setLeft yi none).setParent xi (some p)).setLeft p
        (some xi)).setRight xi (some yi)).nodes.length = t.nodes.length := by
      rw [length_setRight, hn3]
    rw [heq]
    refine ⟨rfl, ?_, ?_, ?_, ?_, ?_, ?_⟩
    · rw [length_setParent, hn4]
    · rw [get_setParent_self _ _ _ (by rw [hn4]; exact hyi),
        get_setRight_ne _ _ hxy, get_setLeft_ne _ _ (Ne.symm hyp),
        get_setParent_ne _ _ hxy, get_setLeft_self t _ _ hyi]
    · rw [get_setParent_ne _ _ (Ne.symm hxy),
        get_setRight_self _ _ _ (by rw [hn3]; exact hxi),
        get_setLeft_ne _ _ (Ne.symm hxp),
        get_setParent_self _ _ _ (by rw [hn1]; exact hxi),
        get_setLeft_ne t _ (Ne.symm hxy)]
    · rw [get_setParent_ne _ _ hyp, get_setRight_ne _ _ hxp,
        get_setLeft_self _ _ _ (by rw [hn2]; exact hp),
        get_setParent_ne _ _ hxp, get_setLeft_ne t _ hyp]
    · intro bi hbi; cases hbi
    · intro j hjx hjy hjp _
      rw [get_setParent_ne _ _ (Ne.symm hjy), get_setRight_ne _ _ (Ne.symm hjx),
        get_setLeft_ne _ _ (Ne.symm hjp), get_setParent_ne _ _ (Ne.symm hjx),
        get_setLeft_ne t _ (Ne.symm hjy)]
  · obtain ⟨hbi_lt, hbx, hby, hbp⟩ := hbprop bi rfl
    have s1 : ((t.setLeft yi (some bi)).get xi).right = some bi := by
      rw [get_setLeft_ne t _ (Ne.symm hxy), hbdef]
    have s2 : (((t.setLeft yi (some bi)).setParent bi (some yi)).get yi).parent = some p := by
      rw [get_setParent_ne _ _ hby, get_setLeft_self t _ _ hyi, hpar]
    have s3 : ((((t.setLeft yi (some bi)).setParent bi (some yi)).setParent xi
        (some p)).get yi).parent = some p := by
      rw [get_setParent_ne _ _ hxy]
      exact s2
    have s4 : ((((t.setLeft yi (some bi)).setParent bi (some yi)).setParent xi
        (some p)).get p).left = some yi := by
      rw [get_setParent_ne _ _ hxp, get_setParent_ne _ _ hbp, get_setLeft_ne t _ hyp, hside]
    have heq : RedBlackTree.right_rotate t (some yi) =
        (((((t.setLeft yi (some bi)).setParent bi (some yi)).setParent xi
          (some p)).setLeft p (some xi)).setRight xi (some yi)).setParent yi (some xi) := by
      show (match (t.get yi).left with
        | none => t
        | some x =>
          let t1 := t.setLeft yi ((t.get x).right)
          let t2 := match (t1.get x).right with
                   | some xr => t1.setParent xr (some yi)
                   | none => t1
          let t3 := t2.setParent x ((t2.get yi).parent)
          let t4 := match (t3.get yi).parent with
                   | none => t3.setRoot (some x)
                   | some q =>
                     if (t3.get q).left = some yi then t3.setLeft q (some x)
                     else t3.setRight q (some x)
          let t5 := t4.setRight x (some yi)
          t5.setParent yi (some x)) = _
      rw [hyl]
      simp only [hbdef, s1, s2, s3, s4, if_pos]
    have hn1 : (t.setLeft yi (some bi)).nodes.length = t.nodes.length := length_setNode _ _ _
    have hn1b : ((t.setLeft yi (some bi)).setParent bi (some yi)).nodes.length =
        t.nodes.length := by
      rw [length_setParent, hn1]
    have hn2 : (((t.setLeft yi (some bi)).setParent bi (some yi)).setParent xi
        (some p)).nodes.length = t.nodes.length := by
      rw [length_setParent, hn1b]
    have hn3 : ((((t.setLeft yi (some bi)).setParent bi (some yi)).setParent xi
        (some p)).setLeft p (some xi)).nodes.length = t.nodes.length := by
      rw [length_setLeft, hn2]
    have hn4 : (((((t.setLeft yi (some bi)).setParent bi (some yi)).setParent xi
        (some p)).setLeft p (some xi)).setRight xi (some yi)).nodes.length =
        t.nodes.length := by
      rw [length_setRight, hn3]
    rw [heq]
    refine ⟨rfl, ?_, ?_, ?_, ?_, ?_, ?_⟩
    · rw [length_setParent, hn4]
    · rw [get_setParent_self _ _ _ (by rw [hn4]; exact hyi),
        get_setRight_ne _ _ hxy, get_setLeft_ne _ _ (Ne.symm hyp),
        get_setParent_ne _ _ hxy, get_setParent_ne _ _ hby,
        get_setLeft_self t _ _ hyi]
    · rw [get_setParent_ne _ _ (Ne.symm hxy),
        get_setRight_self _ _ _ (by rw [hn3]; exact hxi),
        get_setLeft_ne _ _ (Ne.symm hxp),
        get_setParent_self _ _ _ (by rw [hn1b]; exact hxi),
        get_setParent_ne _ _ hbx, get_setLeft_ne t _ (Ne.symm hxy)]
    · rw [get_setParent_ne _ _ hyp, get_setRight_ne _ _ hxp,
        get_setLeft_self _ _ _ (by rw [hn2]; exact hp),
        get_setParent_ne _ _ hxp, get_setParent_ne _ _ hbp, get_setLeft_ne t _ hyp]
    · intro bi2 hbi2
      have hbb : bi2 = bi := by injection hbi2.symm
      subst hbb
      rw [get_setParent_ne _ _ (Ne.symm hby), get_setRight_ne _ _ (Ne.symm hbx),
        get_setLeft_ne _ _ (Ne.symm hbp), get_setParent_ne _ _ (Ne.symm hbx),
        get_setParent_self _ _ _ (by rw [hn1]; exact hbi_lt),
        get_setLeft_ne t _ (Ne.symm hby)]
    · intro j hjx hjy hjp hjb
      have hjbi : j ≠ bi := hjb bi rfl
      rw [get_setParent_ne _ _ (Ne.symm hjy), get_setRight_ne _ _ (Ne.symm hjx),
        get_setLeft_ne _ _ (Ne.symm hjp), get_setParent_ne _ _ (Ne.symm hjx),
        get_setParent_ne _ _ (Ne.symm hjbi), get_setLeft_ne t _ (Ne.symm hjy)]

/-- Record-level description of `right_rotate` at a node `yi` that is not the left child of its parent `p`. -/
theorem right_rotate_desc_innerR {t : RedBlackTree} {xi yi p : Nat} {b : Option Nat}
    (hxi : xi < t.nodes.length) (hyi : yi < t.nodes.length) (hp : p < t.nodes.length)
    (hyl : (t.get yi).left = some xi) (hbdef : (t.get xi).right = b)
    (hpar : (t.get yi).parent = some p)
    (hside : ¬(t.get p).left = some yi)
    (hxy : xi ≠ yi) (hxp : xi ≠ p) (hyp : yi ≠ p)
    (hbprop : ∀ bi, b = some bi → bi < t.nodes.length ∧ bi ≠ xi ∧ bi ≠ yi ∧ bi ≠ p) :
    (RedBlackTree.right_rotate t (some yi)).root = t.root ∧
    (RedBlackTree.right_rotate t (some yi)).nodes.length = t.nodes.length ∧
    (RedBlackTree.right_rotate t (some yi)).get yi =
      { t.get yi with left := b, parent := some xi } ∧
    (RedBlackTree.right_rotate t (some yi)).get xi =
      { t.get xi with right := some yi, parent := some p } ∧
    (RedBlackTree.right_rotate t (some yi)).get p = { t.get p with right := some xi } ∧
    (∀ bi, b = some bi →
      (RedBlackTree.right_rotate t (some yi)).get bi = { t.get bi with parent := some yi }) ∧
    (∀ j, j ≠ xi → j ≠ yi → j ≠ p → (∀ bi, b = some bi → j ≠ bi) →
      (RedBlackTree.right_rotate t (some yi)).get j = t.get j) := by
  rcases b with _ | bi
  · have s1 : ((t.setLeft yi none).get xi).right = none := by
      rw [get_setLeft_ne t _ (Ne.symm hxy), hbdef]
    have s2 : ((t.setLeft yi none).get yi).parent = some p := by
      rw [get_setLeft_self t _ _ hyi, hpar]
    have s3 : (((t.setLeft yi none).setParent xi (some p)).get yi).parent = some p := by
      rw [get_setParent_ne _ _ hxy]
      exact s2
    have s4 : ((((t.setLeft yi none).setParent xi (some p))).get p).left = (t.get p).left := by
      rw [get_setParent_ne _ _ hxp, get_setLeft_ne t _ hyp]
    have heq : RedBlackTree.right_rotate t (some yi) =
        ((((t.setLeft yi none).setParent xi (some p)).setRight p
          (some xi)).setRight xi (some yi)).setParent yi (some xi) := by
      show (match (t.get yi).left with
        | none => t
        | some x =>
          let t1 := t.setLeft yi ((t.get x).right)
          let t2 := match (t1.get x).right with
                   | some xr => t1.setParent xr (some yi)
                   | none => t1
          let t3 := t2.setParent x ((t2.get yi).parent)
          let t4 := match (t3.get yi).parent with
                   | none => t3.setRoot (some x)
                   | some q =>
                     if (t3.get q).left = some yi then t3.setLeft q (some x)
                     else t3.setRight q (some x)
          let t5 := t4.setRight x (some yi)
          t5.setParent yi (some x)) = _
      rw [hyl]
      simp only [hbdef, s1, s2, s3, s4, if_neg hside]
    have hn1 : (t.setLeft yi none).nodes.length = t.nodes.length := length_setNode _ _ _
    have hn2 : ((t.setLeft yi none).setParent xi (some p)).nodes.length = t.nodes.length := by
      rw [length_setParent, hn1]
    have hn3 : (((t.setLeft yi none).setParent xi (some p)).setRight p
        (some xi)).nodes.length = t.nodes.length := by
      rw [length_setRight, hn2]
    have hn4 : ((((t.setLeft yi none).setParent xi (some p)).setRight p
        (some xi)).setRight xi (some yi)).nodes.length = t.nodes.length := by
      rw [length_setRight, hn3]
    rw [heq]
    refine ⟨rfl, ?_, ?_, ?_, ?_, ?_, ?_⟩
    · rw [length_setParent, hn4]
    · rw [get_setParent_self _ _ _ (by rw [hn4]; exact hyi),
        get_setRight_ne _ _ hxy, get_setRight_ne _ _ (Ne.symm hyp),
        get_setParent_ne _ _ hxy, get_setLeft_self t _ _ hyi]
    · rw [get_setParent_ne _ _ (Ne.symm hxy),
        get_setRight_self _ _ _ (by rw [hn3]; exact hxi),
        get_setRight_ne _ _ (Ne.symm hxp),
        get_setParent_self _ _ _ (by rw [hn1]; exact hxi),
        get_setLeft_ne t _ (Ne.symm hxy)]
    · rw [get_setParent_ne _ _ hyp, get_setRight_ne _ _ hxp,
        get_setRight_self _ _ _ (by rw [hn2]; exact hp),
        get_setParent_ne _ _ hxp, get_setLeft_ne t _ hyp]
    · intro bi hbi; cases hbi
    · intro j hjx hjy hjp _
      rw [get_setParent_ne _ _ (Ne.symm hjy), get_setRight_ne _ _ (Ne.symm hjx),
        get_setRight_ne _ _ (Ne.symm hjp), get_setParent_ne _ _ (Ne.symm hjx),
        get_setLeft_ne t _ (Ne.symm hjy)]
  · obtain ⟨hbi_lt, hbx, hby, hbp⟩ := hbprop bi rfl
    have s1 : ((t.setLeft yi (some bi)).get xi).right = some bi := by
      rw [get_setLeft_ne t _ (Ne.symm hxy), hbdef]
    have s2 : (((t.setLeft yi (some bi)).setParent bi (some yi)).get yi).parent = some p := by
      rw [get_setParent_ne _ _ hby, get_setLeft_self t _ _ hyi, hpar]
    have s3 : ((((t.setLeft yi (some bi)).setParent bi (some yi)).setParent xi
        (some p)).get yi).parent = some p := by
      rw [get_setParent_ne _ _ hxy]
      exact s2
    have s4 : ((((t.setLeft yi (some bi)).setParent bi (some yi)).setParent xi
        (some p)).get p).left = (t.get p).left := by
      rw [get_setParent_ne _ _ hxp, get_setParent_ne _ _ hbp, get_setLeft_ne t _ hyp]
    have heq : RedBlackTree.right_rotate t (some yi) =
        (((((t.setLeft yi (some bi)).setParent bi (some yi)).setParent xi
          (some p)).setRight p (some xi)).setRight xi (some yi)).setParent yi (some xi) := by
      show (match (t.get yi).left with
        | none => t
        | some x =>
          let t1 := t.setLeft yi ((t.get x).right)
          let t2 := match (t1.get x).right with
                   | some xr => t1.setParent xr (some yi)
                   | none => t1
          let t3 := t2.setParent x ((t2.get yi).parent)
          let t4 := match (t3.get yi).parent with
                   | none => t3.setRoot (some x)
                   | some q =>
                     if (t3.get q).left = some yi then t3.setLeft q (some x)
                     else t3.setRight q (some x)
          let t5 := t4.setRight x (some yi)
          t5.setParent yi (some x)) = _
      rw [hyl]
      simp only [hbdef, s1, s2, s3, s4, if_neg hside]
    have hn1 : (t.setLeft yi (some bi)).nodes.length = t.nodes.length := length_setNode _ _ _
    have hn1b : ((t.setLeft yi (some bi)).setParent bi (some yi)).nodes.length =
        t.nodes.length := by
      rw [length_setParent, hn1]
    have hn2 : (((t.setLeft yi (some bi)).setParent bi (some yi)).setParent xi
        (some p)).nodes.length = t.nodes.length := by
      rw [length_setParent, hn1b]
    have hn3 : ((((t.setLeft yi (some bi)).setParent bi (some yi)).setParent xi
        (some p)).setRight p (some xi)).nodes.length = t.nodes.length := by
      rw [length_setRight, hn2]
    have hn4 : (((((t.setLeft yi (some bi)).setParent bi (some yi)).setParent xi
        (some p)).setRight p (some xi)).setRight xi (some yi)).nodes.length =
        t.nodes.length := by
      rw [length_setRight, hn3]
    rw [heq]
    refine ⟨rfl, ?_, ?_, ?_, ?_, ?_, ?_⟩
    · rw [length_setParent, hn4]
    · rw [get_setParent_self _ _ _ (by rw [hn4]; exact hyi),
        get_setRight_ne _ _ hxy, get_setRight_ne _ _ (Ne.symm hyp),
        get_setParent_ne _ _ hxy, get_setParent_ne _ _ hby,
        get_setLeft_self t _ _ hyi]
    · rw [get_setParent_ne _ _ (Ne.symm hxy),
        get_setRight_self _ _ _ (by rw [hn3]; exact hxi),
        get_setRight_ne _ _ (Ne.symm hxp),
        get_setParent_self _ _ _ (by rw [hn1b]; exact hxi),
        get_setParent_ne _ _ hbx, get_setLeft_ne t _ (Ne.symm hxy)]
    · rw [get_setParent_ne _ _ hyp, get_setRight_ne _ _ hxp,
        get_setRight_self _ _ _ (by rw [hn2]; exact hp),
        get_setParent_ne _ _ hxp, get_setParent_ne _ _ hbp, get_setLeft_ne t _ hyp]
    · intro bi2 hbi2
      have hbb : bi2 = bi := by injection hbi2.symm
      subst hbb
      rw [get_setParent_ne _ _ (Ne.symm hby), get_setRight_ne _ _ (Ne.symm hbx),
        get_setRight_ne _ _ (Ne.symm hbp), get_setParent_ne _ _ (Ne.symm hbx),
        get_setParent_self _ _ _ (by rw [hn1]; exact hbi_lt),
        get_setLeft_ne t _ (Ne.symm hby)]
    · intro j hjx hjy hjp hjb
      have hjbi : j ≠ bi := hjb bi rfl
      rw [get_setParent_ne _ _ (Ne.symm hjy), get_setRight_ne _ _ (Ne.symm hjx),
        get_setRight_ne _ _ (Ne.symm hjp), get_setParent_ne _ _ (Ne.symm hjx),
        get_setParent_ne _ _ (Ne.symm hjbi), get_setLeft_ne t _ (Ne.symm hjy)]

/-- Record-level description of `right_rotate` at the root (parent None). -/
theorem right_rotate_desc_root {t : RedBlackTree} {xi yi : Nat} {b : Option Nat}
    (hxi : xi < t.nodes.length) (hyi : yi < t.nodes.length)
    (hyl : (t.get yi).left = some xi) (hbdef : (t.get xi).right = b)
    (hpar : (t.get yi).parent = none)
    (hxy : xi ≠ yi)
    (hbprop : ∀ bi, b = some bi → bi < t.nodes.length ∧ bi ≠ xi ∧ bi ≠ yi) :
    (RedBlackTree.right_rotate t (some yi)).root = some xi ∧
    (RedBlackTree.right_rotate t (some yi)).nodes.length = t.nodes.length ∧
    (RedBlackTree.right_rotate t (some yi)).get yi =
      { t.get yi with left := b, parent := some xi } ∧
    (RedBlackTree.right_rotate t (some yi)).get xi =
      { t.get xi with right := some yi, parent := none } ∧
    (∀ bi, b = some bi →
      (RedBlackTree.right_rotate t (some yi)).get bi = { t.get bi with parent := some yi }) ∧
    (∀ j, j ≠ xi → j ≠ yi → (∀ bi, b = some bi → j ≠ bi) →
      (RedBlackTree.right_rotate t (some yi)).get j = t.get j) := by
  rcases b with _ | bi
  · have s1 : ((t.setLeft yi none).get xi).right = none := by
      rw [get_setLeft_ne t _ (Ne.symm hxy), hbdef]
    have s2 : ((t.setLeft yi none).get yi).parent = none := by
      rw [get_setLeft_self t _ _ hyi, hpar]
    have s3 : (((t.setLeft yi none).setParent xi none).get yi).parent = none := by
      rw [get_setParent_ne _ _ hxy]
      exact s2
    have heq : RedBlackTree.right_rotate t (some yi) =
        ((((t.setLeft yi none).setParent xi none).setRoot
          (some xi)).setRight xi (some yi)).setParent yi (some xi) := by
      show (match (t.get yi).left with
        | none => t
        | some x =>
          let t1 := t.setLeft yi ((t.get x).right)
          let t2 := match (t1.get x).right with
                   | some xr => t1.setParent xr (some yi)
                   | none => t1
          let t3 := t2.setParent x ((t2.get yi).parent)
          let t4 := match (t3.get yi).parent with
                   | none => t3.setRoot (some x)
                   | some q =>
                     if (t3.get q).left = some yi then t3.setLeft q (some x)
                     else t3.setRight q (some x)
          let t5 := t4.setRight x (some yi)
          t5.setParent yi (some x)) = _
      rw [hyl]
      simp only [hbdef, s1, s2, s3]
    have hn1 : (t.setLeft yi none).nodes.length = t.nodes.length := length_setNode _ _ _
    have hn2 : ((t.setLeft yi none).setParent xi none).nodes.length = t.nodes.length := by
      rw [length_setParent, hn1]
    have hn3 : (((t.setLeft yi none).setParent xi none).setRoot
        (some xi)).nodes.length = t.nodes.length := by
      rw [length_setRoot, hn2]
    have hn4 : ((((t.setLeft yi none).setParent xi none).setRoot
        (some xi)).setRight xi (some yi)).nodes.length = t.nodes.length := by
      rw [length_setRight, hn3]
    rw [heq]
    refine ⟨rfl, ?_, ?_, ?_, ?_, ?_⟩
    · rw [length_setParent, hn4]
    · rw [get_setParent_self _ _ _ (by rw [hn4]; exact hyi),
        get_setRight_ne _ _ hxy, get_setRoot,
        get_setParent_ne _ _ hxy, get_setLeft_self t _ _ hyi]
    · rw [get_setParent_ne _ _ (Ne.symm hxy),
        get_setRight_self _ _ _ (by rw [hn3]; exact hxi), get_setRoot,
        get_setParent_self _ _ _ (by rw [hn1]; exact hxi),
        get_setLeft_ne t _ (Ne.symm hxy)]
    · intro bi hbi; cases hbi
    · intro j hjx hjy _
      rw [get_setParent_ne _ _ (Ne.symm hjy), get_setRight_ne _ _ (Ne.symm hjx),
        get_setRoot, get_setParent_ne _ _ (Ne.symm hjx),
        get_setLeft_ne t _ (Ne.symm hjy)]
  · obtain ⟨hbi_lt, hbx, hby⟩ := hbprop bi rfl
    have s1 : ((t.setLeft yi (some bi)).get xi).right = some bi := by
      rw [get_setLeft_ne t _ (Ne.symm hxy), hbdef]
    have s2 : (((t.setLeft yi (some bi)).setParent bi (some yi)).get yi).parent = none := by
      rw [get_setParent_ne _ _ hby, get_setLeft_self t _ _ hyi, hpar]
    have s3 : ((((t.setLeft yi (some bi)).setParent bi (some yi)).setParent xi
        none).get yi).parent = none := by
      rw [get_setParent_ne _ _ hxy]
      exact s2
    have heq : RedBlackTree.right_rotate t (some yi) =
        (((((t.setLeft yi (some bi)).setParent bi (some yi)).setParent xi
          none).setRoot (some xi)).setRight xi (some yi)).setParent yi (some xi) := by
      show (match (t.get yi).left with
        | none => t
        | some x =>
          let t1 := t.setLeft yi ((t.get x).right)
          let t2 := match (t1.get x).right with
                   | some xr => t1.setParent xr (some yi)
                   | none => t1
          let t3 := t2.setParent x ((t2.get yi).parent)
          let t4 := match (t3.get yi).parent with
                   | none => t3.setRoot (some x)
                   | some q =>
                     if (t3.get q).left = some yi then t3.setLeft q (some x)
                     else t3.setRight q (some x)
          let t5 := t4.setRight x (some yi)
          t5.setParent yi (some x)) = _
      rw [hyl]
      simp only [hbdef, s1, s2, s3]
    have hn1 : (t.setLeft yi (some bi)).nodes.length = t.nodes.length := length_setNode _ _ _
    have hn1b : ((t.setLeft yi (some bi)).setParent bi (some yi)).nodes.length =
        t.nodes.length := by
      rw [length_setParent, hn1]
    have hn2 : (((t.setLeft yi (some bi)).setParent bi (some yi)).setParent xi
        none).nodes.length = t.nodes.length := by
      rw [length_setParent, hn1b]
    have hn3 : ((((t.setLeft yi (some bi)).setParent bi (some yi)).setParent xi
        none).setRoot (some xi)).nodes.length = t.nodes.length := by
      rw [length_setRoot, hn2]
    have hn4 : (((((t.setLeft yi (some bi)).setParent bi (some yi)).setParent xi
        none).setRoot (some xi)).setRight xi (some yi)).nodes.length = t.nodes.length := by
      rw [length_setRight, hn3]
    rw [heq]
    refine ⟨rfl, ?_, ?_, ?_, ?_, ?_⟩
    · rw [length_setParent, hn4]
    · rw [get_setParent_self _ _ _ (by rw [hn4]; exact hyi),
        get_setRight_ne _ _ hxy, get_setRoot,
        get_setParent_ne _ _ hxy, get_setParent_ne _ _ hby,
        get_setLeft_self t _ _ hyi]
    · rw [get_setParent_ne _ _ (Ne.symm hxy),
        get_setRight_self _ _ _ (by rw [hn3]; exact hxi), get_setRoot,
        get_setParent_self _ _ _ (by rw [hn1b]; exact hxi),
        get_setParent_ne _ _ hbx, get_setLeft_ne t _ (Ne.symm hxy)]
    · intro bi2 hbi2
      have hbb : bi2 = bi := by injection hbi2.symm
      subst hbb
      rw [get_setParent_ne _ _ (Ne.symm hby), get_setRight_ne _ _ (Ne.symm hbx),
        get_setRoot, get_setParent_ne _ _ (Ne.symm hbx),
        get_setParent_self _ _ _ (by rw [hn1]; exact hbi_lt),
        get_setLeft_ne t _ (Ne.symm hby)]
    · intro j hjx hjy hjb
      have hjbi : j ≠ bi := hjb bi rfl
      rw [get_setParent_ne _ _ (Ne.symm hjy), get_setRight_ne _ _ (Ne.symm hjx),
        get_setRoot, get_setParent_ne _ _ (Ne.symm hjx),
        get_setParent_ne _ _ (Ne.symm hjbi), get_setLeft_ne t _ (Ne.symm hjy)]

/-- Transfer a `Shaped` subtree to a new arena when only its root is
reparented and every other member is untouched. -/
theorem shaped_reroot {t u : RedBlackTree} (hlen : t.nodes.length ≤ u.nodes.length) :
    ∀ {x par : Option Nat} {h : Nat} {lo hi : Option Int} {mem : List Nat},
      Shaped t x par h lo hi mem → mem.Nodup → ∀ par2 : Option Nat,
      (∀ j, j ∈ mem → (u.get j).key = (t.get j).key ∧ (u.get j).left = (t.get j).left ∧
        (u.get j).right = (t.get j).right) →
      (∀ j, j ∈ mem → x ≠ some j → (u.get j).parent = (t.get j).parent) →
      (∀ bi, x = some bi → (u.get bi).parent = par2) →
      Shaped u x par2 h lo hi mem := by
  intro x par h lo hi mem hs
  cases hs with
  | nil par h lo hi => intro _ par2 _ _ _; exact Shaped.nil par2 h lo hi
  | node i par h lo hi L R hlt hpar hlo hhi hL hR =>
    intro hnd par2 hag hpag hroot
    obtain ⟨hk, hl, hr⟩ := hag i (by simp)
    have hiL : ¬i ∈ L := by
      intro hiL
      have := (List.nodup_append.1 hnd).2.2
      exact this hiL (by simp)
    have hiR : ¬i ∈ R := by
      have := (List.nodup_append.1 hnd).2.1
      exact (List.nodup_cons.1 this).1
    refine Shaped.node i par2 h lo hi L R (lt_of_lt_of_le hlt hlen) (hroot i rfl) ?_ ?_ ?_ ?_
    · rw [hk]; exact hlo
    · rw [hk]; exact hhi
    · rw [hl, hk]
      refine shaped_fields_frame hlen hL ?_
      intro j hj
      have hji : ¬(some i = some j) := by
        intro he
        injection he with he2
        exact hiL (he2 ▸ hj)
      obtain ⟨a, b, c⟩ := hag j (by simp [hj])
      exact ⟨a, b, c, hpag j (by simp [hj]) hji⟩
    · rw [hr, hk]
      refine shaped_fields_frame hlen hR ?_
      intro j hj
      have hji : ¬(some i = some j) := by
        intro he
        injection he with he2
        exact hiR (he2 ▸ hj)
      obtain ⟨a, b, c⟩ := hag j (by simp [hj])
      exact ⟨a, b, c, hpag j (by simp [hj]) hji⟩


theorem rotate_noop_left (t : RedBlackTree) (xi : Nat) (h : (t.get xi).right = none) :
    RedBlackTree.left_rotate t (some xi) = t := by
  simp [RedBlackTree.left_rotate, h]

theorem rotate_noop_right (t : RedBlackTree) (yi : Nat) (h : (t.get yi).left = none) :
    RedBlackTree.right_rotate t (some yi) = t := by
  simp [RedBlackTree.right_rotate, h]

theorem shaped_left_rotate_go {t : RedBlackTree} {xi yi : Nat}
    (hrot : (t.get xi).right = some yi) :
    ∀ {x par : Option Nat} {h : Nat} {lo hi : Option Int} {mem : List Nat},
      Shaped t x par h lo hi mem → mem.Nodup → xi ∈ mem → x ≠ some xi →
      ∃ h2, Shaped (RedBlackTree.left_rotate t (some xi)) x par h2 lo hi mem ∧
        (∀ j, ¬j ∈ mem → (RedBlackTree.left_rotate t (some xi)).get j = t.get j) ∧
        (RedBlackTree.left_rotate t (some xi)).root = t.root ∧
        (RedBlackTree.left_rotate t (some xi)).nodes.length = t.nodes.length := by
  intro x par h lo hi mem hs
  induction hs with
  | nil par h lo hi => intro _ hmem _; cases hmem
  | node i par h lo hi L R hlt hpar hlo hhi hL hR ihL ihR =>
    intro hnd hmem hne
    have hix : i ≠ xi := fun he => hne (by rw [he])
    have hndL : L.Nodup := (List.nodup_append.1 hnd).1
    have hndiR : (i :: R).Nodup := (List.nodup_append.1 hnd).2.1
    have hdisj : L.Disjoint (i :: R) := (List.nodup_append.1 hnd).2.2
    have hndR : R.Nodup := (List.nodup_cons.1 hndiR).2
    have hiR : ¬i ∈ R := (List.nodup_cons.1 hndiR).1
    have hiL : ¬i ∈ L := fun hmemL => hdisj hmemL (by simp)
    rcases (by simpa using hmem : xi ∈ L ∨ xi = i ∨ xi ∈ R) with hxiL | rfl | hxiR
    · -- rotation inside the left subtree
      by_cases hdir : (t.get i).left = some xi
      · -- xi is i's direct left child: local surgery
        rw [hdir] at hL
        cases hL
        rename_i hh A Y hxlt hxpar hxlo hA hxhi hY
        rw [hrot] at hY
        cases hY
        rename_i hh2 B C hylt hypar hylo hB hyhi hC
        have h1 := List.nodup_append.1 hndL
        have hndA := h1.1
        have hdisjA := h1.2.2
        have h2 := List.nodup_cons.1 h1.2.1
        have hxiBC := h2.1
        have h3 := List.nodup_append.1 h2.2
        have hndB := h3.1
        have hdisjB := h3.2.2
        have h4 := List.nodup_cons.1 h3.2.1
        have hyiC := h4.1
        have hxiy : xi ≠ yi := fun he => hxiBC (by simp [he])
        have hiy : i ≠ yi := fun he => hiL (by simp [← he])
        have hbprop : ∀ bi, (t.get yi).left = some bi →
            bi < t.nodes.length ∧ bi ≠ xi ∧ bi ≠ yi ∧ bi ≠ i := by
          intro bi hbi
          rw [hbi] at hB
          have hbiB : bi ∈ B := shaped_root_mem hB
          refine ⟨(shaped_mem_props hB hbiB).1, ?_, ?_, ?_⟩
          · intro he; exact hxiBC (by simp [← he, hbiB])
          · intro he; exact hdisjB hbiB (by simp [he])
          · intro he; exact hiL (by simp [← he, hbiB])
        obtain ⟨droot, dlen, dxi, dyi, dp, dbi, dother⟩ :=
          left_rotate_desc_innerL hxlt hylt hlt hrot rfl hxpar hdir hxiy
            (Ne.symm hix) (Ne.symm hiy) hbprop
        have hlen2 : t.nodes.length ≤
            (RedBlackTree.left_rotate t (some xi)).nodes.length := le_of_eq dlen.symm
        have hA2 : Shaped (RedBlackTree.left_rotate t (some xi)) ((t.get xi).left)
            (some xi) (hh2 + 1) lo (some ((t.get xi).key)) A := by
          refine shaped_fields_frame hlen2 hA ?_
          intro j hj
          have hjx : j ≠ xi := fun he => hdisjA hj (by simp [he])
          have hjy : j ≠ yi := fun he => hdisjA hj (by simp [he])
          have hji : j ≠ i := fun he => hiL (by simp [← he, hj])
          rw [dother j hjx hjy hji ?_]
          · exact ⟨rfl, rfl, rfl, rfl⟩
          · intro bi hbi he
            rw [hbi] at hB
            exact hdisjA hj (by simp [he, shaped_root_mem hB])
        have hB2 : Shaped (RedBlackTree.left_rotate t (some xi)) ((t.get yi).left)
            (some xi) hh2 (some ((t.get xi).key)) (some ((t.get yi).key)) B := by
          refine shaped_reroot hlen2 hB hndB (some xi) ?_ ?_ ?_
          · intro j hj
            by_cases hjb : (t.get yi).left = some j
            · rw [dbi j hjb]
              exact ⟨rfl, rfl, rfl⟩
            · have hjx : j ≠ xi := fun he => hxiBC (by simp [← he, hj])
              have hjy : j ≠ yi := fun he => hdisjB hj (by simp [he])
              have hji : j ≠ i := fun he => hiL (by simp [← he, hj])
              rw [dother j hjx hjy hji (fun bi hbi he => hjb (by rw [hbi, he]))]
              exact ⟨rfl, rfl, rfl⟩
          · intro j hj hjb
            have hjx : j ≠ xi := fun he => hxiBC (by simp [← he, hj])
            have hjy : j ≠ yi := fun he => hdisjB hj (by simp [he])
            have hji : j ≠ i := fun he => hiL (by simp [← he, hj])
            rw [dother j hjx hjy hji (fun bi hbi he => hjb (by rw [hbi, he]))]
          · intro bi hbi
            rw [dbi bi hbi]
        have hC2 : Shaped (RedBlackTree.left_rotate t (some xi)) ((t.get yi).right)
            (some yi) hh2 (some ((t.get yi).key)) (some ((t.get i).key)) C := by
          refine shaped_fields_frame hlen2 hC ?_
          intro j hj
          have hjx : j ≠ xi := fun he => hxiBC (by simp [← he, hj])
          have hjy : j ≠ yi := fun he => hyiC (he ▸ hj)
          have hji : j ≠ i := fun he => hiL (by simp [← he, hj])
          rw [dother j hjx hjy hji ?_]
          · exact ⟨rfl, rfl, rfl, rfl⟩
          · intro bi hbi he
            rw [hbi] at hB
            exact hdisjB (shaped_root_mem hB) (by simp [← he, hj])
        have hR2 : Shaped (RedBlackTree.left_rotate t (some xi)) ((t.get i).right)
            (some i) (hh2 + 1 + 1) (some ((t.get i).key)) hi R := by
          refine shaped_fields_frame hlen2 hR ?_
          intro j hj
          have hjx : j ≠ xi := fun he =>
            hdisj (show xi ∈ A ++ xi :: (B ++ yi :: C) by simp) (by simp [← he, hj])
          have hjy : j ≠ yi := fun he =>
            hdisj (show yi ∈ A ++ xi :: (B ++ yi :: C) by simp) (by simp [← he, hj])
          have hji : j ≠ i := fun he => hiR (he ▸ hj)
          rw [dother j hjx hjy hji ?_]
          · exact ⟨rfl, rfl, rfl, rfl⟩
          · intro bi hbi he
            rw [hbi] at hB
            exact hdisj (show bi ∈ A ++ xi :: (B ++ yi :: C) by
              simp [shaped_root_mem hB]) (by simp [← he, hj])
        have hxi_node : Shaped (RedBlackTree.left_rotate t (some xi)) (some xi)
            (some yi) (max (hh2 + 1) hh2 + 1) lo (some ((t.get yi).key)) (A ++ xi :: B) := by
          refine Shaped.node xi (some yi) (max (hh2 + 1) hh2) lo (some ((t.get yi).key)) A B
            ?_ ?_ ?_ ?_ ?_ ?_
          · rw [dlen]; exact hxlt
          · rw [dxi]
          · rw [dxi]; exact hxlo
          · rw [dxi]; exact hylo
          · rw [dxi]; exact shaped_height_le hA2 (le_max_left _ _)
          · rw [dxi]; exact shaped_height_le hB2 (le_max_right _ _)
        have hyi_node : Shaped (RedBlackTree.left_rotate t (some xi)) (some yi)
            (some i) (max (max (hh2 + 1) hh2 + 1) hh2 + 1) lo (some ((t.get i).key))
            ((A ++ xi :: B) ++ yi :: C) := by
          refine Shaped.node yi (some i) (max (max (hh2 + 1) hh2 + 1) hh2) lo
            (some ((t.get i).key)) (A ++ xi :: B) C ?_ ?_ ?_ ?_ ?_ ?_
          · rw [dlen]; exact hylt
          · rw [dyi]
          · rw [dyi]; exact lowOk_trans hxlo hylo
          · rw [dyi]; exact hyhi
          · rw [dyi]; exact shaped_height_le hxi_node (le_max_left _ _)
          · rw [dyi]; exact shaped_height_le hC2 (le_max_right _ _)
        rw [show (A ++ xi :: B) ++ yi :: C = A ++ xi :: (B ++ yi :: C) by simp] at hyi_node
        refine ⟨max (max (max (hh2 + 1) hh2 + 1) hh2 + 1) (hh2 + 1 + 1) + 1, ?_, ?_, droot, dlen⟩
        · refine Shaped.node i par _ lo hi (A ++ xi :: (B ++ yi :: C)) R ?_ ?_ ?_ ?_ ?_ ?_
          · rw [dlen]; exact hlt
          · rw [dp]; exact hpar
          · rw [dp]; exact hlo
          · rw [dp]; exact hhi
          · rw [dp]; exact shaped_height_le hyi_node (le_max_left _ _)
          · rw [dp]; exact shaped_height_le hR2 (le_max_right _ _)
        · intro j hj
          have hjx : j ≠ xi := fun he => hj (by simp [he])
          have hjy : j ≠ yi := fun he => hj (by simp [he])
          have hji : j ≠ i := fun he => hj (by simp [he])
          refine dother j hjx hjy hji ?_
          intro bi hbi he
          rw [hbi] at hB
          exact hj (by simp [he, shaped_root_mem hB])
      · -- strictly deeper: recurse
        obtain ⟨h2, hsh, hframe, hroot2, hlen2⟩ := ihL hndL hxiL hdir
        have hgi : (RedBlackTree.left_rotate t (some xi)).get i = t.get i :=
          hframe i hiL
        have hR2 : Shaped (RedBlackTree.left_rotate t (some xi)) ((t.get i).right)
            (some i) h (some ((t.get i).key)) hi R := by
          refine shaped_fields_frame (le_of_eq hlen2.symm) hR ?_
          intro j hj
          rw [hframe j (fun hjL => hdisj hjL (by simp [hj]))]
          exact ⟨rfl, rfl, rfl, rfl⟩
        refine ⟨max h2 h + 1, ?_, fun j hj => hframe j (fun hjL => hj (by simp [hjL])),
          hroot2, hlen2⟩
        refine Shaped.node i par (max h2 h) lo hi L R ?_ ?_ ?_ ?_ ?_ ?_
        · rw [hlen2]; exact hlt
        · rw [hgi]; exact hpar
        · rw [hgi]; exact hlo
        · rw [hgi]; exact hhi
        · rw [hgi]; exact shaped_height_le hsh (le_max_left _ _)
        · rw [hgi]; exact shaped_height_le hR2 (le_max_right _ _)
    · exact absurd rfl (Ne.symm hix)
    · -- rotation inside the right subtree
      by_cases hdir : (t.get i).right = some xi
      · -- xi is i's direct right child: local surgery
        rw [hdir] at hR
        cases hR
        rename_i hh A Y hxlt hxpar hxlo hA hxhi hY
        rw [hrot] at hY
        cases hY
        rename_i hh2 B C hylt hypar hylo hB hyhi hC
        have h1 := List.nodup_append.1 hndR
        have hndA := h1.1
        have hdisjA := h1.2.2
        have h2 := List.nodup_cons.1 h1.2.1
        have hxiBC := h2.1
        have h3 := List.nodup_append.1 h2.2
        have hndB := h3.1
        have hdisjB := h3.2.2
        have h4 := List.nodup_cons.1 h3.2.1
        have hyiC := h4.1
        have hxiy : xi ≠ yi := fun he => hxiBC (by simp [he])
        have hiy : i ≠ yi := fun he => hiR (by simp [← he])
        have hsideN : ¬(t.get i).left = some xi := by
          intro he
          rw [he] at hL
          exact hdisj (shaped_root_mem hL) (by simp [hxiR])
        have hbprop : ∀ bi, (t.get yi).left = some bi →
            bi < t.nodes.length ∧ bi ≠ xi ∧ bi ≠ yi ∧ bi ≠ i := by
          intro bi hbi
          rw [hbi] at hB
          have hbiB : bi ∈ B := shaped_root_mem hB
          refine ⟨(shaped_mem_props hB hbiB).1, ?_, ?_, ?_⟩
          · intro he; exact hxiBC (by simp [← he, hbiB])
          · intro he; exact hdisjB hbiB (by simp [he])
          · intro he; exact hiR (by simp [← he, hbiB])
        obtain ⟨droot, dlen, dxi, dyi, dp, dbi, dother⟩ :=
          left_rotate_desc_innerR hxlt hylt hlt hrot rfl hxpar hsideN hxiy
            (Ne.symm hix) (Ne.symm hiy) hbprop
        have hlen2 : t.nodes.length ≤
            (RedBlackTree.left_rotate t (some xi)).nodes.length := le_of_eq dlen.symm
        have hA2 : Shaped (RedBlackTree.left_rotate t (some xi)) ((t.get xi).left)
            (some xi) (hh2 + 1) (some ((t.get i).key)) (some ((t.get xi).key)) A := by
          refine shaped_fields_frame hlen2 hA ?_
          intro j hj
          have hjx : j ≠ xi := fun he => hdisjA hj (by simp [he])
          have hjy : j ≠ yi := fun he => hdisjA hj (by simp [he])
          have hji : j ≠ i := fun he => hiR (by simp [← he, hj])
          rw [dother j hjx hjy hji ?_]
          · exact ⟨rfl, rfl, rfl, rfl⟩
          · intro bi hbi he
            rw [hbi] at hB
            exact hdisjA hj (by simp [he, shaped_root_mem hB])
        have hB2 : Shaped (RedBlackTree.left_rotate t (some xi)) ((t.get yi).left)
            (some xi) hh2 (some ((t.get xi).key)) (some ((t.get yi).key)) B := by
          refine shaped_reroot hlen2 hB hndB (some xi) ?_ ?_ ?_
          · intro j hj
            by_cases hjb : (t.get yi).left = some j
            · rw [dbi j hjb]
              exact ⟨rfl, rfl, rfl⟩
            · have hjx : j ≠ xi := fun he => hxiBC (by simp [← he, hj])
              have hjy : j ≠ yi := fun he => hdisjB hj (by simp [he])
              have hji : j ≠ i := fun he => hiR (by simp [← he, hj])
              rw [dother j hjx hjy hji (fun bi hbi he => hjb (by rw [hbi, he]))]
              exact ⟨rfl, rfl, rfl⟩
          · intro j hj hjb
            have hjx : j ≠ xi := fun he => hxiBC (by simp [← he, hj])
            have hjy : j ≠ yi := fun he => hdisjB hj (by simp [he])
            have hji : j ≠ i := fun he => hiR (by simp [← he, hj])
            rw [dother j hjx hjy hji (fun bi hbi he => hjb (by rw [hbi, he]))]
          · intro bi hbi
            rw [dbi bi hbi]
        have hC2 : Shaped (RedBlackTree.left_rotate t (some xi)) ((t.get yi).right)
            (some yi) hh2 (some ((t.get yi).key)) hi C := by
          refine shaped_fields_frame hlen2 hC ?_
          intro j hj
          have hjx : j ≠ xi := fun he => hxiBC (by simp [← he, hj])
          have hjy : j ≠ yi := fun he => hyiC (he ▸ hj)
          have hji : j ≠ i := fun he => hiR (by simp [← he, hj])
          rw [dother j hjx hjy hji ?_]
          · exact ⟨rfl, rfl, rfl, rfl⟩
          · intro bi hbi he
            rw [hbi] at hB
            exact hdisjB (shaped_root_mem hB) (by simp [← he, hj])
        have hL2 : Shaped (RedBlackTree.left_rotate t (some xi)) ((t.get i).left)
            (some i) (hh2 + 1 + 1) lo (some ((t.get i).key)) L := by
          refine shaped_fields_frame hlen2 hL ?_
          intro j hj
          have hjx : j ≠ xi := fun he =>
            hdisj (he ▸ hj) (by simp [hxiR])
          have hjy : j ≠ yi := fun he =>
            hdisj (he ▸ hj) (by simp)
          have hji : j ≠ i := fun he => hiL (he ▸ hj)
          rw [dother j hjx hjy hji ?_]
          · exact ⟨rfl, rfl, rfl, rfl⟩
          · intro bi hbi he
            rw [hbi] at hB
            refine hdisj (he ▸ hj) ?_
            simp [shaped_root_mem hB]
        have hxi_node : Shaped (RedBlackTree.left_rotate t (some xi)) (some xi)
            (some yi) (max (hh2 + 1) hh2 + 1) (some ((t.get i).key))
            (some ((t.get yi).key)) (A ++ xi :: B) := by
          refine Shaped.node xi (some yi) (max (hh2 + 1) hh2) (some ((t.get i).key))
            (some ((t.get yi).key)) A B ?_ ?_ ?_ ?_ ?_ ?_
          · rw [dlen]; exact hxlt
          · rw [dxi]
          · rw [dxi]; exact hxlo
          · rw [dxi]; exact hylo
          · rw [dxi]; exact shaped_height_le hA2 (le_max_left _ _)
          · rw [dxi]; exact shaped_height_le hB2 (le_max_right _ _)
        have hyi_node : Shaped (RedBlackTree.left_rotate t (some xi)) (some yi)
            (some i) (max (max (hh2 + 1) hh2 + 1) hh2 + 1) (some ((t.get i).key)) hi
            ((A ++ xi :: B) ++ yi :: C) := by
          refine Shaped.node yi (some i) (max (max (hh2 + 1) hh2 + 1) hh2)
            (some ((t.get i).key)) hi (A ++ xi :: B) C ?_ ?_ ?_ ?_ ?_ ?_
          · rw [dlen]; exact hylt
          · rw [dyi]
          · rw [dyi]; exact lowOk_trans hxlo hylo
          · rw [dyi]; exact hyhi
          · rw [dyi]; exact shaped_height_le hxi_node (le_max_left _ _)
          · rw [dyi]; exact shaped_height_le hC2 (le_max_right _ _)
        rw [show (A ++ xi :: B) ++ yi :: C = A ++ xi :: (B ++ yi :: C) by simp] at hyi_node
        refine ⟨max (hh2 + 1 + 1) (max (max (hh2 + 1) hh2 + 1) hh2 + 1) + 1, ?_, ?_,
          droot, dlen⟩
        · refine Shaped.node i par _ lo hi L (A ++ xi :: (B ++ yi :: C)) ?_ ?_ ?_ ?_ ?_ ?_
          · rw [dlen]; exact hlt
          · rw [dp]; exact hpar
          · rw [dp]; exact hlo
          · rw [dp]; exact hhi
          · rw [dp]; exact shaped_height_le hL2 (le_max_left _ _)
          · rw [dp]; exact shaped_height_le hyi_node (le_max_right _ _)
        · intro j hj
          have hjx : j ≠ xi := fun he => hj (by simp [he])
          have hjy : j ≠ yi := fun he => hj (by simp [he])
          have hji : j ≠ i := fun he => hj (by simp [he])
          refine dother j hjx hjy hji ?_
          intro bi hbi he
          rw [hbi] at hB
          exact hj (by simp [he, shaped_root_mem hB])
      · obtain ⟨h2, hsh, hframe, hroot2, hlen2⟩ := ihR hndR hxiR hdir
        have hgi : (RedBlackTree.left_rotate t (some xi)).get i = t.get i := by
          refine hframe i hiR
        have hL2 : Shaped (RedBlackTree.left_rotate t (some xi)) ((t.get i).left)
            (some i) h lo (some ((t.get i).key)) L := by
          refine shaped_fields_frame (le_of_eq hlen2.symm) hL ?_
          intro j hj
          have hjR : ¬j ∈ R := by
            intro hjR
            exact hdisj hj (by simp [hjR])
          rw [hframe j hjR]
          exact ⟨rfl, rfl, rfl, rfl⟩
        refine ⟨max h h2 + 1, ?_, fun j hj => hframe j (fun hjR => hj (by simp [hjR])),
          hroot2, hlen2⟩
        refine Shaped.node i par (max h h2) lo hi L R ?_ ?_ ?_ ?_ ?_ ?_
        · rw [hlen2]; exact hlt
        · rw [hgi]; exact hpar
        · rw [hgi]; exact hlo
        · rw [hgi]; exact hhi
        · rw [hgi]; exact shaped_height_le hL2 (le_max_left _ _)
        · rw [hgi]; exact shaped_height_le hsh (le_max_right _ _)


theorem wf_left_rotate {t : RedBlackTree} {mem : List Nat} {h : Nat}
    (hs : Shaped t t.root none h none none mem) (hnd : mem.Nodup) {xi : Nat}
    (hmem : xi ∈ mem) :
    ∃ h2, Shaped (RedBlackTree.left_rotate t (some xi))
        (RedBlackTree.left_rotate t (some xi)).root none h2 none none mem ∧
      (RedBlackTree.left_rotate t (some xi)).nodes.length = t.nodes.length := by
  rcases hrot : (t.get xi).right with _ | yi
  · rw [rotate_noop_left t xi hrot]
    exact ⟨h, hs, rfl⟩
  · by_cases hroot : t.root = some xi
    · -- rotation at the global root
      rw [hroot] at hs
      cases hs
      rename_i hh A Y hxlt hxpar hxlo hA hxhi hY
      rw [hrot] at hY
      cases hY
      rename_i hh2 B C hylt hypar hylo hB hyhi hC
      have h1 := List.nodup_append.1 hnd
      have hndA := h1.1
      have hdisjA := h1.2.2
      have h2 := List.nodup_cons.1 h1.2.1
      have hxiBC := h2.1
      have h3 := List.nodup_append.1 h2.2
      have hndB := h3.1
      have hdisjB := h3.2.2
      have h4 := List.nodup_cons.1 h3.2.1
      have hyiC := h4.1
      have hxiy : xi ≠ yi := fun he => hxiBC (by simp [he])
      have hbprop : ∀ bi, (t.get yi).left = some bi →
          bi < t.nodes.length ∧ bi ≠ xi ∧ bi ≠ yi := by
        intro bi hbi
        rw [hbi] at hB
        have hbiB : bi ∈ B := shaped_root_mem hB
        refine ⟨(shaped_mem_props hB hbiB).1, ?_, ?_⟩
        · intro he; exact hxiBC (by simp [← he, hbiB])
        · intro he; exact hdisjB hbiB (by simp [he])
      obtain ⟨droot, dlen, dxi, dyi, dbi, dother⟩ :=
        left_rotate_desc_root hxlt hylt hrot rfl hxpar hxiy hbprop
      have hlen2 : t.nodes.length ≤
          (RedBlackTree.left_rotate t (some xi)).nodes.length := le_of_eq dlen.symm
      have hA2 : Shaped (RedBlackTree.left_rotate t (some xi)) ((t.get xi).left)
          (some xi) (hh2 + 1) none (some ((t.get xi).key)) A := by
        refine shaped_fields_frame hlen2 hA ?_
        intro j hj
        have hjx : j ≠ xi := fun he => hdisjA hj (by simp [he])
        have hjy : j ≠ yi := fun he => hdisjA hj (by simp [he])
        rw [dother j hjx hjy ?_]
        · exact ⟨rfl, rfl, rfl, rfl⟩
        · intro bi hbi he
          rw [hbi] at hB
          exact hdisjA hj (by simp [he, shaped_root_mem hB])
      have hB2 : Shaped (RedBlackTree.left_rotate t (some xi)) ((t.get yi).left)
          (some xi) hh2 (some ((t.get xi).key)) (some ((t.get yi).key)) B := by
        refine shaped_reroot hlen2 hB hndB (some xi) ?_ ?_ ?_
        · intro j hj
          by_cases hjb : (t.get yi).left = some j
          · rw [dbi j hjb]
            exact ⟨rfl, rfl, rfl⟩
          · have hjx : j ≠ xi := fun he => hxiBC (by simp [← he, hj])
            have hjy : j ≠ yi := fun he => hdisjB hj (by simp [he])
            rw [dother j hjx hjy (fun bi hbi he => hjb (by rw [hbi, he]))]
            exact ⟨rfl, rfl, rfl⟩
        · intro j hj hjb
          have hjx : j ≠ xi := fun he => hxiBC (by simp [← he, hj])
          have hjy : j ≠ yi := fun he => hdisjB hj (by simp [he])
          rw [dother j hjx hjy (fun bi hbi he => hjb (by rw [hbi, he]))]
        · intro bi hbi
          rw [dbi bi hbi]
      have hC2 : Shaped (RedBlackTree.left_rotate t (some xi)) ((t.get yi).right)
          (some yi) hh2 (some ((t.get yi).key)) none C := by
        refine shaped_fields_frame hlen2 hC ?_
        intro j hj
        have hjx : j ≠ xi := fun he => hxiBC (by simp [← he, hj])
        have hjy : j ≠ yi := fun he => hyiC (he ▸ hj)
        rw [dother j hjx hjy ?_]
        · exact ⟨rfl, rfl, rfl, rfl⟩
        · intro bi hbi he
          rw [hbi] at hB
          exact hdisjB (shaped_root_mem hB) (by simp [← he, hj])
      have hxi_node : Shaped (RedBlackTree.left_rotate t (some xi)) (some xi)
          (some yi) (max (hh2 + 1) hh2 + 1) none (some ((t.get yi).key))
          (A ++ xi :: B) := by
        refine Shaped.node xi (some yi) (max (hh2 + 1) hh2) none
          (some ((t.get yi).key)) A B ?_ ?_ ?_ ?_ ?_ ?_
        · rw [dlen]; exact hxlt
        · rw [dxi]
        · rw [dxi]; exact hxlo
        · rw [dxi]; exact hylo
        · rw [dxi]; exact shaped_height_le hA2 (le_max_left _ _)
        · rw [dxi]; exact shaped_height_le hB2 (le_max_right _ _)
      have hyi_node : Shaped (RedBlackTree.left_rotate t (some xi)) (some yi)
          none (max (max (hh2 + 1) hh2 + 1) hh2 + 1) none none
          ((A ++ xi :: B) ++ yi :: C) := by
        refine Shaped.node yi none (max (max (hh2 + 1) hh2 + 1) hh2) none none
          (A ++ xi :: B) C ?_ ?_ ?_ ?_ ?_ ?_
        · rw [dlen]; exact hylt
        · rw [dyi]
        · rw [dyi]; trivial
        · rw [dyi]; trivial
        · rw [dyi]; exact shaped_height_le hxi_node (le_max_left _ _)
        · rw [dyi]; exact shaped_height_le hC2 (le_max_right _ _)
      rw [show (A ++ xi :: B) ++ yi :: C = A ++ xi :: (B ++ yi :: C) by simp] at hyi_node
      rw [droot]
      exact ⟨_, hyi_node, dlen⟩
    · obtain ⟨h2, hsh, _, hroot2, hlen2⟩ :=
        shaped_left_rotate_go hrot hs hnd hmem (fun he => hroot he)
      rw [hroot2]
      exact ⟨h2, hsh, hlen2⟩


theorem shaped_right_rotate_go {t : RedBlackTree} {xi yi : Nat}
    (hrot : (t.get yi).left = some xi) :
    ∀ {x par : Option Nat} {h : Nat} {lo hi : Option Int} {mem : List Nat},
      Shaped t x par h lo hi mem → mem.Nodup → yi ∈ mem → x ≠ some yi →
      ∃ h2, Shaped (RedBlackTree.right_rotate t (some yi)) x par h2 lo hi mem ∧
        (∀ j, ¬j ∈ mem → (RedBlackTree.right_rotate t (some yi)).get j = t.get j) ∧
        (RedBlackTree.right_rotate t (some yi)).root = t.root ∧
        (RedBlackTree.right_rotate t (some yi)).nodes.length = t.nodes.length := by
  intro x par h lo hi mem hs
  induction hs with
  | nil par h lo hi => intro _ hmem _; cases hmem
  | node i par h lo hi L R hlt hpar hlo hhi hL hR ihL ihR =>
    intro hnd hmem hne
    have hiy : i ≠ yi := fun he => hne (by rw [he])
    have hndL : L.Nodup := (List.nodup_append.1 hnd).1
    have hndiR : (i :: R).Nodup := (List.nodup_append.1 hnd).2.1
    have hdisj : L.Disjoint (i :: R) := (List.nodup_append.1 hnd).2.2
    have hndR : R.Nodup := (List.nodup_cons.1 hndiR).2
    have hiR : ¬i ∈ R := (List.nodup_cons.1 hndiR).1
    have hiL : ¬i ∈ L := fun hmemL => hdisj hmemL (by simp)
    rcases (by simpa using hmem : yi ∈ L ∨ yi = i ∨ yi ∈ R) with hyiL | rfl | hyiR
    · -- rotation inside the left subtree
      by_cases hdir : (t.get i).left = some yi
      · -- yi is i's direct left child: local surgery
        rw [hdir] at hL
        cases hL
        rename_i hh X C hylt hypar hylo hX hyhi hC
        rw [hrot] at hX
        cases hX
        rename_i hh2 A B hxlt hxpar hxlo hA hxhi hB
        have h1 := List.nodup_append.1 hndL
        have hndX := h1.1
        have hdisjX := h1.2.2
        have h2 := List.nodup_cons.1 h1.2.1
        have hyiC := h2.1
        have h3 := List.nodup_append.1 hndX
        have hndA := h3.1
        have hdisjA := h3.2.2
        have h4 := List.nodup_cons.1 h3.2.1
        have hxiB := h4.1
        have hndB := (List.nodup_cons.1 h3.2.1).2
        have hxiy : xi ≠ yi := fun he =>
          hdisjX (show xi ∈ A ++ xi :: B by simp) (by simp [he])
        have hxii : xi ≠ i := fun he => hiL (by simp [← he])
        have hyii : yi ≠ i := Ne.symm hiy
        have hbprop : ∀ bi, (t.get xi).right = some bi →
            bi < t.nodes.length ∧ bi ≠ xi ∧ bi ≠ yi ∧ bi ≠ i := by
          intro bi hbi
          rw [hbi] at hB
          have hbiB : bi ∈ B := shaped_root_mem hB
          refine ⟨(shaped_mem_props hB hbiB).1, ?_, ?_, ?_⟩
          · intro he; exact hxiB (he ▸ hbiB)
          · intro he; exact hdisjX (show bi ∈ A ++ xi :: B by simp [hbiB]) (by simp [he])
          · intro he; exact hiL (by simp [← he, hbiB])
        obtain ⟨droot, dlen, dyi, dxi, dp, dbi, dother⟩ :=
          right_rotate_desc_innerL hxlt hylt hlt hrot rfl hypar hdir hxiy hxii hyii hbprop
        have hlen2 : t.nodes.length ≤
            (RedBlackTree.right_rotate t (some yi)).nodes.length := le_of_eq dlen.symm
        have hA2 : Shaped (RedBlackTree.right_rotate t (some yi)) ((t.get xi).left)
            (some xi) hh2 lo (some ((t.get xi).key)) A := by
          refine shaped_fields_frame hlen2 hA ?_
          intro j hj
          have hjx : j ≠ xi := fun he => hdisjA hj (by simp [he])
          have hjy : j ≠ yi := fun he =>
            hdisjX (show j ∈ A ++ xi :: B by simp [hj]) (by simp [he])
          have hji : j ≠ i := fun he => hiL (by simp [← he, hj])
          rw [dother j hjx hjy hji ?_]
          · exact ⟨rfl, rfl, rfl, rfl⟩
          · intro bi hbi he
            rw [hbi] at hB
            exact hdisjA hj (by simp [he, shaped_root_mem hB])
        have hB2 : Shaped (RedBlackTree.right_rotate t (some yi)) ((t.get xi).right)
            (some yi) hh2 (some ((t.get xi).key)) (some ((t.get yi).key)) B := by
          refine shaped_reroot hlen2 hB hndB (some yi) ?_ ?_ ?_
          · intro j hj
            by_cases hjb : (t.get xi).right = some j
            · rw [dbi j hjb]
              exact ⟨rfl, rfl, rfl⟩
            · have hjx : j ≠ xi := fun he => hxiB (he ▸ hj)
              have hjy : j ≠ yi := fun he =>
                hdisjX (show j ∈ A ++ xi :: B by simp [hj]) (by simp [he])
              have hji : j ≠ i := fun he => hiL (by simp [← he, hj])
              rw [dother j hjx hjy hji (fun bi hbi he => hjb (by rw [hbi, he]))]
              exact ⟨rfl, rfl, rfl⟩
          · intro j hj hjb
            have hjx : j ≠ xi := fun he => hxiB (he ▸ hj)
            have hjy : j ≠ yi := fun he =>
              hdisjX (show j ∈ A ++ xi :: B by simp [hj]) (by simp [he])
            have hji : j ≠ i := fun he => hiL (by simp [← he, hj])
            rw [dother j hjx hjy hji (fun bi hbi he => hjb (by rw [hbi, he]))]
          · intro bi hbi
            rw [dbi bi hbi]
        have hC2 : Shaped (RedBlackTree.right_rotate t (some yi)) ((t.get yi).right)
            (some yi) (hh2 + 1) (some ((t.get yi).key)) (some ((t.get i).key)) C := by
          refine shaped_fields_frame hlen2 hC ?_
          intro j hj
          have hjx : j ≠ xi := fun he =>
            hdisjX (show xi ∈ A ++ xi :: B by simp) (by simp [← he, hj])
          have hjy : j ≠ yi := fun he => hyiC (he ▸ hj)
          have hji : j ≠ i := fun he => hiL (by simp [← he, hj])
          rw [dother j hjx hjy hji ?_]
          · exact ⟨rfl, rfl, rfl, rfl⟩
          · intro bi hbi he
            rw [hbi] at hB
            exact hdisjX (show bi ∈ A ++ xi :: B by simp [shaped_root_mem hB])
              (by simp [← he, hj])
        have hR2 : Shaped (RedBlackTree.right_rotate t (some yi)) ((t.get i).right)
            (some i) (hh2 + 1 + 1) (some ((t.get i).key)) hi R := by
          refine shaped_fields_frame hlen2 hR ?_
          intro j hj
          have hjx : j ≠ xi := fun he =>
            hdisj (show xi ∈ (A ++ xi :: B) ++ yi :: C by simp) (by simp [← he, hj])
          have hjy : j ≠ yi := fun he =>
            hdisj (show yi ∈ (A ++ xi :: B) ++ yi :: C by simp) (by simp [← he, hj])
          have hji : j ≠ i := fun he => hiR (he ▸ hj)
          rw [dother j hjx hjy hji ?_]
          · exact ⟨rfl, rfl, rfl, rfl⟩
          · intro bi hbi he
            rw [hbi] at hB
            exact hdisj (show bi ∈ (A ++ xi :: B) ++ yi :: C by
              simp [shaped_root_mem hB]) (by simp [← he, hj])
        have hyi_node : Shaped (RedBlackTree.right_rotate t (some yi)) (some yi)
            (some xi) (max hh2 (hh2 + 1) + 1) (some ((t.get xi).key))
            (some ((t.get i).key)) (B ++ yi :: C) := by
          refine Shaped.node yi (some xi) (max hh2 (hh2 + 1)) (some ((t.get xi).key))
            (some ((t.get i).key)) B C ?_ ?_ ?_ ?_ ?_ ?_
          · rw [dlen]; exact hylt
          · rw [dyi]
          · rw [dyi]; exact hxhi
          · rw [dyi]; exact hyhi
          · rw [dyi]; exact shaped_height_le hB2 (le_max_left _ _)
          · rw [dyi]; exact shaped_height_le hC2 (le_max_right _ _)
        have hxi_node : Shaped (RedBlackTree.right_rotate t (some yi)) (some xi)
            (some i) (max hh2 (max hh2 (hh2 + 1) + 1) + 1) lo (some ((t.get i).key))
            (A ++ xi :: (B ++ yi :: C)) := by
          refine Shaped.node xi (some i) (max hh2 (max hh2 (hh2 + 1) + 1)) lo
            (some ((t.get i).key)) A (B ++ yi :: C) ?_ ?_ ?_ ?_ ?_ ?_
          · rw [dlen]; exact hxlt
          · rw [dxi]
          · rw [dxi]; exact hxlo
          · rw [dxi]; exact hiOk_trans hxhi hyhi
          · rw [dxi]; exact shaped_height_le hA2 (le_max_left _ _)
          · rw [dxi]; exact shaped_height_le hyi_node (le_max_right _ _)
        rw [show A ++ xi :: (B ++ yi :: C) = (A ++ xi :: B) ++ yi :: C by simp] at hxi_node
        refine ⟨max (max hh2 (max hh2 (hh2 + 1) + 1) + 1) (hh2 + 1 + 1) + 1, ?_, ?_,
          droot, dlen⟩
        · refine Shaped.node i par _ lo hi ((A ++ xi :: B) ++ yi :: C) R ?_ ?_ ?_ ?_ ?_ ?_
          · rw [dlen]; exact hlt
          · rw [dp]; exact hpar
          · rw [dp]; exact hlo
          · rw [dp]; exact hhi
          · rw [dp]; exact shaped_height_le hxi_node (le_max_left _ _)
          · rw [dp]; exact shaped_height_le hR2 (le_max_right _ _)
        · intro j hj
          have hjx : j ≠ xi := fun he => hj (by simp [he])
          have hjy : j ≠ yi := fun he => hj (by simp [he])
          have hji : j ≠ i := fun he => hj (by simp [he])
          refine dother j hjx hjy hji ?_
          intro bi hbi he
          rw [hbi] at hB
          exact hj (by simp [he, shaped_root_mem hB])
      · -- strictly deeper: recurse
        obtain ⟨h2, hsh, hframe, hroot2, hlen2⟩ := ihL hndL hyiL hdir
        have hgi : (RedBlackTree.right_rotate t (some yi)).get i = t.get i :=
          hframe i hiL
        have hR2 : Shaped (RedBlackTree.right_rotate t (some yi)) ((t.get i).right)
            (some i) h (some ((t.get i).key)) hi R := by
          refine shaped_fields_frame (le_of_eq hlen2.symm) hR ?_
          intro j hj
          rw [hframe j (fun hjL => hdisj hjL (by simp [hj]))]
          exact ⟨rfl, rfl, rfl, rfl⟩
        refine ⟨max h2 h + 1, ?_, fun j hj => hframe j (fun hjL => hj (by simp [hjL])),
          hroot2, hlen2⟩
        refine Shaped.node i par (max h2 h) lo hi L R ?_ ?_ ?_ ?_ ?_ ?_
        · rw [hlen2]; exact hlt
        · rw [hgi]; exact hpar
        · rw [hgi]; exact hlo
        · rw [hgi]; exact hhi
        · rw [hgi]; exact shaped_height_le hsh (le_max_left _ _)
        · rw [hgi]; exact shaped_height_le hR2 (le_max_right _ _)
    · exact absurd rfl (Ne.symm hiy)
    · -- rotation inside the right subtree
      by_cases hdir : (t.get i).right = some yi
      · -- yi is i's direct right child: local surgery
        rw [hdir] at hR
        cases hR
        rename_i hh X C hylt hypar hylo hX hyhi hC
        rw [hrot] at hX
        cases hX
        rename_i hh2 A B hxlt hxpar hxlo hA hxhi hB
        have h1 := List.nodup_append.1 hndR
        have hndX := h1.1
        have hdisjX := h1.2.2
        have h2 := List.nodup_cons.1 h1.2.1
        have hyiC := h2.1
        have h3 := List.nodup_append.1 hndX
        have hndA := h3.1
        have hdisjA := h3.2.2
        have h4 := List.nodup_cons.1 h3.2.1
        have hxiB := h4.1
        have hndB := (List.nodup_cons.1 h3.2.1).2
        have hxiy : xi ≠ yi := fun he =>
          hdisjX (show xi ∈ A ++ xi :: B by simp) (by simp [he])
        have hxii : xi ≠ i := fun he => hiR (by simp [← he])
        have hyii : yi ≠ i := Ne.symm hiy
        have hsideN : ¬(t.get i).left = some yi := by
          intro he
          rw [he] at hL
          exact hdisj (shaped_root_mem hL) (by simp [hyiR])
        have hbprop : ∀ bi, (t.get xi).right = some bi →
            bi < t.nodes.length ∧ bi ≠ xi ∧ bi ≠ yi ∧ bi ≠ i := by
          intro bi hbi
          rw [hbi] at hB
          have hbiB : bi ∈ B := shaped_root_mem hB
          refine ⟨(shaped_mem_props hB hbiB).1, ?_, ?_, ?_⟩
          · intro he; exact hxiB (he ▸ hbiB)
          · intro he; exact hdisjX (show bi ∈ A ++ xi :: B by simp [hbiB]) (by simp [he])
          · intro he; exact hiR (by simp [← he, hbiB])
        obtain ⟨droot, dlen, dyi, dxi, dp, dbi, dother⟩ :=
          right_rotate_desc_innerR hxlt hylt hlt hrot rfl hypar hsideN hxiy hxii hyii hbprop
        have hlen2 : t.nodes.length ≤
            (RedBlackTree.right_rotate t (some yi)).nodes.length := le_of_eq dlen.symm
        have hA2 : Shaped (RedBlackTree.right_rotate t (some yi)) ((t.get xi).left)
            (some xi) hh2 (some ((t.get i).key)) (some ((t.get xi).key)) A := by
          refine shaped_fields_frame hlen2 hA ?_
          intro j hj
          have hjx : j ≠ xi := fun he => hdisjA hj (by simp [he])
          have hjy : j ≠ yi := fun he =>
            hdisjX (show j ∈ A ++ xi :: B by simp [hj]) (by simp [he])
          have hji : j ≠ i := fun he => hiR (by simp [← he, hj])
          rw [dother j hjx hjy hji ?_]
          · exact ⟨rfl, rfl, rfl, rfl⟩
          · intro bi hbi he
            rw [hbi] at hB
            exact hdisjA hj (by simp [he, shaped_root_mem hB])
        have hB2 : Shaped (RedBlackTree.right_rotate t (some yi)) ((t.get xi).right)
            (some yi) hh2 (some ((t.get xi).key)) (some ((t.get yi).key)) B := by
          refine shaped_reroot hlen2 hB hndB (some yi) ?_ ?_ ?_
          · intro j hj
            by_cases hjb : (t.get xi).right = some j
            · rw [dbi j hjb]
              exact ⟨rfl, rfl, rfl⟩
            · have hjx : j ≠ xi := fun he => hxiB (he ▸ hj)
              have hjy : j ≠ yi := fun he =>
                hdisjX (show j ∈ A ++ xi :: B by simp [hj]) (by simp [he])
              have hji : j ≠ i := fun he => hiR (by simp [← he, hj])
              rw [dother j hjx hjy hji (fun bi hbi he => hjb (by rw [hbi, he]))]
              exact ⟨rfl, rfl, rfl⟩
          · intro j hj hjb
            have hjx : j ≠ xi := fun he => hxiB (he ▸ hj)
            have hjy : j ≠ yi := fun he =>
              hdisjX (show j ∈ A ++ xi :: B by simp [hj]) (by simp [he])
            have hji : j ≠ i := fun he => hiR (by simp [← he, hj])
            rw [dother j hjx hjy hji (fun bi hbi he => hjb (by rw [hbi, he]))]
          · intro bi hbi
            rw [dbi bi hbi]
        have hC2 : Shaped (RedBlackTree.right_rotate t (some yi)) ((t.get yi).right)
            (some yi) (hh2 + 1) (some ((t.get yi).key)) hi C := by
          refine shaped_fields_frame hlen2 hC ?_
          intro j hj
          have hjx : j ≠ xi := fun he =>
            hdisjX (show xi ∈ A ++ xi :: B by simp) (by simp [← he, hj])
          have hjy : j ≠ yi := fun he => hyiC (he ▸ hj)
          have hji : j ≠ i := fun he => hiR (by simp [← he, hj])
          rw [dother j hjx hjy hji ?_]
          · exact ⟨rfl, rfl, rfl, rfl⟩
          · intro bi hbi he
            rw [hbi] at hB
            exact hdisjX (show bi ∈ A ++ xi :: B by simp [shaped_root_mem hB])
              (by simp [← he, hj])
        have hL2 : Shaped (RedBlackTree.right_rotate t (some yi)) ((t.get i).left)
            (some i) (hh2 + 1 + 1) lo (some ((t.get i).key)) L := by
          refine shaped_fields_frame hlen2 hL ?_
          intro j hj
          have hjx : j ≠ xi := fun he => hdisj (he ▸ hj) (by simp)
          have hjy : j ≠ yi := fun he => hdisj (he ▸ hj) (by simp [hyiR])
          have hji : j ≠ i := fun he => hiL (he ▸ hj)
          rw [dother j hjx hjy hji ?_]
          · exact ⟨rfl, rfl, rfl, rfl⟩
          · intro bi hbi he
            rw [hbi] at hB
            refine hdisj (he ▸ hj) ?_
            simp [shaped_root_mem hB]
        have hyi_node : Shaped (RedBlackTree.right_rotate t (some yi)) (some yi)
            (some xi) (max hh2 (hh2 + 1) + 1) (some ((t.get xi).key)) hi
            (B ++ yi :: C) := by
          refine Shaped.node yi (some xi) (max hh2 (hh2 + 1)) (some ((t.get xi).key))
            hi B C ?_ ?_ ?_ ?_ ?_ ?_
          · rw [dlen]; exact hylt
          · rw [dyi]
          · rw [dyi]; exact hxhi
          · rw [dyi]; exact hyhi
          · rw [dyi]; exact shaped_height_le hB2 (le_max_left _ _)
          · rw [dyi]; exact shaped_height_le hC2 (le_max_right _ _)
        have hxi_node : Shaped (RedBlackTree.right_rotate t (some yi)) (some xi)
            (some i) (max hh2 (max hh2 (hh2 + 1) + 1) + 1) (some ((t.get i).key)) hi
            (A ++ xi :: (B ++ yi :: C)) := by
          refine Shaped.node xi (some i) (max hh2 (max hh2 (hh2 + 1) + 1))
            (some ((t.get i).key)) hi A (B ++ yi :: C) ?_ ?_ ?_ ?_ ?_ ?_
          · rw [dlen]; exact hxlt
          · rw [dxi]
          · rw [dxi]; exact hxlo
          · rw [dxi]; exact hiOk_trans hxhi hyhi
          · rw [dxi]; exact shaped_height_le hA2 (le_max_left _ _)
          · rw [dxi]; exact shaped_height_le hyi_node (le_max_right _ _)
        rw [show A ++ xi :: (B ++ yi :: C) = (A ++ xi :: B) ++ yi :: C by simp] at hxi_node
        refine ⟨max (hh2 + 1 + 1) (max hh2 (max hh2 (hh2 + 1) + 1) + 1) + 1, ?_, ?_,
          droot, dlen⟩
        · refine Shaped.node i par _ lo hi L ((A ++ xi :: B) ++ yi :: C) ?_ ?_ ?_ ?_ ?_ ?_
          · rw [dlen]; exact hlt
          · rw [dp]; exact hpar
          · rw [dp]; exact hlo
          · rw [dp]; exact hhi
          · rw [dp]; exact shaped_height_le hL2 (le_max_left _ _)
          · rw [dp]; exact shaped_height_le hxi_node (le_max_right _ _)
        · intro j hj
          have hjx : j ≠ xi := fun he => hj (by simp [he])
          have hjy : j ≠ yi := fun he => hj (by simp [he])
          have hji : j ≠ i := fun he => hj (by simp [he])
          refine dother j hjx hjy hji ?_
          intro bi hbi he
          rw [hbi] at hB
          exact hj (by simp [he, shaped_root_mem hB])
      · obtain ⟨h2, hsh, hframe, hroot2, hlen2⟩ := ihR hndR hyiR hdir
        have hgi : (RedBlackTree.right_rotate t (some yi)).get i = t.get i := by
          refine hframe i hiR
        have hL2 : Shaped (RedBlackTree.right_rotate t (some yi)) ((t.get i).left)
            (some i) h lo (some ((t.get i).key)) L := by
          refine shaped_fields_frame (le_of_eq hlen2.symm) hL ?_
          intro j hj
          have hjR : ¬j ∈ R := by
            intro hjR
            exact hdisj hj (by simp [hjR])
          rw [hframe j hjR]
          exact ⟨rfl, rfl, rfl, rfl⟩
        refine ⟨max h h2 + 1, ?_, fun j hj => hframe j (fun hjR => hj (by simp [hjR])),
          hroot2, hlen2⟩
        refine Shaped.node i par (max h h2) lo hi L R ?_ ?_ ?_ ?_ ?_ ?_
        · rw [hlen2]; exact hlt
        · rw [hgi]; exact hpar
        · rw [hgi]; exact hlo
        · rw [hgi]; exact hhi
        · rw [hgi]; exact shaped_height_le hL2 (le_max_left _ _)
        · rw [hgi]; exact shaped_height_le hsh (le_max_right _ _)


theorem wf_right_rotate {t : RedBlackTree} {mem : List Nat} {h : Nat}
    (hs : Shaped t t.root none h none none mem) (hnd : mem.Nodup) {yi : Nat}
    (hmem : yi ∈ mem) :
    ∃ h2, Shaped (RedBlackTree.right_rotate t (some yi))
        (RedBlackTree.right_rotate t (some yi)).root none h2 none none mem ∧
      (RedBlackTree.right_rotate t (some yi)).nodes.length = t.nodes.length := by
  rcases hrot : (t.get yi).left with _ | xi
  · rw [rotate_noop_right t yi hrot]
    exact ⟨h, hs, rfl⟩
  · by_cases hroot : t.root = some yi
    · -- rotation at the global root
      rw [hroot] at hs
      cases hs
      rename_i hh X C hylt hypar hylo hX hyhi hC
      rw [hrot] at hX
      cases hX
      rename_i hh2 A B hxlt hxpar hxlo hA hxhi hB
      have h1 := List.nodup_append.1 hnd
      have hndX := h1.1
      have hdisjX := h1.2.2
      have h2 := List.nodup_cons.1 h1.2.1
      have hyiC := h2.1
      have h3 := List.nodup_append.1 hndX
      have hndA := h3.1
      have hdisjA := h3.2.2
      have h4 := List.nodup_cons.1 h3.2.1
      have hxiB := h4.1
      have hndB := (List.nodup_cons.1 h3.2.1).2
      have hxiy : xi ≠ yi := fun he =>
        hdisjX (show xi ∈ A ++ xi :: B by simp) (by simp [he])
      have hbprop : ∀ bi, (t.get xi).right = some bi →
          bi < t.nodes.length ∧ bi ≠ xi ∧ bi ≠ yi := by
        intro bi hbi
        rw [hbi] at hB
        have hbiB : bi ∈ B := shaped_root_mem hB
        refine ⟨(shaped_mem_props hB hbiB).1, ?_, ?_⟩
        · intro he; exact hxiB (he ▸ hbiB)
        · intro he; exact hdisjX (show bi ∈ A ++ xi :: B by simp [hbiB]) (by simp [he])
      obtain ⟨droot, dlen, dyi, dxi, dbi, dother⟩ :=
        right_rotate_desc_root hxlt hylt hrot rfl hypar hxiy hbprop
      have hlen2 : t.nodes.length ≤
          (RedBlackTree.right_rotate t (some yi)).nodes.length := le_of_eq dlen.symm
      have hA2 : Shaped (RedBlackTree.right_rotate t (some yi)) ((t.get xi).left)
          (some xi) hh2 none (some ((t.get xi).key)) A := by
        refine shaped_fields_frame hlen2 hA ?_
        intro j hj
        have hjx : j ≠ xi := fun he => hdisjA hj (by simp [he])
        have hjy : j ≠ yi := fun he =>
          hdisjX (show j ∈ A ++ xi :: B by simp [hj]) (by simp [he])
        rw [dother j hjx hjy ?_]
        · exact ⟨rfl, rfl, rfl, rfl⟩
        · intro bi hbi he
          rw [hbi] at hB
          exact hdisjA hj (by simp [he, shaped_root_mem hB])
      have hB2 : Shaped (RedBlackTree.right_rotate t (some yi)) ((t.get xi).right)
          (some yi) hh2 (some ((t.get xi).key)) (some ((t.get yi).key)) B := by
        refine shaped_reroot hlen2 hB hndB (some yi) ?_ ?_ ?_
        · intro j hj
          by_cases hjb : (t.get xi).right = some j
          · rw [dbi j hjb]
            exact ⟨rfl, rfl, rfl⟩
          · have hjx : j ≠ xi := fun he => hxiB (he ▸ hj)
            have hjy : j ≠ yi := fun he =>
              hdisjX (show j ∈ A ++ xi :: B by simp [hj]) (by simp [he])
            rw [dother j hjx hjy (fun bi hbi he => hjb (by rw [hbi, he]))]
            exact ⟨rfl, rfl, rfl⟩
        · intro j hj hjb
          have hjx : j ≠ xi := fun he => hxiB (he ▸ hj)
          have hjy : j ≠ yi := fun he =>
            hdisjX (show j ∈ A ++ xi :: B by simp [hj]) (by simp [he])
          rw [dother j hjx hjy (fun bi hbi he => hjb (by rw [hbi, he]))]
        · intro bi hbi
          rw [dbi bi hbi]
      have hC2 : Shaped (RedBlackTree.right_rotate t (some yi)) ((t.get yi).right)
          (some yi) (hh2 + 1) (some ((t.get yi).key)) none C := by
        refine shaped_fields_frame hlen2 hC ?_
        intro j hj
        have hjx : j ≠ xi := fun he =>
          hdisjX (show xi ∈ A ++ xi :: B by simp) (by simp [← he, hj])
        have hjy : j ≠ yi := fun he => hyiC (he ▸ hj)
        rw [dother j hjx hjy ?_]
        · exact ⟨rfl, rfl, rfl, rfl⟩
        · intro bi hbi he
          rw [hbi] at hB
          exact hdisjX (show bi ∈ A ++ xi :: B by simp [shaped_root_mem hB])
            (by simp [← he, hj])
      have hyi_node : Shaped (RedBlackTree.right_rotate t (some yi)) (some yi)
          (some xi) (max hh2 (hh2 + 1) + 1) (some ((t.get xi).key)) none
          (B ++ yi :: C) := by
        refine Shaped.node yi (some xi) (max hh2 (hh2 + 1)) (some ((t.get xi).key))
          none B C ?_ ?_ ?_ ?_ ?_ ?_
        · rw [dlen]; exact hylt
        · rw [dyi]
        · rw [dyi]; exact hxhi
        · rw [dyi]; trivial
        · rw [dyi]; exact shaped_height_le hB2 (le_max_left _ _)
        · rw [dyi]; exact shaped_height_le hC2 (le_max_right _ _)
      have hxi_node : Shaped (RedBlackTree.right_rotate t (some yi)) (some xi)
          none (max hh2 (max hh2 (hh2 + 1) + 1) + 1) none none
          (A ++ xi :: (B ++ yi :: C)) := by
        refine Shaped.node xi none (max hh2 (max hh2 (hh2 + 1) + 1)) none none
          A (B ++ yi :: C) ?_ ?_ ?_ ?_ ?_ ?_
        · rw [dlen]; exact hxlt
        · rw [dxi]
        · rw [dxi]; trivial
        · rw [dxi]; trivial
        · rw [dxi]; exact shaped_height_le hA2 (le_max_left _ _)
        · rw [dxi]; exact shaped_height_le hyi_node (le_max_right _ _)
      rw [show A ++ xi :: (B ++ yi :: C) = (A ++ xi :: B) ++ yi :: C by simp] at hxi_node
      rw [droot]
      exact ⟨_, hxi_node, dlen⟩
    · obtain ⟨h2, hsh, _, hroot2, hlen2⟩ :=
        shaped_right_rotate_go hrot hs hnd hmem (fun he => hroot he)
      rw [hroot2]
      exact ⟨h2, hsh, hlen2⟩


theorem length_setColor (t : RedBlackTree) (i : Nat) (c : Color) :
    (t.setColor i c).nodes.length = t.nodes.length :=
  length_setNode t i _

theorem get_setColor_fields (t : RedBlackTree) (i : Nat) (c : Color) (j : Nat) :
    ((t.setColor i c).get j).key = (t.get j).key ∧
    ((t.setColor i c).get j).left = (t.get j).left ∧
    ((t.setColor i c).get j).right = (t.get j).right ∧
    ((t.setColor i c).get j).parent = (t.get j).parent := by
  by_cases hji : i = j
  · subst hji
    by_cases hlt : i < t.nodes.length
    · rw [show t.setColor i c = t.setNode i { t.get i with color := c } from rfl,
        get_setNode_self t i _ hlt]
      exact ⟨rfl, rfl, rfl, rfl⟩
    · rw [get_out_of_range _ (by rw [length_setColor]; omega),
        get_out_of_range t (by omega)]
      exact ⟨rfl, rfl, rfl, rfl⟩
  · rw [show t.setColor i c = t.setNode i { t.get i with color := c } from rfl,
      get_setNode_ne t _ hji]
    exact ⟨rfl, rfl, rfl, rfl⟩

theorem shaped_setColor {t : RedBlackTree} {i : Nat} {c : Color}
    {x par : Option Nat} {h : Nat} {lo hi : Option Int} {mem : List Nat}
    (hs : Shaped t x par h lo hi mem) :
    Shaped (t.setColor i c) x par h lo hi mem :=
  shaped_fields_frame (le_of_eq (length_setColor t i c).symm) hs
    (fun j _ => get_setColor_fields t i c j)

theorem root_setColor (t : RedBlackTree) (i : Nat) (c : Color) :
    (t.setColor i c).root = t.root := rfl

theorem wf_parent_mem {t : RedBlackTree} {h : Nat} {mem : List Nat}
    (hs : Shaped t t.root none h none none mem) {j p : Nat}
    (hj : j ∈ mem) (hp : (t.get j).parent = some p) : p ∈ mem := by
  rcases shaped_parent_field hs hj hp with ⟨_, h2⟩ | ⟨hm, _⟩
  · cases h2
  · exact hm

theorem shaped_min_height {t : RedBlackTree} :
    ∀ {x par : Option Nat} {h : Nat} {lo hi : Option Int} {mem : List Nat},
      Shaped t x par h lo hi mem → Shaped t x par mem.length lo hi mem := by
  intro x par h lo hi mem hs
  induction hs with
  | nil par h lo hi => exact Shaped.nil par 0 lo hi
  | node i par h lo hi L R hlt hpar hlo hhi hL hR ihL ihR =>
    have hn : Shaped t (some i) par (max L.length R.length + 1) lo hi (L ++ i :: R) :=
      Shaped.node i par (max L.length R.length) lo hi L R hlt hpar hlo hhi
        (shaped_height_le ihL (le_max_left _ _))
        (shaped_height_le ihR (le_max_right _ _))
    refine shaped_height_le hn ?_
    simp
    omega

theorem shaped_mem_length_le {t : RedBlackTree} {x par : Option Nat} {h : Nat}
    {lo hi : Option Int} {mem : List Nat}
    (hs : Shaped t x par h lo hi mem) (hnd : mem.Nodup) :
    mem.length ≤ t.nodes.length := by
  have hsub : mem.toFinset ⊆ Finset.range t.nodes.length := by
    intro j hj
    rw [List.mem_toFinset] at hj
    rw [Finset.mem_range]
    exact (shaped_mem_props hs hj).1
  have hcard := Finset.card_le_card hsub
  rw [Finset.card_range, List.toFinset_card_of_nodup hnd] at hcard
  exact hcard

theorem searchGo_mem {t : RedBlackTree} {key : Int} :
    ∀ {x par : Option Nat} {h : Nat} {lo hi : Option Int} {mem : List Nat},
      Shaped t x par h lo hi mem → ∀ fuel {r : Nat},
      RedBlackTree.searchGo fuel t key x = some r → r ∈ mem := by
  intro x par h lo hi mem hs
  induction hs with
  | nil par h lo hi =>
    intro fuel r hr
    cases fuel <;> simp [RedBlackTree.searchGo] at hr
  | node i par h lo hi L R hlt hpar hlo hhi hL hR ihL ihR =>
    intro fuel r hr
    cases fuel with
    | zero =>
      simp [RedBlackTree.searchGo] at hr
      simp [hr]
    | succ f =>
      simp only [RedBlackTree.searchGo] at hr
      by_cases hk : (t.get i).key = key
      · rw [if_pos hk] at hr
        injection hr with h2
        simp [← h2]
      · rw [if_neg hk] at hr
        by_cases hlt2 : key < (t.get i).key
        · rw [if_pos hlt2] at hr
          simp [ihL f hr]
        · rw [if_neg hlt2] at hr
          simp [ihR f hr]

theorem findMinGo_mem {t : RedBlackTree} {x par : Option Nat} {h : Nat}
    {lo hi : Option Int} {mem : List Nat} (hs : Shaped t x par h lo hi mem) :
    ∀ fuel {n : Nat}, n ∈ mem → RedBlackTree.findMinGo fuel t n ∈ mem := by
  intro fuel
  induction fuel with
  | zero => intro n hn; exact hn
  | succ f ih =>
    intro n hn
    rcases hc : (t.get n).left with _ | l
    · simp only [RedBlackTree.findMinGo, hc]
      exact hn
    · simp only [RedBlackTree.findMinGo, hc]
      exact ih (shaped_child_mem_left hs hn hc)

theorem findMinGo_succ_none {t : RedBlackTree} {n : Nat} (f : Nat)
    (hc : (t.get n).left = none) : RedBlackTree.findMinGo (f + 1) t n = n := by
  simp [RedBlackTree.findMinGo, hc]

theorem findMinGo_succ_some {t : RedBlackTree} {n l : Nat} (f : Nat)
    (hc : (t.get n).left = some l) :
    RedBlackTree.findMinGo (f + 1) t n = RedBlackTree.findMinGo f t l := by
  simp [RedBlackTree.findMinGo, hc]

theorem findMinGo_leftmost {t : RedBlackTree} :
    ∀ {x par : Option Nat} {h : Nat} {lo hi : Option Int} {mem : List Nat},
      Shaped t x par h lo hi mem → ∀ {n : Nat}, x = some n → ∀ {fuel : Nat}, h ≤ fuel →
      ∃ rest, mem = RedBlackTree.findMinGo fuel t n :: rest ∧
        (t.get (RedBlackTree.findMinGo fuel t n)).left = none := by
  intro x par h lo hi mem hs
  induction hs with
  | nil par h lo hi => intro n hn; cases hn
  | node i par h lo hi L R hlt hpar hlo hhi hL hR ihL ihR =>
    intro n hn fuel hfuel
    injection hn with hn2
    subst hn2
    cases fuel with
    | zero => omega
    | succ f =>
      rcases hc : (t.get i).left with _ | l
      · rw [hc] at hL
        cases hL
        rw [findMinGo_succ_none f hc]
        exact ⟨R, rfl, hc⟩
      · obtain ⟨rest, hrest, hleft⟩ := ihL (by rw [hc]) (show h ≤ f by omega)
        rw [findMinGo_succ_some f hc, hrest]
        exact ⟨rest ++ i :: R, by simp, hleft⟩

theorem shaped_child_ne {t : RedBlackTree} :
    ∀ {x par : Option Nat} {h : Nat} {lo hi : Option Int} {mem : List Nat},
      Shaped t x par h lo hi mem → mem.Nodup → ∀ {p c : Nat}, p ∈ mem →
      ((t.get p).left = some c ∨ (t.get p).right = some c) → c ≠ p := by
  intro x par h lo hi mem hs
  induction hs with
  | nil par h lo hi => intro _ p c hp; cases hp
  | node i par h lo hi L R hlt hpar hlo hhi hL hR ihL ihR =>
    intro hnd p c hp hslot
    have hndL : L.Nodup := (List.nodup_append.1 hnd).1
    have hndiR : (i :: R).Nodup := (List.nodup_append.1 hnd).2.1
    have hdisj : L.Disjoint (i :: R) := (List.nodup_append.1 hnd).2.2
    have hndR : R.Nodup := (List.nodup_cons.1 hndiR).2
    have hiR : ¬i ∈ R := (List.nodup_cons.1 hndiR).1
    have hiL : ¬i ∈ L := fun hmemL => hdisj hmemL (by simp)
    rcases (by simpa using hp : p ∈ L ∨ p = i ∨ p ∈ R) with hpL | rfl | hpR
    · exact ihL hndL hpL hslot
    · rcases hslot with hc | hc
      · rw [hc] at hL
        exact fun he => hiL (he ▸ shaped_root_mem hL)
      · rw [hc] at hR
        exact fun he => hiR (he ▸ shaped_root_mem hR)
    · exact ihR hndR hpR hslot

theorem inOrderGo_eq {t : RedBlackTree} :
    ∀ {x par : Option Nat} {h : Nat} {lo hi : Option Int} {mem : List Nat},
      Shaped t x par h lo hi mem → ∀ {fuel : Nat}, h ≤ fuel →
      RedBlackTree.inOrderGo fuel t x =
        mem.map (fun j => ((t.get j).key, (t.get j).color)) := by
  intro x par h lo hi mem hs
  induction hs with
  | nil par h lo hi => intro fuel _; cases fuel <;> simp [RedBlackTree.inOrderGo]
  | node i par h lo hi L R hlt hpar hlo hhi hL hR ihL ihR =>
    intro fuel hfuel
    cases fuel with
    | zero => omega
    | succ f =>
      simp only [RedBlackTree.inOrderGo]
      rw [ihL (show h ≤ f by omega), ihR (show h ≤ f by omega)]
      simp


theorem insertDescend_graft {t : RedBlackTree} {key : Int} {z : Nat} :
    ∀ {x par : Option Nat} {h : Nat} {lo hi : Option Int} {mem : List Nat},
      Shaped t x par h lo hi mem → mem.Nodup →
      ∀ {fuel : Nat}, h < fuel → lowOk lo key → hiOk key hi →
      ∀ {xi0 : Nat}, x = some xi0 →
      ∃ yi, (∀ y0, RedBlackTree.insertDescend fuel t key x y0 = some yi) ∧ yi ∈ mem ∧
        ∀ u : RedBlackTree, t.nodes.length ≤ u.nodes.length →
          (∀ j, j ∈ mem → j ≠ yi → u.get j = t.get j) →
          (key < (t.get yi).key → u.get yi = { t.get yi with left := some z }) →
          (¬key < (t.get yi).key → u.get yi = { t.get yi with right := some z }) →
          (u.get z).key = key → (u.get z).left = none → (u.get z).right = none →
          (u.get z).parent = some yi → z < u.nodes.length →
          ∃ h2 mem2, mem2.Perm (z :: mem) ∧ Shaped u x par h2 lo hi mem2 := by
  intro x par h lo hi mem hs
  induction hs with
  | nil par h lo hi => intro _ _ _ _ _ xi0 hx; cases hx
  | node i par h lo hi L R hlt hpar hlo hhi hL hR ihL ihR =>
    intro hnd fuel hfuel hklo hkhi xi0 hx
    have hndL : L.Nodup := (List.nodup_append.1 hnd).1
    have hndiR : (i :: R).Nodup := (List.nodup_append.1 hnd).2.1
    have hdisj : L.Disjoint (i :: R) := (List.nodup_append.1 hnd).2.2
    have hndR : R.Nodup := (List.nodup_cons.1 hndiR).2
    have hiR : ¬i ∈ R := (List.nodup_cons.1 hndiR).1
    have hiL : ¬i ∈ L := fun hmemL => hdisj hmemL (by simp)
    cases fuel with
    | zero => omega
    | succ f =>
      have hstep : ∀ y0, RedBlackTree.insertDescend (f + 1) t key (some i) y0 =
          RedBlackTree.insertDescend f t key
            (if key < (t.get i).key then (t.get i).left else (t.get i).right)
            (some i) := fun y0 => rfl
      by_cases hklt : key < (t.get i).key
      · -- descend left
        rcases hc : (t.get i).left with _ | c
        · -- attach here on the left
          rw [hc] at hL
          cases hL
          refine ⟨i, ?_, by simp, ?_⟩
          · intro y0
            rw [hstep y0, if_pos hklt, hc, insertDescend_none]
          · intro u hul huf huyL huyR hk hzl hzr hzp hzlt
            have hui : u.get i = { t.get i with left := some z } := huyL hklt
            have hzn : Shaped u (some z) (some i) 1 lo (some ((t.get i).key)) [z] := by
              have : ([] ++ z :: []) = [z] := rfl
              rw [← this]
              refine Shaped.node z (some i) 0 lo (some ((t.get i).key)) [] []
                hzlt hzp ?_ ?_ ?_ ?_
              · rw [hk]; exact hklo
              · rw [hk]; exact le_of_lt hklt
              · rw [hzl]; exact Shaped.nil _ _ _ _
              · rw [hzr]; exact Shaped.nil _ _ _ _
            have hR2 : Shaped u ((t.get i).right) (some i) h
                (some ((t.get i).key)) hi R := by
              refine shaped_fields_frame hul hR ?_
              intro j hj
              rw [huf j (by simp [hj]) (fun he => hiR (he ▸ hj))]
              exact ⟨rfl, rfl, rfl, rfl⟩
            refine ⟨max 1 h + 1, z :: i :: R, List.Perm.refl _, ?_⟩
            have hn : Shaped u (some i) par (max 1 h + 1) lo hi ([z] ++ i :: R) := by
              refine Shaped.node i par (max 1 h) lo hi [z] R (lt_of_lt_of_le hlt hul)
                ?_ ?_ ?_ ?_ ?_
              · rw [hui]; exact hpar
              · rw [hui]; exact hlo
              · rw [hui]; exact hhi
              · rw [hui]; exact shaped_height_le hzn (le_max_left _ _)
              · rw [hui]; exact shaped_height_le hR2 (le_max_right _ _)
            exact hn
        · -- recurse left
          obtain ⟨yi, hdesc, hyiL, hgraft⟩ :=
            ihL hndL (show h < f by omega) hklo (le_of_lt hklt) hc
          have hyi_ne_i : i ≠ yi := fun he => hiL (he ▸ hyiL)
          refine ⟨yi, ?_, by simp [hyiL], ?_⟩
          · intro y0
            rw [hstep y0, if_pos hklt]
            exact hdesc (some i)
          · intro u hul huf huyL huyR hk hzl hzr hzp hzlt
            obtain ⟨h2, mem2L, hperm, hshL⟩ :=
              hgraft u hul (fun j hj hne => huf j (by simp [hj]) hne)
                huyL huyR hk hzl hzr hzp hzlt
            have hui : u.get i = t.get i := huf i (by simp) hyi_ne_i
            have hR2 : Shaped u ((t.get i).right) (some i) h
                (some ((t.get i).key)) hi R := by
              refine shaped_fields_frame hul hR ?_
              intro j hj
              rw [huf j (by simp [hj]) (fun he => hdisj (he ▸ hyiL) (by simp [hj]))]
              exact ⟨rfl, rfl, rfl, rfl⟩
            refine ⟨max h2 h + 1, mem2L ++ i :: R, ?_, ?_⟩
            · exact hperm.append_right (i :: R)
            · refine Shaped.node i par (max h2 h) lo hi mem2L R
                (lt_of_lt_of_le hlt hul) ?_ ?_ ?_ ?_ ?_
              · rw [hui]; exact hpar
              · rw [hui]; exact hlo
              · rw [hui]; exact hhi
              · rw [hui]; exact shaped_height_le hshL (le_max_left _ _)
              · rw [hui]; exact shaped_height_le hR2 (le_max_right _ _)
      · -- descend right
        rcases hc : (t.get i).right with _ | c
        · -- attach here on the right
          rw [hc] at hR
          cases hR
          refine ⟨i, ?_, by simp, ?_⟩
          · intro y0
            rw [hstep y0, if_neg hklt, hc, insertDescend_none]
          · intro u hul huf huyL huyR hk hzl hzr hzp hzlt
            have hui : u.get i = { t.get i with right := some z } := huyR hklt
            have hzn : Shaped u (some z) (some i) 1 (some ((t.get i).key)) hi [z] := by
              have : ([] ++ z :: []) = [z] := rfl
              rw [← this]
              refine Shaped.node z (some i) 0 (some ((t.get i).key)) hi [] []
                hzlt hzp ?_ ?_ ?_ ?_
              · rw [hk]; exact le_of_not_lt hklt
              · rw [hk]; exact hkhi
              · rw [hzl]; exact Shaped.nil _ _ _ _
              · rw [hzr]; exact Shaped.nil _ _ _ _
            have hL2 : Shaped u ((t.get i).left) (some i) h lo
                (some ((t.get i).key)) L := by
              refine shaped_fields_frame hul hL ?_
              intro j hj
              rw [huf j (by simp [hj]) (fun he => hiL (he ▸ hj))]
              exact ⟨rfl, rfl, rfl, rfl⟩
            refine ⟨max h 1 + 1, L ++ i :: [z], ?_, ?_⟩
            · have h2 := List.perm_append_singleton z (L ++ [i])
              simpa using h2
            · have hn : Shaped u (some i) par (max h 1 + 1) lo hi (L ++ i :: [z]) := by
                refine Shaped.node i par (max h 1) lo hi L [z]
                  (lt_of_lt_of_le hlt hul) ?_ ?_ ?_ ?_ ?_
                · rw [hui]; exact hpar
                · rw [hui]; exact hlo
                · rw [hui]; exact hhi
                · rw [hui]; exact shaped_height_le hL2 (le_max_left _ _)
                · rw [hui]; exact shaped_height_le hzn (le_max_right _ _)
              exact hn
        · -- recurse right
          obtain ⟨yi, hdesc, hyiR, hgraft⟩ :=
            ihR hndR (show h < f by omega) (le_of_not_lt hklt) hkhi hc
          have hyi_ne_i : i ≠ yi := fun he => hiR (he ▸ hyiR)
          refine ⟨yi, ?_, by simp [hyiR], ?_⟩
          · intro y0
            rw [hstep y0, if_neg hklt]
            exact hdesc (some i)
          · intro u hul huf huyL huyR hk hzl hzr hzp hzlt
            obtain ⟨h2, mem2R, hperm, hshR⟩ :=
              hgraft u hul (fun j hj hne => huf j (by simp [hj]) hne)
                huyL huyR hk hzl hzr hzp hzlt
            have hui : u.get i = t.get i :=
              huf i (by simp) hyi_ne_i
            have hL2 : Shaped u ((t.get i).left) (some i) h lo
                (some ((t.get i).key)) L := by
              refine shaped_fields_frame hul hL ?_
              intro j hj
              rw [huf j (by simp [hj]) (fun he => hdisj hj (by simp [he ▸ hyiR]))]
              exact ⟨rfl, rfl, rfl, rfl⟩
            refine ⟨max h h2 + 1, L ++ i :: mem2R, ?_, ?_⟩
            · have h1 : List.Perm (L ++ i :: mem2R) (L ++ i :: (z :: R)) :=
                (hperm.cons i).append_left L
              have h2p : List.Perm ((L ++ [i]) ++ z :: R) (z :: ((L ++ [i]) ++ R)) :=
                List.perm_middle
              refine h1.trans ?_
              simpa using h2p
            · refine Shaped.node i par (max h h2) lo hi L mem2R
                (lt_of_lt_of_le hlt hul) ?_ ?_ ?_ ?_ ?_
              · rw [hui]; exact hpar
              · rw [hui]; exact hlo
              · rw [hui]; exact hhi
              · rw [hui]; exact shaped_height_le hL2 (le_max_left _ _)
              · rw [hui]; exact shaped_height_le hshR (le_max_right _ _)


theorem insertPlace_wf {t0 : RedBlackTree} {mem : List Nat} {h : Nat} {key : Int}
    (hs : Shaped t0 t0.root none h none none mem) (hnd : mem.Nodup) :
    ∃ h2 mem2, List.Perm mem2 (t0.nodes.length :: mem) ∧
      Shaped (RedBlackTree.insertPlace t0 key).1
        (RedBlackTree.insertPlace t0 key).1.root none h2 none none mem2 ∧
      (RedBlackTree.insertPlace t0 key).1.nodes.length = t0.nodes.length + 1 ∧
      (RedBlackTree.insertPlace t0 key).2 = t0.nodes.length := by
  have hlenE : (RedBlackTree.mk (t0.nodes ++ [Node.make key]) t0.root).nodes.length =
      t0.nodes.length + 1 := by simp
  have hgetE : ∀ j, j < t0.nodes.length →
      (RedBlackTree.mk (t0.nodes ++ [Node.make key]) t0.root).get j = t0.get j :=
    fun j hj => get_append_lt t0 _ _ hj
  have hgetz : (RedBlackTree.mk (t0.nodes ++ [Node.make key]) t0.root).get
      t0.nodes.length = Node.make key := get_append_self t0 _ _
  have hsE : Shaped (RedBlackTree.mk (t0.nodes ++ [Node.make key]) t0.root)
      t0.root none h none none mem := by
    refine shaped_fields_frame (by rw [hlenE]; omega) hs ?_
    intro j hj
    rw [hgetE j (shaped_mem_props hs hj).1]
    exact ⟨rfl, rfl, rfl, rfl⟩
  rcases hroot : t0.root with _ | r
  · -- empty tree: z becomes the root
    rw [hroot] at hs
    cases hs
    simp only [RedBlackTree.insertPlace, hroot, insertDescend_none]
    have hgz : (((RedBlackTree.mk (t0.nodes ++ [Node.make key]) none).setParent
        t0.nodes.length none).setRoot (some t0.nodes.length)).get t0.nodes.length =
        { Node.make key with parent := none } := by
      rw [get_setRoot, get_setParent_self _ _ _ (by simp),
        get_append_self t0 (Node.make key) none]
    refine ⟨1, [t0.nodes.length], List.Perm.refl _, ?_, by
      rw [length_setRoot, length_setParent]; simp, by first
        | rfl
        | trivial⟩
    have heq : ([] ++ t0.nodes.length :: []) = [t0.nodes.length] := rfl
    rw [← heq]
    refine Shaped.node t0.nodes.length none 0 none none [] []
      (by rw [length_setRoot, length_setParent]; simp)
      ?_ trivial trivial ?_ ?_
    · rw [hgz]
    · rw [hgz]; exact Shaped.nil _ _ _ _
    · rw [hgz]; exact Shaped.nil _ _ _ _
  · -- non-empty: descend and graft
    have hminE := shaped_min_height hsE
    have hlmem : mem.length ≤ t0.nodes.length := shaped_mem_length_le hs hnd
    obtain ⟨yi, hdesc, hyim, hgraft⟩ :=
      insertDescend_graft (z := t0.nodes.length) hminE hnd
        (show mem.length < (t0.nodes ++ [Node.make key]).length + 1 by
          simp; omega)
        trivial trivial hroot
    have hyilt : yi < t0.nodes.length := (shaped_mem_props hs hyim).1
    have hzyi : t0.nodes.length ≠ yi := by omega
    have hcond : (((RedBlackTree.mk (t0.nodes ++ [Node.make key]) t0.root).setParent
        t0.nodes.length (some yi)).get yi).key =
        ((RedBlackTree.mk (t0.nodes ++ [Node.make key]) t0.root).get yi).key := by
      rw [get_setParent_ne _ _ hzyi]
    have hdescN := hdesc none
    by_cases hklt : key <
        ((RedBlackTree.mk (t0.nodes ++ [Node.make key]) t0.root).get yi).key
    · simp only [RedBlackTree.insertPlace]
      rw [hdescN]
      simp only [hcond, if_pos hklt]
      obtain ⟨h2, mem2, hperm, hshu⟩ :=
        hgraft (((RedBlackTree.mk (t0.nodes ++ [Node.make key]) t0.root).setParent
            t0.nodes.length (some yi)).setLeft yi (some t0.nodes.length))
          (by rw [length_setLeft, length_setParent])
          (by
            intro j hj hne
            have hjlt : j < t0.nodes.length := (shaped_mem_props hs hj).1
            rw [get_setLeft_ne _ _ (Ne.symm hne), get_setParent_ne _ _ (by omega)])
          (by
            intro _
            rw [get_setLeft_self _ _ _ (by rw [length_setParent, hlenE]; omega),
              get_setParent_ne _ _ hzyi])
          (fun hk => absurd hklt hk)
          (by rw [get_setLeft_ne _ _ (Ne.symm hzyi),
              get_setParent_self _ _ _ (by rw [hlenE]; omega), hgetz]; try rfl)
          (by rw [get_setLeft_ne _ _ (Ne.symm hzyi),
              get_setParent_self _ _ _ (by rw [hlenE]; omega), hgetz]; try rfl)
          (by rw [get_setLeft_ne _ _ (Ne.symm hzyi),
              get_setParent_self _ _ _ (by rw [hlenE]; omega), hgetz]; try rfl)
          (by rw [get_setLeft_ne _ _ (Ne.symm hzyi),
              get_setParent_self _ _ _ (by rw [hlenE]; omega), hgetz]; try rfl)
          (by rw [length_setLeft, length_setParent, hlenE]; omega)
      refine ⟨h2, mem2, hperm, ?_, ?_, ?_⟩
      · exact hshu
      · rw [length_setLeft, length_setParent]; simp
      · first
        | rfl
        | trivial
    · simp only [RedBlackTree.insertPlace]
      rw [hdescN]
      simp only [hcond, if_neg hklt]
      obtain ⟨h2, mem2, hperm, hshu⟩ :=
        hgraft (((RedBlackTree.mk (t0.nodes ++ [Node.make key]) t0.root).setParent
            t0.nodes.length (some yi)).setRight yi (some t0.nodes.length))
          (by rw [length_setRight, length_setParent])
          (by
            intro j hj hne
            have hjlt : j < t0.nodes.length := (shaped_mem_props hs hj).1
            rw [get_setRight_ne _ _ (Ne.symm hne), get_setParent_ne _ _ (by omega)])
          (fun hk => absurd hk hklt)
          (by
            intro _
            rw [get_setRight_self _ _ _ (by rw [length_setParent, hlenE]; omega),
              get_setParent_ne _ _ hzyi])
          (by rw [get_setRight_ne _ _ (Ne.symm hzyi),
              get_setParent_self _ _ _ (by rw [hlenE]; omega), hgetz]; try rfl)
          (by rw [get_setRight_ne _ _ (Ne.symm hzyi),
              get_setParent_self _ _ _ (by rw [hlenE]; omega), hgetz]; try rfl)
          (by rw [get_setRight_ne _ _ (Ne.symm hzyi),
              get_setParent_self _ _ _ (by rw [hlenE]; omega), hgetz]; try rfl)
          (by rw [get_setRight_ne _ _ (Ne.symm hzyi),
              get_setParent_self _ _ _ (by rw [hlenE]; omega), hgetz]; try rfl)
          (by rw [length_setRight, length_setParent, hlenE]; omega)
      refine ⟨h2, mem2, hperm, ?_, ?_, ?_⟩
      · exact hshu
      · rw [length_setRight, length_setParent]; simp
      · first
        | rfl
        | trivial


theorem wf_fixInsAfterR {t : RedBlackTree} {mem : List Nat} {h : Nat}
    (hs : Shaped t t.root none h none none mem) (hnd : mem.Nodup) {z : Nat}
    (hz : z ∈ mem) :
    ∃ h2,
      Shaped (match (t.get z).parent with
              | none => t
              | some p2 =>
                match (t.get p2).parent with
                | none => t
                | some g2 => RedBlackTree.right_rotate
                    ((t.setColor p2 Color.BLACK).setColor g2 Color.RED) (some g2))
        (match (t.get z).parent with
              | none => t
              | some p2 =>
                match (t.get p2).parent with
                | none => t
                | some g2 => RedBlackTree.right_rotate
                    ((t.setColor p2 Color.BLACK).setColor g2 Color.RED) (some g2)).root
        none h2 none none mem ∧
      (match (t.get z).parent with
              | none => t
              | some p2 =>
                match (t.get p2).parent with
                | none => t
                | some g2 => RedBlackTree.right_rotate
                    ((t.setColor p2 Color.BLACK).setColor g2 Color.RED) (some g2)).nodes.length =
        t.nodes.length := by
  split
  · exact ⟨h, hs, rfl⟩
  · rename_i p2 hp2
    have hp2m : p2 ∈ mem := wf_parent_mem hs hz hp2
    split
    · exact ⟨h, hs, rfl⟩
    · rename_i g2 hg2
      have hg2m : g2 ∈ mem := wf_parent_mem hs hp2m hg2
      have hs1 : Shaped ((t.setColor p2 Color.BLACK).setColor g2 Color.RED)
          ((t.setColor p2 Color.BLACK).setColor g2 Color.RED).root none h
          none none mem := shaped_setColor (shaped_setColor hs)
      obtain ⟨h2, hsh, hlen⟩ := wf_right_rotate hs1 hnd hg2m
      exact ⟨h2, hsh, by rw [hlen, length_setColor, length_setColor]⟩

theorem wf_fixInsAfterL {t : RedBlackTree} {mem : List Nat} {h : Nat}
    (hs : Shaped t t.root none h none none mem) (hnd : mem.Nodup) {z : Nat}
    (hz : z ∈ mem) :
    ∃ h2,
      Shaped (match (t.get z).parent with
              | none => t
              | some p2 =>
                match (t.get p2).parent with
                | none => t
                | some g2 => RedBlackTree.left_rotate
                    ((t.setColor p2 Color.BLACK).setColor g2 Color.RED) (some g2))
        (match (t.get z).parent with
              | none => t
              | some p2 =>
                match (t.get p2).parent with
                | none => t
                | some g2 => RedBlackTree.left_rotate
                    ((t.setColor p2 Color.BLACK).setColor g2 Color.RED) (some g2)).root
        none h2 none none mem ∧
      (match (t.get z).parent with
              | none => t
              | some p2 =>
                match (t.get p2).parent with
                | none => t
                | some g2 => RedBlackTree.left_rotate
                    ((t.setColor p2 Color.BLACK).setColor g2 Color.RED) (some g2)).nodes.length =
        t.nodes.length := by
  split
  · exact ⟨h, hs, rfl⟩
  · rename_i p2 hp2
    have hp2m : p2 ∈ mem := wf_parent_mem hs hz hp2
    split
    · exact ⟨h, hs, rfl⟩
    · rename_i g2 hg2
      have hg2m : g2 ∈ mem := wf_parent_mem hs hp2m hg2
      have hs1 : Shaped ((t.setColor p2 Color.BLACK).setColor g2 Color.RED)
          ((t.setColor p2 Color.BLACK).setColor g2 Color.RED).root none h
          none none mem := shaped_setColor (shaped_setColor hs)
      obtain ⟨h2, hsh, hlen⟩ := wf_left_rotate hs1 hnd hg2m
      exact ⟨h2, hsh, by rw [hlen, length_setColor, length_setColor]⟩


theorem wf_fixInsertGo (fuel : Nat) :
    ∀ {t : RedBlackTree} {mem : List Nat} {h z : Nat},
      Shaped t t.root none h none none mem → mem.Nodup → z ∈ mem →
      ∃ h2, Shaped (RedBlackTree.fixInsertGo fuel t z)
          (RedBlackTree.fixInsertGo fuel t z).root none h2 none none mem ∧
        (RedBlackTree.fixInsertGo fuel t z).nodes.length = t.nodes.length := by
  induction fuel with
  | zero => intro t mem h z hs hnd hz; exact ⟨h, hs, rfl⟩
  | succ f ih =>
    intro t mem h z hs hnd hz
    simp only [RedBlackTree.fixInsertGo]
    split
    · exact ⟨h, hs, rfl⟩
    · split
      · exact ⟨h, hs, rfl⟩
      · rename_i p hp
        split
        · exact ⟨h, hs, rfl⟩
        · split
          · exact ⟨h, hs, rfl⟩
          · rename_i g hg
            have hpm : p ∈ mem := wf_parent_mem hs hz hp
            have hgm : g ∈ mem := wf_parent_mem hs hpm hg
            split
            · -- p is g's left child
              split
              · -- uncle present
                rename_i ui hui
                have huim : ui ∈ mem := shaped_child_mem_right hs hgm hui
                split
                · -- recolor and continue from g
                  obtain ⟨h2, hsh, hlen⟩ :=
                    ih (shaped_setColor (shaped_setColor (shaped_setColor hs))) hnd hgm
                  exact ⟨h2, hsh, hlen.trans (by
                    rw [length_setColor, length_setColor, length_setColor])⟩
                · -- rotation case
                  by_cases hzr : (t.get p).right = some z
                  · rw [if_pos hzr]
                    obtain ⟨hA, hshLR, hlenLR⟩ := wf_left_rotate hs hnd hpm
                    obtain ⟨hB, hshM, hlenM⟩ := wf_fixInsAfterR hshLR hnd hpm
                    obtain ⟨hC, hshF, hlenF⟩ := ih hshM hnd hpm
                    exact ⟨hC, hshF, hlenF.trans (hlenM.trans hlenLR)⟩
                  · rw [if_neg hzr]
                    obtain ⟨hB, hshM, hlenM⟩ := wf_fixInsAfterR hs hnd hz
                    obtain ⟨hC, hshF, hlenF⟩ := ih hshM hnd hz
                    exact ⟨hC, hshF, hlenF.trans hlenM⟩
              · -- no uncle: rotation case
                by_cases hzr : (t.get p).right = some z
                · rw [if_pos hzr]
                  obtain ⟨hA, hshLR, hlenLR⟩ := wf_left_rotate hs hnd hpm
                  obtain ⟨hB, hshM, hlenM⟩ := wf_fixInsAfterR hshLR hnd hpm
                  obtain ⟨hC, hshF, hlenF⟩ := ih hshM hnd hpm
                  exact ⟨hC, hshF, hlenF.trans (hlenM.trans hlenLR)⟩
                · rw [if_neg hzr]
                  obtain ⟨hB, hshM, hlenM⟩ := wf_fixInsAfterR hs hnd hz
                  obtain ⟨hC, hshF, hlenF⟩ := ih hshM hnd hz
                  exact ⟨hC, hshF, hlenF.trans hlenM⟩
            · -- p is g's right child
              split
              · -- uncle present
                rename_i ui hui
                have huim : ui ∈ mem := shaped_child_mem_left hs hgm hui
                split
                · -- recolor and continue from g
                  obtain ⟨h2, hsh, hlen⟩ :=
                    ih (shaped_setColor (shaped_setColor (shaped_setColor hs))) hnd hgm
                  exact ⟨h2, hsh, hlen.trans (by
                    rw [length_setColor, length_setColor, length_setColor])⟩
                · -- rotation case
                  by_cases hzr : (t.get p).left = some z
                  · rw [if_pos hzr]
                    obtain ⟨hA, hshRR, hlenRR⟩ := wf_right_rotate hs hnd hpm
                    obtain ⟨hB, hshM, hlenM⟩ := wf_fixInsAfterL hshRR hnd hpm
                    obtain ⟨hC, hshF, hlenF⟩ := ih hshM hnd hpm
                    exact ⟨hC, hshF, hlenF.trans (hlenM.trans hlenRR)⟩
                  · rw [if_neg hzr]
                    obtain ⟨hB, hshM, hlenM⟩ := wf_fixInsAfterL hs hnd hz
                    obtain ⟨hC, hshF, hlenF⟩ := ih hshM hnd hz
                    exact ⟨hC, hshF, hlenF.trans hlenM⟩
              · -- no uncle: rotation case
                by_cases hzr : (t.get p).left = some z
                · rw [if_pos hzr]
                  obtain ⟨hA, hshRR, hlenRR⟩ := wf_right_rotate hs hnd hpm
                  obtain ⟨hB, hshM, hlenM⟩ := wf_fixInsAfterL hshRR hnd hpm
                  obtain ⟨hC, hshF, hlenF⟩ := ih hshM hnd hpm
                  exact ⟨hC, hshF, hlenF.trans (hlenM.trans hlenRR)⟩
                · rw [if_neg hzr]
                  obtain ⟨hB, hshM, hlenM⟩ := wf_fixInsAfterL hs hnd hz
                  obtain ⟨hC, hshF, hlenF⟩ := ih hshM hnd hz
                  exact ⟨hC, hshF, hlenF.trans hlenM⟩

theorem wf_fix_insert {t : RedBlackTree} {mem : List Nat} {h z : Nat}
    (hs : Shaped t t.root none h none none mem) (hnd : mem.Nodup) (hz : z ∈ mem) :
    ∃ h2, Shaped (RedBlackTree.fix_insert t z)
        (RedBlackTree.fix_insert t z).root none h2 none none mem ∧
      (RedBlackTree.fix_insert t z).nodes.length = t.nodes.length := by
  obtain ⟨h2, hsh, hlen⟩ := wf_fixInsertGo (t.nodes.length + 1) hs hnd hz
  simp only [RedBlackTree.fix_insert]
  split
  · exact ⟨h2, hsh, hlen⟩
  · rename_i r hr
    refine ⟨h2, ?_, by rw [length_setColor]; exact hlen⟩
    have h5 := shaped_setColor (i := r) (c := Color.BLACK) hsh
    rw [hr] at h5
    rw [root_setColor, hr]
    exact h5

theorem wf_insert {t : RedBlackTree} {mem : List Nat} {h : Nat} {key : Int}
    (hs : Shaped t t.root none h none none mem) (hnd : mem.Nodup) :
    ∃ h2 mem2, List.Perm mem2 (t.nodes.length :: mem) ∧
      Shaped (RedBlackTree.insert t key)
        (RedBlackTree.insert t key).root none h2 none none mem2 ∧
      (RedBlackTree.insert t key).nodes.length = t.nodes.length + 1 := by
  obtain ⟨h2, mem2, hperm, hsh, hlen, hz⟩ :=
    @insertPlace_wf t mem h key hs hnd
  have hnd2 : mem2.Nodup := by
    refine hperm.nodup_iff.2 ?_
    refine List.nodup_cons.2 ⟨?_, hnd⟩
    intro hmem
    have := (shaped_mem_props hs hmem).1
    omega
  have hzm : (RedBlackTree.insertPlace t key).2 ∈ mem2 := by
    rw [hz]
    exact hperm.mem_iff.2 (by simp)
  obtain ⟨h3, hsh3, hlen3⟩ := wf_fix_insert hsh hnd2 hzm
  refine ⟨h3, mem2, hperm, ?_, ?_⟩
  · exact hsh3
  · rw [show RedBlackTree.insert t key =
      RedBlackTree.fix_insert (RedBlackTree.insertPlace t key).1
        (RedBlackTree.insertPlace t key).2 from rfl]
    rw [hlen3, hlen]


theorem shaped_splice {t u : RedBlackTree} (hlen : t.nodes.length ≤ u.nodes.length) :
    ∀ {x par : Option Nat} {h : Nat} {lo hi : Option Int} {mem : List Nat},
      Shaped t x par h lo hi mem → mem.Nodup →
      ∀ {yi : Nat}, yi ∈ mem → (t.get yi).left = none →
      (∀ pj, par = some pj → ¬ pj ∈ mem) →
      (∀ j, j ∈ mem → (t.get yi).right = some j → (t.get yi).parent ≠ some j →
        u.get j = { t.get j with parent := (t.get yi).parent }) →
      (∀ j, j ∈ mem → (t.get yi).parent = some j → (t.get yi).right ≠ some j →
        u.get j = (if (t.get j).left = some yi
                   then { t.get j with left := (t.get yi).right }
                   else { t.get j with right := (t.get yi).right })) →
      (∀ j, j ∈ mem → j ≠ yi → (t.get yi).right ≠ some j → (t.get yi).parent ≠ some j →
        u.get j = t.get j) →
      ∃ x2 h2,
        (x = some yi → x2 = (t.get yi).right) ∧
        (x ≠ some yi → x2 = x) ∧
        Shaped u x2 par h2 lo hi (mem.erase yi) ∧
        (mem.head? = some yi →
          Shaped u x2 par h2 (some ((t.get yi).key)) hi (mem.erase yi)) := by
  intro x par h lo hi mem hs
  induction hs with
  | nil par h lo hi => intro _ yi hyi; cases hyi
  | node i par h lo hi L R hlt hpar hlo hhi hL hR ihL ihR =>
    intro hnd yi hyi hyleft hparout hux hup huo
    have hndL : L.Nodup := (List.nodup_append.1 hnd).1
    have hndiR : (i :: R).Nodup := (List.nodup_append.1 hnd).2.1
    have hdisj : L.Disjoint (i :: R) := (List.nodup_append.1 hnd).2.2
    have hndR : R.Nodup := (List.nodup_cons.1 hndiR).2
    have hiR : ¬i ∈ R := (List.nodup_cons.1 hndiR).1
    have hiL : ¬i ∈ L := fun hmemL => hdisj hmemL (by simp)
    rcases (by simpa using hyi : yi ∈ L ∨ yi = i ∨ yi ∈ R) with hyiL | heq | hyiR
    · -- yi inside the left subtree
      have hyine : yi ≠ i := fun he => hiL (he ▸ hyiL)
      have hrguard : ∀ j, j ∈ i :: R → (t.get yi).right ≠ some j := by
        intro j hj hrj
        exact hdisj (shaped_child_mem_right hL hyiL hrj) hj
      have hpguard : ∀ j, j ∈ i :: R → j ≠ i → (t.get yi).parent ≠ some j := by
        intro j hj hji hpj
        rcases shaped_parent_field hL hyiL hpj with ⟨_, hpe⟩ | ⟨hpm, _⟩
        · injection hpe with hpe2
          exact hji hpe2.symm
        · exact hdisj hpm hj
      obtain ⟨x2, h2, hxeq, hxne, hsh2, htight⟩ :=
        ihL hndL hyiL hyleft
          (fun pj hpj hmem => by
            injection hpj with hpj2
            exact hiL (hpj2 ▸ hmem))
          (fun j hj => hux j (by simp [hj]))
          (fun j hj => hup j (by simp [hj]))
          (fun j hj => huo j (by simp [hj]))
      have hRfr : ∀ j, j ∈ R → u.get j = t.get j := by
        intro j hj
        refine huo j (by simp [hj]) (fun he => hdisj (he ▸ hyiL) (by simp [hj]))
          (hrguard j (by simp [hj])) (hpguard j (by simp [hj]) (fun he => hiR (he ▸ hj)))
      have hR2 : Shaped u ((t.get i).right) (some i) h (some ((t.get i).key)) hi R := by
        refine shaped_fields_frame hlen hR ?_
        intro j hj
        rw [hRfr j hj]
        exact ⟨rfl, rfl, rfl, rfl⟩
      have hmemerase : (L ++ i :: R).erase yi = L.erase yi ++ i :: R :=
        List.erase_append_left _ hyiL
      have hLhead : (L ++ i :: R).head? = some yi → L.head? = some yi := by
        intro hhead
        cases L with
        | nil => cases hyiL
        | cons a as =>
          simp at hhead
          simp [hhead]
      by_cases hxL : (t.get i).left = some yi
      · -- yi is i's direct left child
        have hypar : (t.get yi).parent = some i := by
          rw [hxL] at hL
          cases hL
          assumption
        have hui : u.get i = { t.get i with left := (t.get yi).right } := by
          rw [hup i (by simp) hypar (hrguard i (by simp)), if_pos hxL]
        have hx2 : x2 = (t.get yi).right := hxeq (by rw [hxL])
        refine ⟨some i, max h2 h + 1,
          fun he => absurd (Option.some.inj he) (fun he2 => hyine he2.symm),
          fun _ => rfl, ?_, ?_⟩
        · rw [hmemerase]
          refine Shaped.node i par (max h2 h) lo hi (L.erase yi) R
            (lt_of_lt_of_le hlt hlen) ?_ ?_ ?_ ?_ ?_
          · rw [hui]; exact hpar
          · rw [hui]; exact hlo
          · rw [hui]; exact hhi
          · rw [hui, ← hx2]; exact shaped_height_le hsh2 (le_max_left _ _)
          · rw [hui]; exact shaped_height_le hR2 (le_max_right _ _)
        · intro hhead
          have htightL := htight (hLhead hhead)
          rw [hmemerase]
          refine Shaped.node i par (max h2 h) (some ((t.get yi).key)) hi (L.erase yi) R
            (lt_of_lt_of_le hlt hlen) ?_ ?_ ?_ ?_ ?_
          · rw [hui]; exact hpar
          · rw [hui]; exact (shaped_mem_props hL hyiL).2.2
          · rw [hui]; exact hhi
          · rw [hui, ← hx2]; exact shaped_height_le htightL (le_max_left _ _)
          · rw [hui]; exact shaped_height_le hR2 (le_max_right _ _)
      · -- yi strictly deeper in the left subtree
        have hui : u.get i = t.get i := by
          refine huo i (by simp) (Ne.symm hyine) (hrguard i (by simp)) ?_
          intro hpj
          rcases shaped_parent_field hL hyiL hpj with ⟨hxe, _⟩ | ⟨hpm, _⟩
          · exact hxL hxe
          · exact hiL hpm
        have hx2 : x2 = (t.get i).left := hxne hxL
        refine ⟨some i, max h2 h + 1,
          fun he => absurd (Option.some.inj he) (fun he2 => hyine he2.symm),
          fun _ => rfl, ?_, ?_⟩
        · rw [hmemerase]
          refine Shaped.node i par (max h2 h) lo hi (L.erase yi) R
            (lt_of_lt_of_le hlt hlen) ?_ ?_ ?_ ?_ ?_
          · rw [hui]; exact hpar
          · rw [hui]; exact hlo
          · rw [hui]; exact hhi
          · rw [hui, ← hx2]; exact shaped_height_le hsh2 (le_max_left _ _)
          · rw [hui]; exact shaped_height_le hR2 (le_max_right _ _)
        · intro hhead
          have htightL := htight (hLhead hhead)
          rw [hmemerase]
          refine Shaped.node i par (max h2 h) (some ((t.get yi).key)) hi (L.erase yi) R
            (lt_of_lt_of_le hlt hlen) ?_ ?_ ?_ ?_ ?_
          · rw [hui]; exact hpar
          · rw [hui]; exact (shaped_mem_props hL hyiL).2.2
          · rw [hui]; exact hhi
          · rw [hui, ← hx2]; exact shaped_height_le htightL (le_max_left _ _)
          · rw [hui]; exact shaped_height_le hR2 (le_max_right _ _)
    · -- yi is the subtree root
      subst heq
      rw [hyleft] at hL
      cases hL
      have hmemerase : (([] : List Nat) ++ yi :: R).erase yi = R := by simp
      have hparney : ∀ j, j ∈ R → (t.get yi).parent ≠ some j := by
        intro j hj hpj
        rw [hpar] at hpj
        exact hparout j hpj (by simp [hj])
      rcases hrt : (t.get yi).right with _ | r0
      · -- no child: the subtree disappears
        rw [hrt] at hR
        cases hR
        refine ⟨none, h, fun _ => rfl, fun hne => absurd rfl hne, ?_, ?_⟩
        · rw [hmemerase]; exact Shaped.nil _ _ _ _
        · intro _; rw [hmemerase]; exact Shaped.nil _ _ _ _
      · -- the right child takes yi's place
        rw [hrt] at hR
        have hr0R : r0 ∈ R := shaped_root_mem hR
        have htightR : Shaped u (some r0) par h
            (some ((t.get yi).key)) hi R := by
          refine shaped_reroot hlen hR hndR par ?_ ?_ ?_
          · intro j hj
            by_cases hjr : j = r0
            · subst hjr
              rw [hux j (by simp [hj]) hrt (hparney j hj)]
              exact ⟨rfl, rfl, rfl⟩
            · rw [huo j (by simp [hj]) (fun he => hiR (he ▸ hj))
                (fun he => hjr (Option.some.inj (hrt.symm.trans he)).symm)
                (hparney j hj)]
              exact ⟨rfl, rfl, rfl⟩
          · intro j hj hjx
            have huoj := huo j (by simp [hj]) (fun he => hiR (he ▸ hj))
              (by rw [hrt]; exact hjx) (hparney j hj)
            rw [huoj]
          · intro bi hbi
            have hbir : r0 = bi := Option.some.inj hbi
            subst hbir
            rw [hux r0 (by simp [hr0R]) hrt (hparney r0 hr0R)]
            rw [hpar]
        refine ⟨some r0, h, fun _ => rfl, fun hne => absurd rfl hne, ?_, ?_⟩
        · rw [hmemerase]
          refine shaped_bounds_mono htightR ?_ (fun k hk => hk)
          intro k hk
          exact lowOk_trans hlo hk
        · intro _
          rw [hmemerase]
          exact htightR
    · -- yi inside the right subtree
      have hyine : yi ≠ i := fun he => hiR (he ▸ hyiR)
      have hyinL : ¬yi ∈ L := fun he => hdisj he (by simp [hyiR])
      have hrguard : ∀ j, j ∈ L ∨ j = i → (t.get yi).right ≠ some j := by
        intro j hj hrj
        have hjR : j ∈ R := shaped_child_mem_right hR hyiR hrj
        rcases hj with hjL | rfl
        · exact hdisj hjL (by simp [hjR])
        · exact hiR hjR
      have hpguard : ∀ j, j ∈ L ∨ j = i → j ≠ i → (t.get yi).parent ≠ some j := by
        intro j hj hji hpj
        rcases shaped_parent_field hR hyiR hpj with ⟨_, hpe⟩ | ⟨hpm, _⟩
        · injection hpe with hpe2
          exact hji hpe2.symm
        · rcases hj with hjL | rfl
          · exact hdisj hjL (by simp [hpm])
          · exact hiR hpm
      obtain ⟨x2, h2, hxeq, hxne, hsh2, _⟩ :=
        ihR hndR hyiR hyleft
          (fun pj hpj hmem => by
            injection hpj with hpj2
            exact hiR (hpj2 ▸ hmem))
          (fun j hj => hux j (by simp [hj]))
          (fun j hj => hup j (by simp [hj]))
          (fun j hj => huo j (by simp [hj]))
      have hLfr : ∀ j, j ∈ L → u.get j = t.get j := by
        intro j hj
        refine huo j (by simp [hj]) (fun he => hyinL (he ▸ hj))
          (hrguard j (Or.inl hj)) ?_
        refine hpguard j (Or.inl hj) (fun he => hiL (he ▸ hj))
      have hL2 : Shaped u ((t.get i).left) (some i) h lo (some ((t.get i).key)) L := by
        refine shaped_fields_frame hlen hL ?_
        intro j hj
        rw [hLfr j hj]
        exact ⟨rfl, rfl, rfl, rfl⟩
      have hmemerase : (L ++ i :: R).erase yi = L ++ i :: R.erase yi := by
        rw [List.erase_append_right _ hyinL]
        congr 1
        rw [List.erase_cons_tail]
        simp [Ne.symm hyine]
      have hnohead : ¬(L ++ i :: R).head? = some yi := by
        intro hhead
        cases L with
        | nil =>
          simp at hhead
          exact hyine hhead.symm
        | cons a as =>
          simp at hhead
          exact hdisj (show yi ∈ a :: as by simp [hhead]) (by simp [hyiR])
      by_cases hxR : (t.get i).right = some yi
      · -- yi is i's direct right child
        have hypar : (t.get yi).parent = some i := by
          rw [hxR] at hR
          cases hR
          assumption
        have hnxL : ¬(t.get i).left = some yi := by
          intro he
          rw [he] at hL
          exact hyinL (shaped_root_mem hL)
        have hui : u.get i = { t.get i with right := (t.get yi).right } := by
          rw [hup i (by simp) hypar (hrguard i (Or.inr rfl)), if_neg hnxL]
        have hx2 : x2 = (t.get yi).right := hxeq (by rw [hxR])
        refine ⟨some i, max h h2 + 1,
          fun he => absurd (Option.some.inj he) (fun he2 => hyine he2.symm),
          fun _ => rfl, ?_, fun hhead => absurd hhead hnohead⟩
        rw [hmemerase]
        refine Shaped.node i par (max h h2) lo hi L (R.erase yi)
          (lt_of_lt_of_le hlt hlen) ?_ ?_ ?_ ?_ ?_
        · rw [hui]; exact hpar
        · rw [hui]; exact hlo
        · rw [hui]; exact hhi
        · rw [hui]; exact shaped_height_le hL2 (le_max_left _ _)
        · rw [hui, ← hx2]; exact shaped_height_le hsh2 (le_max_right _ _)
      · -- yi strictly deeper in the right subtree
        have hui : u.get i = t.get i := by
          refine huo i (by simp) (Ne.symm hyine) (hrguard i (Or.inr rfl)) ?_
          intro hpj
          rcases shaped_parent_field hR hyiR hpj with ⟨hxe, _⟩ | ⟨hpm, _⟩
          · exact hxR hxe
          · exact hiR hpm
        have hx2 : x2 = (t.get i).right := hxne hxR
        refine ⟨some i, max h h2 + 1,
          fun he => absurd (Option.some.inj he) (fun he2 => hyine he2.symm),
          fun _ => rfl, ?_, fun hhead => absurd hhead hnohead⟩
        rw [hmemerase]
        refine Shaped.node i par (max h h2) lo hi L (R.erase yi)
          (lt_of_lt_of_le hlt hlen) ?_ ?_ ?_ ?_ ?_
        · rw [hui]; exact hpar
        · rw [hui]; exact hlo
        · rw [hui]; exact hhi
        · rw [hui]; exact shaped_height_le hL2 (le_max_left _ _)
        · rw [hui, ← hx2]; exact shaped_height_le hsh2 (le_max_right _ _)


theorem shaped_splice_left {t u : RedBlackTree} (hlen : t.nodes.length ≤ u.nodes.length) :
    ∀ {x par : Option Nat} {h : Nat} {lo hi : Option Int} {mem : List Nat},
      Shaped t x par h lo hi mem → mem.Nodup →
      ∀ {yi : Nat}, yi ∈ mem → (t.get yi).right = none →
      (∀ pj, par = some pj → ¬ pj ∈ mem) →
      (∀ j, j ∈ mem → (t.get yi).left = some j → (t.get yi).parent ≠ some j →
        u.get j = { t.get j with parent := (t.get yi).parent }) →
      (∀ j, j ∈ mem → (t.get yi).parent = some j → (t.get yi).left ≠ some j →
        u.get j = (if (t.get j).left = some yi
                   then { t.get j with left := (t.get yi).left }
                   else { t.get j with right := (t.get yi).left })) →
      (∀ j, j ∈ mem → j ≠ yi → (t.get yi).left ≠ some j → (t.get yi).parent ≠ some j →
        u.get j = t.get j) →
      ∃ x2 h2,
        (x = some yi → x2 = (t.get yi).left) ∧
        (x ≠ some yi → x2 = x) ∧
        Shaped u x2 par h2 lo hi (mem.erase yi) := by
  intro x par h lo hi mem hs
  induction hs with
  | nil par h lo hi => intro _ yi hyi; cases hyi
  | node i par h lo hi L R hlt hpar hlo hhi hL hR ihL ihR =>
    intro hnd yi hyi hyright hparout hux hup huo
    have hndL : L.Nodup := (List.nodup_append.1 hnd).1
    have hndiR : (i :: R).Nodup := (List.nodup_append.1 hnd).2.1
    have hdisj : L.Disjoint (i :: R) := (List.nodup_append.1 hnd).2.2
    have hndR : R.Nodup := (List.nodup_cons.1 hndiR).2
    have hiR : ¬i ∈ R := (List.nodup_cons.1 hndiR).1
    have hiL : ¬i ∈ L := fun hmemL => hdisj hmemL (by simp)
    rcases (by simpa using hyi : yi ∈ L ∨ yi = i ∨ yi ∈ R) with hyiL | heq | hyiR
    · -- yi inside the left subtree
      have hyine : yi ≠ i := fun he => hiL (he ▸ hyiL)
      have hrguard : ∀ j, j ∈ i :: R → (t.get yi).left ≠ some j := by
        intro j hj hrj
        exact hdisj (shaped_child_mem_left hL hyiL hrj) hj
      have hpguard : ∀ j, j ∈ i :: R → j ≠ i → (t.get yi).parent ≠ some j := by
        intro j hj hji hpj
        rcases shaped_parent_field hL hyiL hpj with ⟨_, hpe⟩ | ⟨hpm, _⟩
        · injection hpe with hpe2
          exact hji hpe2.symm
        · exact hdisj hpm hj
      obtain ⟨x2, h2, hxeq, hxne, hsh2⟩ :=
        ihL hndL hyiL hyright
          (fun pj hpj hmem => by
            injection hpj with hpj2
            exact hiL (hpj2 ▸ hmem))
          (fun j hj => hux j (by simp [hj]))
          (fun j hj => hup j (by simp [hj]))
          (fun j hj => huo j (by simp [hj]))
      have hRfr : ∀ j, j ∈ R → u.get j = t.get j := by
        intro j hj
        refine huo j (by simp [hj]) (fun he => hdisj (he ▸ hyiL) (by simp [hj]))
          (hrguard j (by simp [hj])) (hpguard j (by simp [hj]) (fun he => hiR (he ▸ hj)))
      have hR2 : Shaped u ((t.get i).right) (some i) h (some ((t.get i).key)) hi R := by
        refine shaped_fields_frame hlen hR ?_
        intro j hj
        rw [hRfr j hj]
        exact ⟨rfl, rfl, rfl, rfl⟩
      have hmemerase : (L ++ i :: R).erase yi = L.erase yi ++ i :: R :=
        List.erase_append_left _ hyiL
      by_cases hxL : (t.get i).left = some yi
      · -- yi is i's direct left child
        have hypar : (t.get yi).parent = some i := by
          rw [hxL] at hL
          cases hL
          assumption
        have hui : u.get i = { t.get i with left := (t.get yi).left } := by
          rw [hup i (by simp) hypar (hrguard i (by simp)), if_pos hxL]
        have hx2 : x2 = (t.get yi).left := hxeq (by rw [hxL])
        refine ⟨some i, max h2 h + 1,
          fun he => absurd (Option.some.inj he) (fun he2 => hyine he2.symm),
          fun _ => rfl, ?_⟩
        rw [hmemerase]
        refine Shaped.node i par (max h2 h) lo hi (L.erase yi) R
          (lt_of_lt_of_le hlt hlen) ?_ ?_ ?_ ?_ ?_
        · rw [hui]; exact hpar
        · rw [hui]; exact hlo
        · rw [hui]; exact hhi
        · rw [hui, ← hx2]; exact shaped_height_le hsh2 (le_max_left _ _)
        · rw [hui]; exact shaped_height_le hR2 (le_max_right _ _)
      · -- yi strictly deeper in the left subtree
        have hui : u.get i = t.get i := by
          refine huo i (by simp) (Ne.symm hyine) (hrguard i (by simp)) ?_
          intro hpj
          rcases shaped_parent_field hL hyiL hpj with ⟨hxe, _⟩ | ⟨hpm, _⟩
          · exact hxL hxe
          · exact hiL hpm
        have hx2 : x2 = (t.get i).left := hxne hxL
        refine ⟨some i, max h2 h + 1,
          fun he => absurd (Option.some.inj he) (fun he2 => hyine he2.symm),
          fun _ => rfl, ?_⟩
        rw [hmemerase]
        refine Shaped.node i par (max h2 h) lo hi (L.erase yi) R
          (lt_of_lt_of_le hlt hlen) ?_ ?_ ?_ ?_ ?_
        · rw [hui]; exact hpar
        · rw [hui]; exact hlo
        · rw [hui]; exact hhi
        · rw [hui, ← hx2]; exact shaped_height_le hsh2 (le_max_left _ _)
        · rw [hui]; exact shaped_height_le hR2 (le_max_right _ _)
    · -- yi is the subtree root
      subst heq
      rw [hyright] at hR
      cases hR
      have hmemerase : (L ++ yi :: ([] : List Nat)).erase yi = L := by
        rw [List.erase_append_right _ hiL]
        simp
      have hparney : ∀ j, j ∈ L → (t.get yi).parent ≠ some j := by
        intro j hj hpj
        rw [hpar] at hpj
        exact hparout j hpj (by simp [hj])
      rcases hlt2 : (t.get yi).left with _ | l0
      · rw [hlt2] at hL
        cases hL
        refine ⟨none, h, fun _ => rfl, fun hne => absurd rfl hne, ?_⟩
        rw [hmemerase]
        exact Shaped.nil _ _ _ _
      · rw [hlt2] at hL
        have hl0L : l0 ∈ L := shaped_root_mem hL
        have hLnew : Shaped u (some l0) par h lo (some ((t.get yi).key)) L := by
          refine shaped_reroot hlen hL hndL par ?_ ?_ ?_
          · intro j hj
            by_cases hjl : j = l0
            · subst hjl
              rw [hux j (by simp [hj]) hlt2 (hparney j hj)]
              exact ⟨rfl, rfl, rfl⟩
            · rw [huo j (by simp [hj]) (fun he => hiL (he ▸ hj))
                (fun he => hjl (Option.some.inj (hlt2.symm.trans he)).symm)
                (hparney j hj)]
              exact ⟨rfl, rfl, rfl⟩
          · intro j hj hjx
            have huoj := huo j (by simp [hj]) (fun he => hiL (he ▸ hj))
              (by rw [hlt2]; exact hjx) (hparney j hj)
            rw [huoj]
          · intro bi hbi
            have hbir : l0 = bi := Option.some.inj hbi
            subst hbir
            rw [hux l0 (by simp [hl0L]) hlt2 (hparney l0 hl0L)]
            rw [hpar]
        refine ⟨some l0, h, fun _ => rfl, fun hne => absurd rfl hne, ?_⟩
        rw [hmemerase]
        refine shaped_bounds_mono hLnew (fun k hk => hk) ?_
        intro k hk
        exact hiOk_trans hk hhi
    · -- yi inside the right subtree
      have hyine : yi ≠ i := fun he => hiR (he ▸ hyiR)
      have hyinL : ¬yi ∈ L := fun he => hdisj he (by simp [hyiR])
      have hrguard : ∀ j, j ∈ L ∨ j = i → (t.get yi).left ≠ some j := by
        intro j hj hrj
        have hjR : j ∈ R := shaped_child_mem_left hR hyiR hrj
        rcases hj with hjL | rfl
        · exact hdisj hjL (by simp [hjR])
        · exact hiR hjR
      have hpguard : ∀ j, j ∈ L ∨ j = i → j ≠ i → (t.get yi).parent ≠ some j := by
        intro j hj hji hpj
        rcases shaped_parent_field hR hyiR hpj with ⟨_, hpe⟩ | ⟨hpm, _⟩
        · injection hpe with hpe2
          exact hji hpe2.symm
        · rcases hj with hjL | rfl
          · exact hdisj hjL (by simp [hpm])
          · exact hiR hpm
      obtain ⟨x2, h2, hxeq, hxne, hsh2⟩ :=
        ihR hndR hyiR hyright
          (fun pj hpj hmem => by
            injection hpj with hpj2
            exact hiR (hpj2 ▸ hmem))
          (fun j hj => hux j (by simp [hj]))
          (fun j hj => hup j (by simp [hj]))
          (fun j hj => huo j (by simp [hj]))
      have hLfr : ∀ j, j ∈ L → u.get j = t.get j := by
        intro j hj
        refine huo j (by simp [hj]) (fun he => hyinL (he ▸ hj))
          (hrguard j (Or.inl hj)) ?_
        refine hpguard j (Or.inl hj) (fun he => hiL (he ▸ hj))
      have hL2 : Shaped u ((t.get i).left) (some i) h lo (some ((t.get i).key)) L := by
        refine shaped_fields_frame hlen hL ?_
        intro j hj
        rw [hLfr j hj]
        exact ⟨rfl, rfl, rfl, rfl⟩
      have hmemerase : (L ++ i :: R).erase yi = L ++ i :: R.erase yi := by
        rw [List.erase_append_right _ hyinL]
        congr 1
        rw [List.erase_cons_tail]
        simp [Ne.symm hyine]
      by_cases hxR : (t.get i).right = some yi
      · -- yi is i's direct right child
        have hypar : (t.get yi).parent = some i := by
          rw [hxR] at hR
          cases hR
          assumption
        have hnxL : ¬(t.get i).left = some yi := by
          intro he
          rw [he] at hL
          exact hyinL (shaped_root_mem hL)
        have hui : u.get i = { t.get i with right := (t.get yi).left } := by
          rw [hup i (by simp) hypar (hrguard i (Or.inr rfl)), if_neg hnxL]
        have hx2 : x2 = (t.get yi).left := hxeq (by rw [hxR])
        refine ⟨some i, max h h2 + 1,
          fun he => absurd (Option.some.inj he) (fun he2 => hyine he2.symm),
          fun _ => rfl, ?_⟩
        rw [hmemerase]
        refine Shaped.node i par (max h h2) lo hi L (R.erase yi)
          (lt_of_lt_of_le hlt hlen) ?_ ?_ ?_ ?_ ?_
        · rw [hui]; exact hpar
        · rw [hui]; exact hlo
        · rw [hui]; exact hhi
        · rw [hui]; exact shaped_height_le hL2 (le_max_left _ _)
        · rw [hui, ← hx2]; exact shaped_height_le hsh2 (le_max_right _ _)
      · -- yi strictly deeper in the right subtree
        have hui : u.get i = t.get i := by
          refine huo i (by simp) (Ne.symm hyine) (hrguard i (Or.inr rfl)) ?_
          intro hpj
          rcases shaped_parent_field hR hyiR hpj with ⟨hxe, _⟩ | ⟨hpm, _⟩
          · exact hxR hxe
          · exact hiR hpm
        have hx2 : x2 = (t.get i).right := hxne hxR
        refine ⟨some i, max h h2 + 1,
          fun he => absurd (Option.some.inj he) (fun he2 => hyine he2.symm),
          fun _ => rfl, ?_⟩
        rw [hmemerase]
        refine Shaped.node i par (max h h2) lo hi L (R.erase yi)
          (lt_of_lt_of_le hlt hlen) ?_ ?_ ?_ ?_ ?_
        · rw [hui]; exact hpar
        · rw [hui]; exact hlo
        · rw [hui]; exact hhi
        · rw [hui]; exact shaped_height_le hL2 (le_max_left _ _)
        · rw [hui, ← hx2]; exact shaped_height_le hsh2 (le_max_right _ _)


theorem shaped_at_mem {t : RedBlackTree} :
    ∀ {x par : Option Nat} {h : Nat} {lo hi : Option Int} {mem : List Nat},
      Shaped t x par h lo hi mem → ∀ {j : Nat}, j ∈ mem →
      ∃ par2 h2 lo2 hi2 sub, h2 ≤ h ∧ Shaped t (some j) par2 h2 lo2 hi2 sub ∧
        ∀ k, k ∈ sub → k ∈ mem := by
  intro x par h lo hi mem hs
  induction hs with
  | nil par h lo hi => intro j hj; cases hj
  | node i par h lo hi L R hlt hpar hlo hhi hL hR ihL ihR =>
    intro j hj
    rcases (by simpa using hj : j ∈ L ∨ j = i ∨ j ∈ R) with hjL | rfl | hjR
    · obtain ⟨par2, h2, lo2, hi2, sub, hle, hsh, hsub⟩ := ihL hjL
      exact ⟨par2, h2, lo2, hi2, sub, by omega, hsh, fun k hk => by simp [hsub k hk]⟩
    · exact ⟨par, h + 1, lo, hi, L ++ j :: R, le_refl _,
        Shaped.node j par h lo hi L R hlt hpar hlo hhi hL hR, fun k hk => hk⟩
    · obtain ⟨par2, h2, lo2, hi2, sub, hle, hsh, hsub⟩ := ihR hjR
      exact ⟨par2, h2, lo2, hi2, sub, by omega, hsh, fun k hk => by simp [hsub k hk]⟩

theorem shaped_delete_two {t u : RedBlackTree} {fuel : Nat}
    (hlen : t.nodes.length ≤ u.nodes.length) :
    ∀ {x par : Option Nat} {h : Nat} {lo hi : Option Int} {mem : List Nat},
      Shaped t x par h lo hi mem → mem.Nodup →
      ∀ {zi : Nat}, zi ∈ mem → ∀ {r0 : Nat}, (t.get zi).right = some r0 →
      ∀ {yi : Nat}, yi = RedBlackTree.findMinGo fuel t r0 → h ≤ fuel →
      ((t.get yi).right ≠ some zi → (t.get yi).parent ≠ some zi →
        u.get zi = { t.get zi with key := (t.get yi).key }) →
      ((t.get yi).right ≠ some zi → (t.get yi).parent = some zi →
        u.get zi = (if (t.get zi).left = some yi
                    then { t.get zi with key := (t.get yi).key, left := (t.get yi).right }
                    else { t.get zi with key := (t.get yi).key, right := (t.get yi).right })) →
      (∀ j, j ∈ mem → j ≠ zi → (t.get yi).right = some j →
        (t.get yi).parent ≠ some j →
        u.get j = { t.get j with parent := (t.get yi).parent }) →
      (∀ j, j ∈ mem → j ≠ zi → (t.get yi).parent = some j →
        (t.get yi).right ≠ some j →
        u.get j = (if (t.get j).left = some yi
                   then { t.get j with left := (t.get yi).right }
                   else { t.get j with right := (t.get yi).right })) →
      (∀ j, j ∈ mem → j ≠ zi → j ≠ yi → (t.get yi).right ≠ some j →
        (t.get yi).parent ≠ some j → u.get j = t.get j) →
      ∃ h2, Shaped u x par h2 lo hi (mem.erase yi) ∧ yi ∈ mem ∧ yi ≠ zi ∧
        (∀ p, (t.get yi).parent = some p → p ∈ mem) := by
  intro x par h lo hi mem hs
  induction hs with
  | nil par h lo hi => intro _ zi hzi; cases hzi
  | node i par h lo hi L R hlt hpar hlo hhi hL hR ihL ihR =>
    intro hnd zi hzi r0 hzr yi hydef hfuel hukz hukz2 hux hup huo
    have hndL : L.Nodup := (List.nodup_append.1 hnd).1
    have hndiR : (i :: R).Nodup := (List.nodup_append.1 hnd).2.1
    have hdisj : L.Disjoint (i :: R) := (List.nodup_append.1 hnd).2.2
    have hndR : R.Nodup := (List.nodup_cons.1 hndiR).2
    have hiR : ¬i ∈ R := (List.nodup_cons.1 hndiR).1
    have hiL : ¬i ∈ L := fun hmemL => hdisj hmemL (by simp)
    rcases (by simpa using hzi : zi ∈ L ∨ zi = i ∨ zi ∈ R) with hziL | heq | hziR
    · -- zi inside the left subtree
      obtain ⟨h2, hsh2, hyiL, hyizi, hypmem⟩ :=
        ihL hndL hziL hzr hydef (by omega) hukz hukz2
          (fun j hj => hux j (by simp [hj]))
          (fun j hj => hup j (by simp [hj]))
          (fun j hj => huo j (by simp [hj]))
      have hui : u.get i = t.get i := by
        refine huo i (by simp) (fun he => hiL (he ▸ hziL))
          (fun he => hiL (he ▸ hyiL))
          (fun he => hiL (shaped_child_mem_right hL hyiL he))
          (fun he => hiL (hypmem i he))
      have hRfr : ∀ j, j ∈ R → u.get j = t.get j := by
        intro j hj
        refine huo j (by simp [hj]) (fun he => hdisj (he ▸ hziL) (by simp [hj]))
          (fun he => hdisj (he ▸ hyiL) (by simp [hj]))
          (fun he => hdisj (shaped_child_mem_right hL hyiL he) (by simp [hj]))
          (fun he => hdisj (hypmem j he) (by simp [hj]))
      have hR2 : Shaped u ((t.get i).right) (some i) h (some ((t.get i).key)) hi R := by
        refine shaped_fields_frame hlen hR ?_
        intro j hj
        rw [hRfr j hj]
        exact ⟨rfl, rfl, rfl, rfl⟩
      refine ⟨max h2 h + 1, ?_, by simp [hyiL], hyizi,
        fun p hp => by simp [hypmem p hp]⟩
      rw [List.erase_append_left _ hyiL]
      refine Shaped.node i par (max h2 h) lo hi (L.erase yi) R
        (lt_of_lt_of_le hlt hlen) ?_ ?_ ?_ ?_ ?_
      · rw [hui]; exact hpar
      · rw [hui]; exact hlo
      · rw [hui]; exact hhi
      · rw [hui]; exact shaped_height_le hsh2 (le_max_left _ _)
      · rw [hui]; exact shaped_height_le hR2 (le_max_right _ _)
    · -- zi is this node: splice the successor out of the right subtree
      subst heq
      rw [hzr] at hR
      obtain ⟨rest, hRlist, hyleft⟩ :=
        findMinGo_leftmost hR rfl (show h ≤ fuel by omega)
      rw [← hydef] at hRlist hyleft
      have hyiR : yi ∈ R := by rw [hRlist]; simp
      have hyizi : yi ≠ zi := fun he => hiR (he ▸ hyiR)
      have hzy : (t.get zi).key ≤ (t.get yi).key :=
        (shaped_mem_props hR hyiR).2.1
      have hyhi2 : hiOk ((t.get yi).key) hi := (shaped_mem_props hR hyiR).2.2
      have hrzguard : (t.get yi).right ≠ some zi :=
        fun he => hiR (shaped_child_mem_right hR hyiR he)
      have hypmem : ∀ p, (t.get yi).parent = some p → p ∈ L ++ zi :: R := by
        intro p hp
        rcases shaped_parent_field hR hyiR hp with ⟨_, hpe⟩ | ⟨hpm, _⟩
        · injection hpe with hpe2
          simp [← hpe2]
        · simp [hpm]
      obtain ⟨x2, h2, hx2eq, hx2ne, hshR2, htightR⟩ :=
        shaped_splice hlen hR hndR hyiR hyleft
          (fun pj hpj hmem => by
            injection hpj with hpj2
            exact hiR (hpj2 ▸ hmem))
          (fun j hj hrj hpne =>
            hux j (by simp [hj]) (fun he => hiR (he ▸ hj)) hrj hpne)
          (fun j hj hpj hrne =>
            hup j (by simp [hj]) (fun he => hiR (he ▸ hj)) hpj hrne)
          (fun j hj hjy hrne hpne =>
            huo j (by simp [hj]) (fun he => hiR (he ▸ hj)) hjy hrne hpne)
      have hRerase : R.erase yi = rest := by rw [hRlist]; simp
      have htight2 : Shaped u x2 (some zi) h2 (some ((t.get yi).key)) hi rest := by
        rw [← hRerase]
        exact htightR (by rw [hRlist]; rfl)
      have hLfr : ∀ j, j ∈ L → u.get j = t.get j := by
        intro j hj
        refine huo j (by simp [hj]) (fun he => hiL (he ▸ hj))
          (fun he => hdisj hj (by simp [he ▸ hyiR]))
          (fun he => hdisj hj (by simp [shaped_child_mem_right hR hyiR he]))
          ?_
        intro he
        rcases shaped_parent_field hR hyiR he with ⟨_, hpe⟩ | ⟨hpm, _⟩
        · injection hpe with hpe2
          exact hiL (hpe2 ▸ hj)
        · exact hdisj hj (by simp [hpm])
      have hLu : Shaped u ((t.get zi).left) (some zi) h lo
          (some ((t.get zi).key)) L := by
        refine shaped_fields_frame hlen hL ?_
        intro j hj
        rw [hLfr j hj]
        exact ⟨rfl, rfl, rfl, rfl⟩
      have hL2 : Shaped u ((t.get zi).left) (some zi) h lo
          (some ((t.get yi).key)) L :=
        shaped_bounds_mono hLu (fun k hk => hk)
          (fun k hk => le_trans (show k ≤ (t.get zi).key from hk) hzy)
      have hmemerase : (L ++ zi :: R).erase yi = L ++ zi :: rest := by
        rw [List.erase_append_right _ (fun he => hdisj he (by simp [hyiR]))]
        congr 1
        rw [List.erase_cons_tail]
        · rw [hRerase]
        · simp [Ne.symm hyizi]
      by_cases hpzi : (t.get yi).parent = some zi
      · -- the successor is the direct right child of zi
        have hroot : some r0 = some yi := by
          rcases shaped_parent_field hR hyiR hpzi with ⟨hxe, _⟩ | ⟨hpm, _⟩
          · exact hxe
          · exact absurd hpm hiR
        have hnleft : ¬(t.get zi).left = some yi := by
          intro he
          rw [he] at hL
          exact hdisj (shaped_root_mem hL) (by simp [hyiR])
        have hui : u.get zi = { t.get zi with key := (t.get yi).key, right := (t.get yi).right } := by
          rw [hukz2 hrzguard hpzi, if_neg hnleft]
        have hx2v : x2 = (t.get yi).right := hx2eq hroot
        refine ⟨max h h2 + 1, ?_, by simp [hyiR], hyizi,
          fun p hp => hypmem p hp⟩
        rw [hmemerase]
        refine Shaped.node zi par (max h h2) lo hi L rest
          (lt_of_lt_of_le hlt hlen) ?_ ?_ ?_ ?_ ?_
        · rw [hui]; exact hpar
        · rw [hui]; exact lowOk_trans hlo hzy
        · rw [hui]; exact hyhi2
        · rw [hui]; exact shaped_height_le hL2 (le_max_left _ _)
        · rw [hui, ← hx2v]; exact shaped_height_le htight2 (le_max_right _ _)
      · -- the successor is deeper in the right subtree
        have hrne : some r0 ≠ some yi := by
          intro he
          injection he with he2
          rw [he2] at hR
          cases hR
          rename_i hh2x A Y hylt hyparf hylo2 hA hyhi3 hY
          exact hpzi hyparf
        have hui : u.get zi = { t.get zi with key := (t.get yi).key } :=
          hukz hrzguard hpzi
        have hx2v : x2 = some r0 := hx2ne hrne
        refine ⟨max h h2 + 1, ?_, by simp [hyiR], hyizi,
          fun p hp => hypmem p hp⟩
        rw [hmemerase]
        refine Shaped.node zi par (max h h2) lo hi L rest
          (lt_of_lt_of_le hlt hlen) ?_ ?_ ?_ ?_ ?_
        · rw [hui]; exact hpar
        · rw [hui]; exact lowOk_trans hlo hzy
        · rw [hui]; exact hyhi2
        · rw [hui]; exact shaped_height_le hL2 (le_max_left _ _)
        · rw [hui]
          rw [show (t.get zi).right = x2 from hx2v ▸ hzr]
          exact shaped_height_le htight2 (le_max_right _ _)
    · -- zi inside the right subtree
      obtain ⟨h2, hsh2, hyiR, hyizi, hypmem⟩ :=
        ihR hndR hziR hzr hydef (by omega) hukz hukz2
          (fun j hj => hux j (by simp [hj]))
          (fun j hj => hup j (by simp [hj]))
          (fun j hj => huo j (by simp [hj]))
      have hziine : zi ≠ i := fun he => hiR (he ▸ hziR)
      have hui : u.get i = t.get i := by
        refine huo i (by simp) (Ne.symm hziine)
          (fun he => hiR (he ▸ hyiR))
          (fun he => hiR (shaped_child_mem_right hR hyiR he))
          (fun he => hiR (hypmem i he))
      have hLfr : ∀ j, j ∈ L → u.get j = t.get j := by
        intro j hj
        refine huo j (by simp [hj]) (fun he => hdisj hj (by simp [he ▸ hziR]))
          (fun he => hdisj hj (by simp [he ▸ hyiR]))
          (fun he => hdisj hj (by simp [shaped_child_mem_right hR hyiR he]))
          (fun he => hdisj hj (by simp [hypmem j he]))
      have hL2 : Shaped u ((t.get i).left) (some i) h lo (some ((t.get i).key)) L := by
        refine shaped_fields_frame hlen hL ?_
        intro j hj
        rw [hLfr j hj]
        exact ⟨rfl, rfl, rfl, rfl⟩
      have hyinL : ¬yi ∈ L := fun he => hdisj he (by simp [hyiR])
      refine ⟨max h h2 + 1, ?_, by simp [hyiR], hyizi,
        fun p hp => by simp [hypmem p hp]⟩
      have hmemerase : (L ++ i :: R).erase yi = L ++ i :: R.erase yi := by
        rw [List.erase_append_right _ hyinL]
        congr 1
        rw [List.erase_cons_tail]
        have hiy : i ≠ yi := fun he => hiR (he ▸ hyiR)
        simp [hiy]
      rw [hmemerase]
      refine Shaped.node i par (max h h2) lo hi L (R.erase yi)
        (lt_of_lt_of_le hlt hlen) ?_ ?_ ?_ ?_ ?_
      · rw [hui]; exact hpar
      · rw [hui]; exact hlo
      · rw [hui]; exact hhi
      · rw [hui]; exact shaped_height_le hL2 (le_max_left _ _)
      · rw [hui]; exact shaped_height_le hsh2 (le_max_right _ _)


theorem wf_root_mem {t : RedBlackTree} {h : Nat} {mem : List Nat}
    (hs : Shaped t t.root none h none none mem) :
    ∀ xi, t.root = some xi → xi ∈ mem :=
  fun _ hx => shaped_root_mem (hx ▸ hs)


theorem wf_fixDeleteGo (fuel : Nat) :
    ∀ {t : RedBlackTree} {mem : List Nat} {h : Nat} {x : Option Nat},
      Shaped t t.root none h none none mem → mem.Nodup →
      (∀ xi, x = some xi → xi ∈ mem) →
      ∃ h2, Shaped (RedBlackTree.fixDeleteGo fuel t x).1
          (RedBlackTree.fixDeleteGo fuel t x).1.root none h2 none none mem ∧
        (RedBlackTree.fixDeleteGo fuel t x).1.nodes.length = t.nodes.length := by
  induction fuel with
  | zero => intro t mem h x hs hnd hmem; exact ⟨h, hs, rfl⟩
  | succ f ih =>
    intro t mem h x hs hnd hmem
    rw [RedBlackTree.fixDeleteGo.eq_def]
    split
    · exact ⟨h, hs, rfl⟩
    · rename_i t2 xx u1 u2 u3 fuel2 hfeq
      have hf2 : fuel2 = f := by omega
      subst hf2
      split
      · exact ⟨h, hs, rfl⟩
      · rename_i xi
        have hxim : xi ∈ mem := hmem xi rfl
        split
        · exact ⟨h, hs, rfl⟩
        · split
          · exact ⟨h, hs, rfl⟩
          · split
            · exact ⟨h, hs, rfl⟩
            · rename_i p hp
              have hpm : p ∈ mem := wf_parent_mem hs hxim hp
              split
              · -- xi is p's left child
                split
                · exact ⟨h, hs, rfl⟩
                · rename_i w0 hw0
                  simp only []
                  have hT1 : ∃ h1,
                      Shaped (if (t2.get w0).color = Color.RED then
                          RedBlackTree.left_rotate
                            ((t2.setColor w0 Color.BLACK).setColor p Color.RED) (some p)
                        else t2)
                        (if (t2.get w0).color = Color.RED then
                          RedBlackTree.left_rotate
                            ((t2.setColor w0 Color.BLACK).setColor p Color.RED) (some p)
                        else t2).root none h1 none none mem ∧
                      (if (t2.get w0).color = Color.RED then
                          RedBlackTree.left_rotate
                            ((t2.setColor w0 Color.BLACK).setColor p Color.RED) (some p)
                        else t2).nodes.length = t2.nodes.length := by
                    by_cases hw0c : (t2.get w0).color = Color.RED
                    · rw [if_pos hw0c]
                      obtain ⟨h1, hsh1, hlen1⟩ := wf_left_rotate
                        (shaped_setColor (shaped_setColor hs)) hnd hpm
                      exact ⟨h1, hsh1, by rw [hlen1, length_setColor, length_setColor]⟩
                    · rw [if_neg hw0c]
                      exact ⟨h, hs, rfl⟩
                  obtain ⟨h1, hsh1, hlen1⟩ := hT1
                  generalize hT1g : (if (t2.get w0).color = Color.RED then
                      RedBlackTree.left_rotate
                        ((t2.setColor w0 Color.BLACK).setColor p Color.RED) (some p)
                    else t2) = T1 at hsh1 hlen1 ⊢
                  split
                  · exact ⟨h1, hsh1, hlen1⟩
                  · rename_i p1 hp1
                    have hp1m : p1 ∈ mem := wf_parent_mem hsh1 hxim hp1
                    split
                    · exact ⟨h1, hsh1, hlen1⟩
                    · rename_i w hw
                      have hwm : w ∈ mem := shaped_child_mem_right hsh1 hp1m hw
                      split
                      · obtain ⟨h2, hsh2, hlen2⟩ := ih (shaped_setColor hsh1) hnd
                          (fun xi2 hx2 => wf_parent_mem hsh1 hxim
                            ((get_setColor_fields T1 w Color.RED xi).2.2.2 ▸ hx2))
                        exact ⟨h2, hsh2, by rw [hlen2, length_setColor]; exact hlen1⟩
                      · by_cases hwrB : (match (T1.get w).right with
                            | none => true
                            | some l => decide ((T1.get l).color = Color.BLACK)) = true
                        · rw [if_pos hwrB]
                          rcases hml : (T1.get w).left with _ | l
                          · simp only []
                            obtain ⟨h3, hsh3, hlen3⟩ := wf_right_rotate
                              (shaped_setColor hsh1) hnd hwm
                            generalize hT3g : RedBlackTree.right_rotate
                                (T1.setColor w Color.RED) (some w) = T3 at hsh3 hlen3 ⊢
                            have hlen3b : T3.nodes.length = t2.nodes.length := by
                              rw [hlen3, length_setColor]; exact hlen1
                            rcases hxp : (T3.get xi).parent with _ | p2
                            · simp only []
                              obtain ⟨h4, hsh4, hlen4⟩ := ih hsh3 hnd
                                (wf_root_mem hsh3)
                              exact ⟨h4, hsh4, by rw [hlen4]; exact hlen3b⟩
                            · simp only []
                              have hp2m : p2 ∈ mem := wf_parent_mem hsh3 hxim hxp
                              rcases hw2 : (T3.get p2).right with _ | w2
                              · simp only []
                                obtain ⟨h4, hsh4, hlen4⟩ := ih hsh3 hnd
                                  (wf_root_mem hsh3)
                                exact ⟨h4, hsh4, by rw [hlen4]; exact hlen3b⟩
                              · simp only []
                                rcases hmr : (T3.get w2).right with _ | r
                                · simp only []
                                  rw [hxp]
                                  simp only []
                                  obtain ⟨h6, hsh6, hlen6⟩ := wf_left_rotate
                                    (shaped_setColor (shaped_setColor hsh3)) hnd hp2m
                                  obtain ⟨h7, hsh7, hlen7⟩ := ih hsh6 hnd
                                    (wf_root_mem hsh6)
                                  exact ⟨h7, hsh7, by
                                    rw [hlen7, hlen6, length_setColor, length_setColor]; exact hlen3b⟩
                                · simp only []
                                  have hp3eq : ((T3.setColor r Color.BLACK).get xi).parent = some p2 := by
                                    rw [(get_setColor_fields T3 r Color.BLACK xi).2.2.2]; exact hxp
                                  rw [hp3eq]
                                  simp only []
                                  obtain ⟨h6, hsh6, hlen6⟩ := wf_left_rotate
                                    (shaped_setColor (shaped_setColor (shaped_setColor hsh3))) hnd hp2m
                                  obtain ⟨h7, hsh7, hlen7⟩ := ih hsh6 hnd
                                    (wf_root_mem hsh6)
                                  exact ⟨h7, hsh7, by
                                    rw [hlen7, hlen6, length_setColor, length_setColor, length_setColor]
                                    exact hlen3b⟩
                          · simp only []
                            obtain ⟨h3, hsh3, hlen3⟩ := wf_right_rotate
                              (shaped_setColor (shaped_setColor hsh1)) hnd hwm
                            generalize hT3g : RedBlackTree.right_rotate
                                ((T1.setColor l Color.BLACK).setColor w Color.RED)
                                (some w) = T3 at hsh3 hlen3 ⊢
                            have hlen3b : T3.nodes.length = t2.nodes.length := by
                              rw [hlen3, length_setColor, length_setColor]; exact hlen1
                            rcases hxp : (T3.get xi).parent with _ | p2
                            · simp only []
                              obtain ⟨h4, hsh4, hlen4⟩ := ih hsh3 hnd
                                (wf_root_mem hsh3)
                              exact ⟨h4, hsh4, by rw [hlen4]; exact hlen3b⟩
                            · simp only []
                              have hp2m : p2 ∈ mem := wf_parent_mem hsh3 hxim hxp
                              rcases hw2 : (T3.get p2).right with _ | w2
                              · simp only []
                                obtain ⟨h4, hsh4, hlen4⟩ := ih hsh3 hnd
                                  (wf_root_mem hsh3)
                                exact ⟨h4, hsh4, by rw [hlen4]; exact hlen3b⟩
                              · simp only []
                                rcases hmr : (T3.get w2).right with _ | r
                                · simp only []
                                  rw [hxp]
                                  simp only []
                                  obtain ⟨h6, hsh6, hlen6⟩ := wf_left_rotate
                                    (shaped_setColor (shaped_setColor hsh3)) hnd hp2m
                                  obtain ⟨h7, hsh7, hlen7⟩ := ih hsh6 hnd
                                    (wf_root_mem hsh6)
                                  exact ⟨h7, hsh7, by
                                    rw [hlen7, hlen6, length_setColor, length_setColor]; exact hlen3b⟩
                                · simp only []
                                  have hp3eq : ((T3.setColor r Color.BLACK).get xi).parent = some p2 := by
                                    rw [(get_setColor_fields T3 r Color.BLACK xi).2.2.2]; exact hxp
                                  rw [hp3eq]
                                  simp only []
                                  obtain ⟨h6, hsh6, hlen6⟩ := wf_left_rotate
                                    (shaped_setColor (shaped_setColor (shaped_setColor hsh3))) hnd hp2m
                                  obtain ⟨h7, hsh7, hlen7⟩ := ih hsh6 hnd
                                    (wf_root_mem hsh6)
                                  exact ⟨h7, hsh7, by
                                    rw [hlen7, hlen6, length_setColor, length_setColor, length_setColor]
                                    exact hlen3b⟩
                        · rw [if_neg hwrB]
                          simp only []
                          rcases hmr : (T1.get w).right with _ | r
                          · simp only []
                            rcases hp3 : (T1.get xi).parent with _ | p3
                            · simp only []
                              obtain ⟨h4, hsh4, hlen4⟩ := ih hsh1 hnd
                                (wf_root_mem hsh1)
                              exact ⟨h4, hsh4, by rw [hlen4]; exact hlen1⟩
                            · simp only []
                              have hp3m : p3 ∈ mem := wf_parent_mem hsh1 hxim hp3
                              obtain ⟨h6, hsh6, hlen6⟩ := wf_left_rotate
                                (shaped_setColor (shaped_setColor hsh1)) hnd hp3m
                              obtain ⟨h7, hsh7, hlen7⟩ := ih hsh6 hnd
                                (wf_root_mem hsh6)
                              exact ⟨h7, hsh7, by
                                rw [hlen7, hlen6, length_setColor, length_setColor]
                                exact hlen1⟩
                          · simp only []
                            have hp3eq : ((T1.setColor r Color.BLACK).get xi).parent =
                                (T1.get xi).parent := by
                              rw [(get_setColor_fields T1 r Color.BLACK xi).2.2.2]
                            rw [hp3eq]
                            rcases hp3 : (T1.get xi).parent with _ | p3
                            · simp only []
                              obtain ⟨h4, hsh4, hlen4⟩ := ih (shaped_setColor hsh1) hnd
                                (wf_root_mem (shaped_setColor hsh1))
                              exact ⟨h4, hsh4, by
                                rw [hlen4, length_setColor]; exact hlen1⟩
                            · simp only []
                              have hp3m : p3 ∈ mem := wf_parent_mem hsh1 hxim hp3
                              obtain ⟨h6, hsh6, hlen6⟩ := wf_left_rotate
                                (shaped_setColor (shaped_setColor (shaped_setColor hsh1)))
                                hnd hp3m
                              obtain ⟨h7, hsh7, hlen7⟩ := ih hsh6 hnd
                                (wf_root_mem hsh6)
                              exact ⟨h7, hsh7, by
                                rw [hlen7, hlen6, length_setColor, length_setColor,
                                  length_setColor]
                                exact hlen1⟩
              · -- xi is p's right child
                split
                · exact ⟨h, hs, rfl⟩
                · rename_i w0 hw0
                  simp only []
                  have hT1 : ∃ h1,
                      Shaped (if (t2.get w0).color = Color.RED then
                          RedBlackTree.right_rotate
                            ((t2.setColor w0 Color.BLACK).setColor p Color.RED) (some p)
                        else t2)
                        (if (t2.get w0).color = Color.RED then
                          RedBlackTree.right_rotate
                            ((t2.setColor w0 Color.BLACK).setColor p Color.RED) (some p)
                        else t2).root none h1 none none mem ∧
                      (if (t2.get w0).color = Color.RED then
                          RedBlackTree.right_rotate
                            ((t2.setColor w0 Color.BLACK).setColor p Color.RED) (some p)
                        else t2).nodes.length = t2.nodes.length := by
                    by_cases hw0c : (t2.get w0).color = Color.RED
                    · rw [if_pos hw0c]
                      obtain ⟨h1, hsh1, hlen1⟩ := wf_right_rotate
                        (shaped_setColor (shaped_setColor hs)) hnd hpm
                      exact ⟨h1, hsh1, by rw [hlen1, length_setColor, length_setColor]⟩
                    · rw [if_neg hw0c]
                      exact ⟨h, hs, rfl⟩
                  obtain ⟨h1, hsh1, hlen1⟩ := hT1
                  generalize hT1g : (if (t2.get w0).color = Color.RED then
                      RedBlackTree.right_rotate
                        ((t2.setColor w0 Color.BLACK).setColor p Color.RED) (some p)
                    else t2) = T1 at hsh1 hlen1 ⊢
                  split
                  · exact ⟨h1, hsh1, hlen1⟩
                  · rename_i p1 hp1
                    have hp1m : p1 ∈ mem := wf_parent_mem hsh1 hxim hp1
                    split
                    · exact ⟨h1, hsh1, hlen1⟩
                    · rename_i w hw
                      have hwm : w ∈ mem := shaped_child_mem_left hsh1 hp1m hw
                      split
                      · obtain ⟨h2, hsh2, hlen2⟩ := ih (shaped_setColor hsh1) hnd
                          (fun xi2 hx2 => wf_parent_mem hsh1 hxim
                            ((get_setColor_fields T1 w Color.RED xi).2.2.2 ▸ hx2))
                        exact ⟨h2, hsh2, by rw [hlen2, length_setColor]; exact hlen1⟩
                      · by_cases hwrB : (match (T1.get w).left with
                            | none => true
                            | some l => decide ((T1.get l).color = Color.BLACK)) = true
                        · rw [if_pos hwrB]
                          rcases hml : (T1.get w).right with _ | l
                          · simp only []
                            obtain ⟨h3, hsh3, hlen3⟩ := wf_left_rotate
                              (shaped_setColor hsh1) hnd hwm
                            generalize hT3g : RedBlackTree.left_rotate
                                (T1.setColor w Color.RED) (some w) = T3 at hsh3 hlen3 ⊢
                            have hlen3b : T3.nodes.length = t2.nodes.length := by
                              rw [hlen3, length_setColor]; exact hlen1
                            rcases hxp : (T3.get xi).parent with _ | p2
                            · simp only []
                              obtain ⟨h4, hsh4, hlen4⟩ := ih hsh3 hnd
                                (wf_root_mem hsh3)
                              exact ⟨h4, hsh4, by rw [hlen4]; exact hlen3b⟩
                            · simp only []
                              have hp2m : p2 ∈ mem := wf_parent_mem hsh3 hxim hxp
                              rcases hw2 : (T3.get p2).left with _ | w2
                              · simp only []
                                obtain ⟨h4, hsh4, hlen4⟩ := ih hsh3 hnd
                                  (wf_root_mem hsh3)
                                exact ⟨h4, hsh4, by rw [hlen4]; exact hlen3b⟩
                              · simp only []
                                rcases hmr : (T3.get w2).left with _ | r
                                · simp only []
                                  rw [hxp]
                                  simp only []
                                  obtain ⟨h6, hsh6, hlen6⟩ := wf_right_rotate
                                    (shaped_setColor (shaped_setColor hsh3)) hnd hp2m
                                  obtain ⟨h7, hsh7, hlen7⟩ := ih hsh6 hnd
                                    (wf_root_mem hsh6)
                                  exact ⟨h7, hsh7, by
                                    rw [hlen7, hlen6, length_setColor, length_setColor]; exact hlen3b⟩
                                · simp only []
                                  have hp3eq : ((T3.setColor r Color.BLACK).get xi).parent = some p2 := by
                                    rw [(get_setColor_fields T3 r Color.BLACK xi).2.2.2]; exact hxp
                                  rw [hp3eq]
                                  simp only []
                                  obtain ⟨h6, hsh6, hlen6⟩ := wf_right_rotate
                                    (shaped_setColor (shaped_setColor (shaped_setColor hsh3))) hnd hp2m
                                  obtain ⟨h7, hsh7, hlen7⟩ := ih hsh6 hnd
                                    (wf_root_mem hsh6)
                                  exact ⟨h7, hsh7, by
                                    rw [hlen7, hlen6, length_setColor, length_setColor, length_setColor]
                                    exact hlen3b⟩
                          · simp only []
                            obtain ⟨h3, hsh3, hlen3⟩ := wf_left_rotate
                              (shaped_setColor (shaped_setColor hsh1)) hnd hwm
                            generalize hT3g : RedBlackTree.left_rotate
                                ((T1.setColor l Color.BLACK).setColor w Color.RED)
                                (some w) = T3 at hsh3 hlen3 ⊢
                            have hlen3b : T3.nodes.length = t2.nodes.length := by
                              rw [hlen3, length_setColor, length_setColor]; exact hlen1
                            rcases hxp : (T3.get xi).parent with _ | p2
                            · simp only []
                              obtain ⟨h4, hsh4, hlen4⟩ := ih hsh3 hnd
                                (wf_root_mem hsh3)
                              exact ⟨h4, hsh4, by rw [hlen4]; exact hlen3b⟩
                            · simp only []
                              have hp2m : p2 ∈ mem := wf_parent_mem hsh3 hxim hxp
                              rcases hw2 : (T3.get p2).left with _ | w2
                              · simp only []
                                obtain ⟨h4, hsh4, hlen4⟩ := ih hsh3 hnd
                                  (wf_root_mem hsh3)
                                exact ⟨h4, hsh4, by rw [hlen4]; exact hlen3b⟩
                              · simp only []
                                rcases hmr : (T3.get w2).left with _ | r
                                · simp only []
                                  rw [hxp]
                                  simp only []
                                  obtain ⟨h6, hsh6, hlen6⟩ := wf_right_rotate
                                    (shaped_setColor (shaped_setColor hsh3)) hnd hp2m
                                  obtain ⟨h7, hsh7, hlen7⟩ := ih hsh6 hnd
                                    (wf_root_mem hsh6)
                                  exact ⟨h7, hsh7, by
                                    rw [hlen7, hlen6, length_setColor, length_setColor]; exact hlen3b⟩
                                · simp only []
                                  have hp3eq : ((T3.setColor r Color.BLACK).get xi).parent = some p2 := by
                                    rw [(get_setColor_fields T3 r Color.BLACK xi).2.2.2]; exact hxp
                                  rw [hp3eq]
                                  simp only []
                                  obtain ⟨h6, hsh6, hlen6⟩ := wf_right_rotate
                                    (shaped_setColor (shaped_setColor (shaped_setColor hsh3))) hnd hp2m
                                  obtain ⟨h7, hsh7, hlen7⟩ := ih hsh6 hnd
                                    (wf_root_mem hsh6)
                                  exact ⟨h7, hsh7, by
                                    rw [hlen7, hlen6, length_setColor, length_setColor, length_setColor]
                                    exact hlen3b⟩
                        · rw [if_neg hwrB]
                          simp only []
                          rcases hmr : (T1.get w).left with _ | r
                          · simp only []
                            rcases hp3 : (T1.get xi).parent with _ | p3
                            · simp only []
                              obtain ⟨h4, hsh4, hlen4⟩ := ih hsh1 hnd
                                (wf_root_mem hsh1)
                              exact ⟨h4, hsh4, by rw [hlen4]; exact hlen1⟩
                            · simp only []
                              have hp3m : p3 ∈ mem := wf_parent_mem hsh1 hxim hp3
                              obtain ⟨h6, hsh6, hlen6⟩ := wf_right_rotate
                                (shaped_setColor (shaped_setColor hsh1)) hnd hp3m
                              obtain ⟨h7, hsh7, hlen7⟩ := ih hsh6 hnd
                                (wf_root_mem hsh6)
                              exact ⟨h7, hsh7, by
                                rw [hlen7, hlen6, length_setColor, length_setColor]
                                exact hlen1⟩
                          · simp only []
                            have hp3eq : ((T1.setColor r Color.BLACK).get xi).parent =
                                (T1.get xi).parent := by
                              rw [(get_setColor_fields T1 r Color.BLACK xi).2.2.2]
                            rw [hp3eq]
                            rcases hp3 : (T1.get xi).parent with _ | p3
                            · simp only []
                              obtain ⟨h4, hsh4, hlen4⟩ := ih (shaped_setColor hsh1) hnd
                                (wf_root_mem (shaped_setColor hsh1))
                              exact ⟨h4, hsh4, by
                                rw [hlen4, length_setColor]; exact hlen1⟩
                            · simp only []
                              have hp3m : p3 ∈ mem := wf_parent_mem hsh1 hxim hp3
                              obtain ⟨h6, hsh6, hlen6⟩ := wf_right_rotate
                                (shaped_setColor (shaped_setColor (shaped_setColor hsh1)))
                                hnd hp3m
                              obtain ⟨h7, hsh7, hlen7⟩ := ih hsh6 hnd
                                (wf_root_mem hsh6)
                              exact ⟨h7, hsh7, by
                                rw [hlen7, hlen6, length_setColor, length_setColor,
                                  length_setColor]
                                exact hlen1⟩

end RB
namespace RB

theorem wf_fixDeleteNullGo (fuel : Nat) :
    ∀ {t : RedBlackTree} {mem : List Nat} {h : Nat} {par : Option Nat},
      Shaped t t.root none h none none mem → mem.Nodup →
      (∀ pi, par = some pi → pi ∈ mem) →
      ∃ h2, Shaped (RedBlackTree.fixDeleteNullGo fuel t par)
          (RedBlackTree.fixDeleteNullGo fuel t par).root none h2 none none mem ∧
        (RedBlackTree.fixDeleteNullGo fuel t par).nodes.length = t.nodes.length := by
  induction fuel with
  | zero => intro t mem h par hs hnd hmem; exact ⟨h, hs, rfl⟩
  | succ f ih =>
    intro t mem h par hs hnd hmem
    rw [RedBlackTree.fixDeleteNullGo.eq_def]
    split
    · exact ⟨h, hs, rfl⟩
    · rename_i t2 xx u1 u2 u3 fuel2 hfeq
      have hf2 : fuel2 = f := by omega
      subst hf2
      split
      · exact ⟨h, hs, rfl⟩
      · rename_i pi
        have hpim : pi ∈ mem := hmem pi rfl
        split
        · exact ⟨h, hs, rfl⟩
        · split
          · exact ⟨h, hs, rfl⟩
          · rename_i g hg
            have hgm : g ∈ mem := wf_parent_mem hs hpim hg
            by_cases hside : (t2.get g).left = some pi
            · rw [if_pos hside]
              split
              · exact ⟨h, hs, rfl⟩
              · rename_i w0 hw0
                simp only []
                have hT1 : ∃ h1,
                    Shaped (if (t2.get w0).color = Color.RED then
                        RedBlackTree.left_rotate
                          ((t2.setColor w0 Color.BLACK).setColor g Color.RED) (some g)
                      else t2)
                      (if (t2.get w0).color = Color.RED then
                        RedBlackTree.left_rotate
                          ((t2.setColor w0 Color.BLACK).setColor g Color.RED) (some g)
                      else t2).root none h1 none none mem ∧
                    (if (t2.get w0).color = Color.RED then
                        RedBlackTree.left_rotate
                          ((t2.setColor w0 Color.BLACK).setColor g Color.RED) (some g)
                      else t2).nodes.length = t2.nodes.length := by
                  by_cases hw0c : (t2.get w0).color = Color.RED
                  · rw [if_pos hw0c]
                    obtain ⟨h1, hsh1, hlen1⟩ := wf_left_rotate
                      (shaped_setColor (shaped_setColor hs)) hnd hgm
                    exact ⟨h1, hsh1, by rw [hlen1, length_setColor, length_setColor]⟩
                  · rw [if_neg hw0c]
                    exact ⟨h, hs, rfl⟩
                obtain ⟨h1, hsh1, hlen1⟩ := hT1
                generalize hT1g : (if (t2.get w0).color = Color.RED then
                    RedBlackTree.left_rotate
                      ((t2.setColor w0 Color.BLACK).setColor g Color.RED) (some g)
                  else t2) = T1 at hsh1 hlen1 ⊢
                split
                · exact ⟨h1, hsh1, hlen1⟩
                · rename_i g1 hg1
                  have hg1m : g1 ∈ mem := wf_parent_mem hsh1 hpim hg1
                  split
                  · exact ⟨h1, hsh1, hlen1⟩
                  · rename_i w hw
                    have hwm : w ∈ mem := shaped_child_mem_right hsh1 hg1m hw
                    split
                    · obtain ⟨h2, hsh2, hlen2⟩ := ih (shaped_setColor hsh1) hnd
                        (fun pi2 hx2 => wf_parent_mem hsh1 hpim
                          ((get_setColor_fields T1 w Color.RED pi).2.2.2 ▸ hx2))
                      exact ⟨h2, hsh2, by rw [hlen2, length_setColor]; exact hlen1⟩
                    · by_cases hwrB : (match (T1.get w).right with
                          | none => true
                          | some l => decide ((T1.get l).color = Color.BLACK)) = true
                      · rw [if_pos hwrB]
                        rcases hml : (T1.get w).left with _ | l
                        · simp only []
                          obtain ⟨h3, hsh3, hlen3⟩ := wf_right_rotate
                            (shaped_setColor hsh1) hnd hwm
                          generalize hT3g : RedBlackTree.right_rotate
                              (T1.setColor w Color.RED) (some w) = T3 at hsh3 hlen3 ⊢
                          have hlen3b : T3.nodes.length = t2.nodes.length := by
                            rw [hlen3, length_setColor]; exact hlen1
                          rcases hgp : (T3.get pi).parent with _ | g2
                          · simp only []
                            rw [hgp]
                            simp only []
                            exact ⟨h3, hsh3, hlen3b⟩
                          · simp only []
                            have hg2m : g2 ∈ mem := wf_parent_mem hsh3 hpim hgp
                            rcases hw2 : (T3.get g2).right with _ | w2
                            · simp only []
                              exact ⟨h3, hsh3, hlen3b⟩
                            · simp only []
                              rw [hgp]
                              simp only []
                              rcases hmr : (T3.get w2).right with _ | r
                              · simp only []
                                obtain ⟨h6, hsh6, hlen6⟩ := wf_left_rotate
                                  (shaped_setColor (shaped_setColor hsh3)) hnd hg2m
                                exact ⟨h6, hsh6, by
                                  rw [hlen6, length_setColor, length_setColor]; exact hlen3b⟩
                              · simp only []
                                obtain ⟨h6, hsh6, hlen6⟩ := wf_left_rotate
                                  (shaped_setColor (shaped_setColor (shaped_setColor hsh3))) hnd hg2m
                                exact ⟨h6, hsh6, by
                                  rw [hlen6, length_setColor, length_setColor, length_setColor]
                                  exact hlen3b⟩
                        · simp only []
                          obtain ⟨h3, hsh3, hlen3⟩ := wf_right_rotate
                            (shaped_setColor (shaped_setColor hsh1)) hnd hwm
                          generalize hT3g : RedBlackTree.right_rotate
                              ((T1.setColor l Color.BLACK).setColor w Color.RED)
                              (some w) = T3 at hsh3 hlen3 ⊢
                          have hlen3b : T3.nodes.length = t2.nodes.length := by
                            rw [hlen3, length_setColor, length_setColor]; exact hlen1
                          rcases hgp : (T3.get pi).parent with _ | g2
                          · simp only []
                            rw [hgp]
                            simp only []
                            exact ⟨h3, hsh3, hlen3b⟩
                          · simp only []
                            have hg2m : g2 ∈ mem := wf_parent_mem hsh3 hpim hgp
                            rcases hw2 : (T3.get g2).right with _ | w2
                            · simp only []
                              exact ⟨h3, hsh3, hlen3b⟩
                            · simp only []
                              rw [hgp]
                              simp only []
                              rcases hmr : (T3.get w2).right with _ | r
                              · simp only []
                                obtain ⟨h6, hsh6, hlen6⟩ := wf_left_rotate
                                  (shaped_setColor (shaped_setColor hsh3)) hnd hg2m
                                exact ⟨h6, hsh6, by
                                  rw [hlen6, length_setColor, length_setColor]; exact hlen3b⟩
                              · simp only []
                                obtain ⟨h6, hsh6, hlen6⟩ := wf_left_rotate
                                  (shaped_setColor (shaped_setColor (shaped_setColor hsh3))) hnd hg2m
                                exact ⟨h6, hsh6, by
                                  rw [hlen6, length_setColor, length_setColor, length_setColor]
                                  exact hlen3b⟩
                      · rw [if_neg hwrB]
                        simp only []
                        rcases hgp3 : (T1.get pi).parent with _ | g3
                        · simp only []
                          exact ⟨h1, hsh1, hlen1⟩
                        · simp only []
                          have hg3m : g3 ∈ mem := wf_parent_mem hsh1 hpim hgp3
                          rcases hmr : (T1.get w).right with _ | r
                          · simp only []
                            obtain ⟨h6, hsh6, hlen6⟩ := wf_left_rotate
                              (shaped_setColor (shaped_setColor hsh1)) hnd hg3m
                            exact ⟨h6, hsh6, by
                              rw [hlen6, length_setColor, length_setColor]; exact hlen1⟩
                          · simp only []
                            obtain ⟨h6, hsh6, hlen6⟩ := wf_left_rotate
                              (shaped_setColor (shaped_setColor (shaped_setColor hsh1)))
                              hnd hg3m
                            exact ⟨h6, hsh6, by
                              rw [hlen6, length_setColor, length_setColor,
                                length_setColor]
                              exact hlen1⟩
            · rw [if_neg hside]
              split
              · exact ⟨h, hs, rfl⟩
              · rename_i w0 hw0
                simp only []
                have hT1 : ∃ h1,
                    Shaped (if (t2.get w0).color = Color.RED then
                        RedBlackTree.right_rotate
                          ((t2.setColor w0 Color.BLACK).setColor g Color.RED) (some g)
                      else t2)
                      (if (t2.get w0).color = Color.RED then
                        RedBlackTree.right_rotate
                          ((t2.setColor w0 Color.BLACK).setColor g Color.RED) (some g)
                      else t2).root none h1 none none mem ∧
                    (if (t2.get w0).color = Color.RED then
                        RedBlackTree.right_rotate
                          ((t2.setColor w0 Color.BLACK).setColor g Color.RED) (some g)
                      else t2).nodes.length = t2.nodes.length := by
                  by_cases hw0c : (t2.get w0).color = Color.RED
                  · rw [if_pos hw0c]
                    obtain ⟨h1, hsh1, hlen1⟩ := wf_right_rotate
                      (shaped_setColor (shaped_setColor hs)) hnd hgm
                    exact ⟨h1, hsh1, by rw [hlen1, length_setColor, length_setColor]⟩
                  · rw [if_neg hw0c]
                    exact ⟨h, hs, rfl⟩
                obtain ⟨h1, hsh1, hlen1⟩ := hT1
                generalize hT1g : (if (t2.get w0).color = Color.RED then
                    RedBlackTree.right_rotate
                      ((t2.setColor w0 Color.BLACK).setColor g Color.RED) (some g)
                  else t2) = T1 at hsh1 hlen1 ⊢
                split
                · exact ⟨h1, hsh1, hlen1⟩
                · rename_i g1 hg1
                  have hg1m : g1 ∈ mem := wf_parent_mem hsh1 hpim hg1
                  split
                  · exact ⟨h1, hsh1, hlen1⟩
                  · rename_i w hw
                    have hwm : w ∈ mem := shaped_child_mem_left hsh1 hg1m hw
                    split
                    · obtain ⟨h2, hsh2, hlen2⟩ := ih (shaped_setColor hsh1) hnd
                        (fun pi2 hx2 => wf_parent_mem hsh1 hpim
                          ((get_setColor_fields T1 w Color.RED pi).2.2.2 ▸ hx2))
                      exact ⟨h2, hsh2, by rw [hlen2, length_setColor]; exact hlen1⟩
                    · by_cases hwrB : (match (T1.get w).left with
                          | none => true
                          | some l => decide ((T1.get l).color = Color.BLACK)) = true
                      · rw [if_pos hwrB]
                        rcases hml : (T1.get w).right with _ | l
                        · simp only []
                          obtain ⟨h3, hsh3, hlen3⟩ := wf_left_rotate
                            (shaped_setColor hsh1) hnd hwm
                          generalize hT3g : RedBlackTree.left_rotate
                              (T1.setColor w Color.RED) (some w) = T3 at hsh3 hlen3 ⊢
                          have hlen3b : T3.nodes.length = t2.nodes.length := by
                            rw [hlen3, length_setColor]; exact hlen1
                          rcases hgp : (T3.get pi).parent with _ | g2
                          · simp only []
                            rw [hgp]
                            simp only []
                            exact ⟨h3, hsh3, hlen3b⟩
                          · simp only []
                            have hg2m : g2 ∈ mem := wf_parent_mem hsh3 hpim hgp
                            rcases hw2 : (T3.get g2).left with _ | w2
                            · simp only []
                              exact ⟨h3, hsh3, hlen3b⟩
                            · simp only []
                              rw [hgp]
                              simp only []
                              rcases hmr : (T3.get w2).left with _ | r
                              · simp only []
                                obtain ⟨h6, hsh6, hlen6⟩ := wf_right_rotate
                                  (shaped_setColor (shaped_setColor hsh3)) hnd hg2m
                                exact ⟨h6, hsh6, by
                                  rw [hlen6, length_setColor, length_setColor]; exact hlen3b⟩
                              · simp only []
                                obtain ⟨h6, hsh6, hlen6⟩ := wf_right_rotate
                                  (shaped_setColor (shaped_setColor (shaped_setColor hsh3))) hnd hg2m
                                exact ⟨h6, hsh6, by
                                  rw [hlen6, length_setColor, length_setColor, length_setColor]
                                  exact hlen3b⟩
                        · simp only []
                          obtain ⟨h3, hsh3, hlen3⟩ := wf_left_rotate
                            (shaped_setColor (shaped_setColor hsh1)) hnd hwm
                          generalize hT3g : RedBlackTree.left_rotate
                              ((T1.setColor l Color.BLACK).setColor w Color.RED)
                              (some w) = T3 at hsh3 hlen3 ⊢
                          have hlen3b : T3.nodes.length = t2.nodes.length := by
                            rw [hlen3, length_setColor, length_setColor]; exact hlen1
                          rcases hgp : (T3.get pi).parent with _ | g2
                          · simp only []
                            rw [hgp]
                            simp only []
                            exact ⟨h3, hsh3, hlen3b⟩
                          · simp only []
                            have hg2m : g2 ∈ mem := wf_parent_mem hsh3 hpim hgp
                            rcases hw2 : (T3.get g2).left with _ | w2
                            · simp only []
                              exact ⟨h3, hsh3, hlen3b⟩
                            · simp only []
                              rw [hgp]
                              simp only []
                              rcases hmr : (T3.get w2).left with _ | r
                              · simp only []
                                obtain ⟨h6, hsh6, hlen6⟩ := wf_right_rotate
                                  (shaped_setColor (shaped_setColor hsh3)) hnd hg2m
                                exact ⟨h6, hsh6, by
                                  rw [hlen6, length_setColor, length_setColor]; exact hlen3b⟩
                              · simp only []
                                obtain ⟨h6, hsh6, hlen6⟩ := wf_right_rotate
                                  (shaped_setColor (shaped_setColor (shaped_setColor hsh3))) hnd hg2m
                                exact ⟨h6, hsh6, by
                                  rw [hlen6, length_setColor, length_setColor, length_setColor]
                                  exact hlen3b⟩
                      · rw [if_neg hwrB]
                        simp only []
                        rcases hgp3 : (T1.get pi).parent with _ | g3
                        · simp only []
                          exact ⟨h1, hsh1, hlen1⟩
                        · simp only []
                          have hg3m : g3 ∈ mem := wf_parent_mem hsh1 hpim hgp3
                          rcases hmr : (T1.get w).left with _ | r
                          · simp only []
                            obtain ⟨h6, hsh6, hlen6⟩ := wf_right_rotate
                              (shaped_setColor (shaped_setColor hsh1)) hnd hg3m
                            exact ⟨h6, hsh6, by
                              rw [hlen6, length_setColor, length_setColor]; exact hlen1⟩
                          · simp only []
                            obtain ⟨h6, hsh6, hlen6⟩ := wf_right_rotate
                              (shaped_setColor (shaped_setColor (shaped_setColor hsh1)))
                              hnd hg3m
                            exact ⟨h6, hsh6, by
                              rw [hlen6, length_setColor, length_setColor,
                                length_setColor]
                              exact hlen1⟩

theorem wf_fix_delete {t : RedBlackTree} {mem : List Nat} {h x : Nat}
    (hs : Shaped t t.root none h none none mem) (hnd : mem.Nodup) (hx : x ∈ mem) :
    ∃ h2, Shaped (RedBlackTree.fix_delete t x)
        (RedBlackTree.fix_delete t x).root none h2 none none mem ∧
      (RedBlackTree.fix_delete t x).nodes.length = t.nodes.length := by
  obtain ⟨h2, hsh, hlen⟩ := @wf_fixDeleteGo (t.nodes.length + 1) t mem h (some x) hs hnd
    (fun xi hxi => by injection hxi with h3; exact h3 ▸ hx)
  simp only [RedBlackTree.fix_delete]
  split
  · rename_i xi hxi
    refine ⟨h2, ?_, by rw [length_setColor]; exact hlen⟩
    rw [root_setColor]
    exact shaped_setColor hsh
  · exact ⟨h2, hsh, hlen⟩

theorem wf_fix_delete_null {t : RedBlackTree} {mem : List Nat} {h xp : Nat}
    (hs : Shaped t t.root none h none none mem) (hnd : mem.Nodup) (hx : xp ∈ mem) :
    ∃ h2, Shaped (RedBlackTree.fix_delete_null t xp)
        (RedBlackTree.fix_delete_null t xp).root none h2 none none mem ∧
      (RedBlackTree.fix_delete_null t xp).nodes.length = t.nodes.length := by
  exact @wf_fixDeleteNullGo (t.nodes.length + 1) t mem h (some xp) hs hnd
    (fun pi hpi => by injection hpi with h3; exact h3 ▸ hx)

end RB
namespace RB

theorem root_setKey (t : RedBlackTree) (i : Nat) (k : Int) :
    (t.setKey i k).root = t.root := rfl

theorem root_setLeft (t : RedBlackTree) (i : Nat) (v : Option Nat) :
    (t.setLeft i v).root = t.root := rfl

theorem root_setRight (t : RedBlackTree) (i : Nat) (v : Option Nat) :
    (t.setRight i v).root = t.root := rfl

theorem root_setParent (t : RedBlackTree) (i : Nat) (p : Option Nat) :
    (t.setParent i p).root = t.root := rfl

theorem root_setRoot (t : RedBlackTree) (r : Option Nat) :
    (t.setRoot r).root = r := rfl

theorem get_setKey_self (t : RedBlackTree) (i : Nat) (k : Int)
    (hlt : i < t.nodes.length) :
    (t.setKey i k).get i = { t.get i with key := k } :=
  get_setNode_self t i _ hlt

theorem get_setKey_ne (t : RedBlackTree) {i j : Nat} (k : Int) (hne : i ≠ j) :
    (t.setKey i k).get j = t.get j :=
  get_setNode_ne t _ hne

theorem length_setKey (t : RedBlackTree) (i : Nat) (k : Int) :
    (t.setKey i k).nodes.length = t.nodes.length :=
  length_setNode t i _

/-- A member whose parent field is `none` is the root of the derivation,
and the derivation's parent is `none`. -/
theorem shaped_parent_none {t : RedBlackTree} :
    ∀ {x par : Option Nat} {h : Nat} {lo hi : Option Int} {mem : List Nat},
      Shaped t x par h lo hi mem → ∀ {j : Nat}, j ∈ mem → (t.get j).parent = none →
      x = some j ∧ par = none := by
  intro x par h lo hi mem hs
  induction hs with
  | nil par h lo hi => intro j hj; cases hj
  | node i par h lo hi L R hlt hpar hlo hhi hL hR ihL ihR =>
    intro j hj hjp
    rcases (by simpa using hj : j ∈ L ∨ j = i ∨ j ∈ R) with hjL | rfl | hjR
    · rcases ihL hjL hjp with ⟨_, hcon⟩; cases hcon
    · exact ⟨rfl, hpar.symm.trans hjp⟩
    · rcases ihR hjR hjp with ⟨_, hcon⟩; cases hcon

/-- The root node of a non-empty derivation carries the derivation's
parent in its parent field. -/
theorem shaped_x_parent {t : RedBlackTree} {r : Nat} {par : Option Nat} {h : Nat}
    {lo hi : Option Int} {mem : List Nat} (hs : Shaped t (some r) par h lo hi mem) :
    (t.get r).parent = par := by
  cases hs; assumption

/-- Every member roots a sub-derivation whose member list is a sublist
of the whole member list. -/
theorem shaped_at_mem_sublist {t : RedBlackTree} :
    ∀ {x par : Option Nat} {h : Nat} {lo hi : Option Int} {mem : List Nat},
      Shaped t x par h lo hi mem → ∀ {j : Nat}, j ∈ mem →
      ∃ par2 h2 lo2 hi2 sub, Shaped t (some j) par2 h2 lo2 hi2 sub ∧
        sub.Sublist mem := by
  intro x par h lo hi mem hs
  induction hs with
  | nil par h lo hi => intro j hj; cases hj
  | node i par h lo hi L R hlt hpar hlo hhi hL hR ihL ihR =>
    intro j hj
    rcases (by simpa using hj : j ∈ L ∨ j = i ∨ j ∈ R) with hjL | rfl | hjR
    · obtain ⟨par2, h2, lo2, hi2, sub, hsh, hsub⟩ := ihL hjL
      exact ⟨par2, h2, lo2, hi2, sub, hsh,
        hsub.trans (List.sublist_append_left L (i :: R))⟩
    · exact ⟨par, h + 1, lo, hi, L ++ j :: R,
        Shaped.node j par h lo hi L R hlt hpar hlo hhi hL hR, List.Sublist.refl _⟩
    · obtain ⟨par2, h2, lo2, hi2, sub, hsh, hsub⟩ := ihR hjR
      exact ⟨par2, h2, lo2, hi2, sub, hsh,
        (hsub.trans (List.sublist_cons_self i R)).trans
          (List.sublist_append_right L (i :: R))⟩

end RB
namespace RB

set_option maxHeartbeats 1000000

theorem wf_delete {t : RedBlackTree} {mem : List Nat} {h : Nat} (key : Int)
    (hs0 : Shaped t t.root none h none none mem) (hnd : mem.Nodup) :
    ∃ h2 mem2, Shaped (t.delete key) (t.delete key).root none h2 none none mem2 ∧
      mem2.Nodup := by
  have hs := shaped_min_height hs0
  rcases hz : t.search key with _ | z
  · simp only [RedBlackTree.delete]
    rw [hz]
    exact ⟨mem.length, mem, hs, hnd⟩
  · have hzm : z ∈ mem := searchGo_mem hs _ hz
    have hzlt : z < t.nodes.length := (shaped_mem_props hs hzm).1
    have hnd2 : (mem.erase z).Nodup := hnd.erase z
    simp only [RedBlackTree.delete]
    rw [hz]
    simp only []
    by_cases hcond : (t.get z).left = none ∨ (t.get z).right = none
    · rw [if_pos hcond]
      rw [if_neg (show ¬z ≠ z from fun hq => hq rfl)]
      rcases hzl : (t.get z).left with _ | l
      · simp only []
        rcases hzr : (t.get z).right with _ | r
        · -- z is a leaf
          simp only []
          rcases hzp : (t.get z).parent with _ | p
          · simp only []
            have hroot : t.root = some z := (shaped_parent_none hs hzm hzp).1
            obtain ⟨x2, h2, hc1, hc2, hsp, _⟩ := shaped_splice (u := t.setRoot none)
              (show t.nodes.length ≤ (t.setRoot none).nodes.length from le_of_eq rfl) hs hnd hzm hzl (fun pj hpj => by cases hpj)
              (fun j hj hrj hpj => by rw [hzr] at hrj; cases hrj)
              (fun j hj hpj hrj => by rw [hzp] at hpj; cases hpj)
              (fun j hj hjz hrj hpj => rfl)
            have hx2 : x2 = none := by rw [hc1 hroot, hzr]
            rw [ite_self]
            refine ⟨h2, mem.erase z, ?_, hnd2⟩
            rw [hx2] at hsp
            exact hsp
          · simp only []
            obtain ⟨hpm, hslot⟩ :
                p ∈ mem ∧ ((t.get p).left = some z ∨ (t.get p).right = some z) := by
              rcases shaped_parent_field hs hzm hzp with ⟨_, hcon⟩ | hgood
              · cases hcon
              · exact hgood
            have hzp_ne : z ≠ p := shaped_child_ne hs hnd hpm hslot
            have hplt : p < t.nodes.length := (shaped_mem_props hs hpm).1
            have htrne : t.root ≠ some z := by
              intro he
              have hq := shaped_x_parent (he ▸ hs)
              rw [hzp] at hq
              cases hq
            have hpmem2 : p ∈ mem.erase z := (List.mem_erase_of_ne (Ne.symm hzp_ne)).2 hpm
            by_cases hpl : (t.get p).left = some z
            · rw [if_pos hpl]
              obtain ⟨x2, h2, hc1, hc2, hsp, _⟩ := shaped_splice (u := t.setLeft p none)
                (show t.nodes.length ≤ (t.setLeft p none).nodes.length from
                  le_of_eq (length_setLeft t p none).symm) hs hnd hzm hzl
                (fun pj hpj => by cases hpj)
                (fun j hj hrj hpj => by rw [hzr] at hrj; cases hrj)
                (fun j hj hpj hrj => by
                  rw [hzp] at hpj; injection hpj with hje; subst hje
                  rw [get_setLeft_self t _ _ hplt, if_pos hpl, hzr])
                (fun j hj hjz hrj hpj => by
                  rw [hzp] at hpj
                  exact get_setLeft_ne t _ (fun he => hpj (by rw [he])))
              have hx2 : x2 = t.root := hc2 htrne
              have hsp2 : Shaped (t.setLeft p none) (t.setLeft p none).root none h2
                  none none (mem.erase z) := by
                rw [hx2] at hsp
                exact hsp
              by_cases hcol : ((t.setLeft p none).get z).color = Color.BLACK
              · rw [if_pos hcol]
                obtain ⟨h3, hsh3, _⟩ := wf_fix_delete_null hsp2 hnd2 hpmem2
                exact ⟨h3, mem.erase z, hsh3, hnd2⟩
              · rw [if_neg hcol]
                exact ⟨h2, mem.erase z, hsp2, hnd2⟩
            · rw [if_neg hpl]
              obtain ⟨x2, h2, hc1, hc2, hsp, _⟩ := shaped_splice (u := t.setRight p none)
                (show t.nodes.length ≤ (t.setRight p none).nodes.length from
                  le_of_eq (length_setRight t p none).symm) hs hnd hzm hzl
                (fun pj hpj => by cases hpj)
                (fun j hj hrj hpj => by rw [hzr] at hrj; cases hrj)
                (fun j hj hpj hrj => by
                  rw [hzp] at hpj; injection hpj with hje; subst hje
                  rw [get_setRight_self t _ _ hplt, if_neg hpl, hzr])
                (fun j hj hjz hrj hpj => by
                  rw [hzp] at hpj
                  exact get_setRight_ne t _ (fun he => hpj (by rw [he])))
              have hx2 : x2 = t.root := hc2 htrne
              have hsp2 : Shaped (t.setRight p none) (t.setRight p none).root none h2
                  none none (mem.erase z) := by
                rw [hx2] at hsp
                exact hsp
              by_cases hcol : ((t.setRight p none).get z).color = Color.BLACK
              · rw [if_pos hcol]
                obtain ⟨h3, hsh3, _⟩ := wf_fix_delete_null hsp2 hnd2 hpmem2
                exact ⟨h3, mem.erase z, hsh3, hnd2⟩
              · rw [if_neg hcol]
                exact ⟨h2, mem.erase z, hsp2, hnd2⟩
        · -- z has only a right child r
          simp only []
          have hrm : r ∈ mem := shaped_child_mem_right hs hzm hzr
          have hrlt : r < t.nodes.length := (shaped_mem_props hs hrm).1
          have hrz : r ≠ z := shaped_child_ne hs hnd hzm (Or.inr hzr)
          have hrmem2 : r ∈ mem.erase z := (List.mem_erase_of_ne hrz).2 hrm
          have hp1 : ((t.setParent r (t.get z).parent).get z).parent = (t.get z).parent := by
            rw [get_setParent_ne t _ hrz]
          rw [hp1]
          rcases hzp : (t.get z).parent with _ | p
          · simp only []
            have hroot : t.root = some z := (shaped_parent_none hs hzm hzp).1
            obtain ⟨x2, h2, hc1, hc2, hsp, _⟩ := shaped_splice
              (u := (t.setParent r none).setRoot (some r))
              (show t.nodes.length ≤ ((t.setParent r none).setRoot (some r)).nodes.length from
                le_of_eq (length_setParent t r none).symm) hs hnd hzm hzl
              (fun pj hpj => by cases hpj)
              (fun j hj hrj hpj => by
                rw [hzr] at hrj; injection hrj with hje; subst hje
                rw [get_setRoot, get_setParent_self t _ _ hrlt, hzp])
              (fun j hj hpj hrj => by rw [hzp] at hpj; cases hpj)
              (fun j hj hjz hrj hpj => by
                rw [hzr] at hrj
                rw [get_setRoot]
                exact get_setParent_ne t _ (fun he => hrj (by rw [he])))
            have hx2 : x2 = some r := by rw [hc1 hroot, hzr]
            have hsp2 : Shaped ((t.setParent r none).setRoot (some r))
                ((t.setParent r none).setRoot (some r)).root none h2
                none none (mem.erase z) := by
              rw [hx2] at hsp
              exact hsp
            by_cases hcol : (((t.setParent r none).setRoot (some r)).get z).color = Color.BLACK
            · rw [if_pos hcol]
              obtain ⟨h3, hsh3, _⟩ := wf_fix_delete hsp2 hnd2 hrmem2
              exact ⟨h3, mem.erase z, hsh3, hnd2⟩
            · rw [if_neg hcol]
              exact ⟨h2, mem.erase z, hsp2, hnd2⟩
          · simp only []
            obtain ⟨hpm, hslot⟩ :
                p ∈ mem ∧ ((t.get p).left = some z ∨ (t.get p).right = some z) := by
              rcases shaped_parent_field hs hzm hzp with ⟨_, hcon⟩ | hgood
              · cases hcon
              · exact hgood
            have hzp_ne : z ≠ p := shaped_child_ne hs hnd hpm hslot
            have hplt : p < t.nodes.length := (shaped_mem_props hs hpm).1
            have htrne : t.root ≠ some z := by
              intro he
              have hq := shaped_x_parent (he ▸ hs)
              rw [hzp] at hq
              cases hq
            have hpmem2 : p ∈ mem.erase z := (List.mem_erase_of_ne (Ne.symm hzp_ne)).2 hpm
            have hp2 : ((t.setParent r (some p)).get p).left = (t.get p).left := by
              by_cases hrp : r = p
              · subst hrp
                rw [get_setParent_self t _ _ hrlt]
              · rw [get_setParent_ne t _ hrp]
            rw [hp2]
            by_cases hpl : (t.get p).left = some z
            · rw [if_pos hpl]
              obtain ⟨x2, h2, hc1, hc2, hsp, _⟩ := shaped_splice
                (u := (t.setParent r (some p)).setLeft p (some r))
                (show t.nodes.length ≤ ((t.setParent r (some p)).setLeft p (some r)).nodes.length
                  from le_of_eq (by rw [length_setLeft, length_setParent])) hs hnd hzm hzl
                (fun pj hpj => by cases hpj)
                (fun j hj hrj hpj => by
                  rw [hzr] at hrj; injection hrj with hje; subst hje
                  rw [hzp] at hpj
                  rw [get_setLeft_ne _ _ (fun he => hpj (by rw [he])),
                    get_setParent_self t _ _ hrlt, hzp])
                (fun j hj hpj hrj => by
                  rw [hzp] at hpj; injection hpj with hje; subst hje
                  rw [hzr] at hrj
                  rw [get_setLeft_self _ _ _ (by rw [length_setParent]; exact hplt),
                    get_setParent_ne t _ (fun he => hrj (by rw [he])),
                    if_pos hpl, hzr])
                (fun j hj hjz hrj hpj => by
                  rw [hzp] at hpj
                  rw [hzr] at hrj
                  rw [get_setLeft_ne _ _ (fun he => hpj (by rw [he]))]
                  exact get_setParent_ne t _ (fun he => hrj (by rw [he])))
              have hx2 : x2 = t.root := hc2 htrne
              have hsp2 : Shaped ((t.setParent r (some p)).setLeft p (some r))
                  ((t.setParent r (some p)).setLeft p (some r)).root none h2
                  none none (mem.erase z) := by
                rw [hx2] at hsp
                exact hsp
              by_cases hcol :
                  (((t.setParent r (some p)).setLeft p (some r)).get z).color = Color.BLACK
              · rw [if_pos hcol]
                obtain ⟨h3, hsh3, _⟩ := wf_fix_delete hsp2 hnd2 hrmem2
                exact ⟨h3, mem.erase z, hsh3, hnd2⟩
              · rw [if_neg hcol]
                exact ⟨h2, mem.erase z, hsp2, hnd2⟩
            · rw [if_neg hpl]
              obtain ⟨x2, h2, hc1, hc2, hsp, _⟩ := shaped_splice
                (u := (t.setParent r (some p)).setRight p (some r))
                (show t.nodes.length ≤ ((t.setParent r (some p)).setRight p (some r)).nodes.length
                  from le_of_eq (by rw [length_setRight, length_setParent])) hs hnd hzm hzl
                (fun pj hpj => by cases hpj)
                (fun j hj hrj hpj => by
                  rw [hzr] at hrj; injection hrj with hje; subst hje
                  rw [hzp] at hpj
                  rw [get_setRight_ne _ _ (fun he => hpj (by rw [he])),
                    get_setParent_self t _ _ hrlt, hzp])
                (fun j hj hpj hrj => by
                  rw [hzp] at hpj; injection hpj with hje; subst hje
                  rw [hzr] at hrj
                  rw [get_setRight_self _ _ _ (by rw [length_setParent]; exact hplt),
                    get_setParent_ne t _ (fun he => hrj (by rw [he])),
                    if_neg hpl, hzr])
                (fun j hj hjz hrj hpj => by
                  rw [hzp] at hpj
                  rw [hzr] at hrj
                  rw [get_setRight_ne _ _ (fun he => hpj (by rw [he]))]
                  exact get_setParent_ne t _ (fun he => hrj (by rw [he])))
              have hx2 : x2 = t.root := hc2 htrne
              have hsp2 : Shaped ((t.setParent r (some p)).setRight p (some r))
                  ((t.setParent r (some p)).setRight p (some r)).root none h2
                  none none (mem.erase z) := by
                rw [hx2] at hsp
                exact hsp
              by_cases hcol :
                  (((t.setParent r (some p)).setRight p (some r)).get z).color = Color.BLACK
              · rw [if_pos hcol]
                obtain ⟨h3, hsh3, _⟩ := wf_fix_delete hsp2 hnd2 hrmem2
                exact ⟨h3, mem.erase z, hsh3, hnd2⟩
              · rw [if_neg hcol]
                exact ⟨h2, mem.erase z, hsp2, hnd2⟩
      · -- z has only a left child l
        have hzr : (t.get z).right = none := by
          rcases hcond with hc | hc
          · rw [hzl] at hc; cases hc
          · exact hc
        simp only []
        have hlm : l ∈ mem := shaped_child_mem_left hs hzm hzl
        have hllt : l < t.nodes.length := (shaped_mem_props hs hlm).1
        have hlz : l ≠ z := shaped_child_ne hs hnd hzm (Or.inl hzl)
        have hlmem2 : l ∈ mem.erase z := (List.mem_erase_of_ne hlz).2 hlm
        have hp1 : ((t.setParent l (t.get z).parent).get z).parent = (t.get z).parent := by
          rw [get_setParent_ne t _ hlz]
        rw [hp1]
        rcases hzp : (t.get z).parent with _ | p
        · simp only []
          have hroot : t.root = some z := (shaped_parent_none hs hzm hzp).1
          obtain ⟨x2, h2, hc1, hc2, hsp⟩ := shaped_splice_left
            (u := (t.setParent l none).setRoot (some l))
            (show t.nodes.length ≤ ((t.setParent l none).setRoot (some l)).nodes.length from
              le_of_eq (length_setParent t l none).symm) hs hnd hzm hzr
            (fun pj hpj => by cases hpj)
            (fun j hj hrj hpj => by
              rw [hzl] at hrj; injection hrj with hje; subst hje
              rw [get_setRoot, get_setParent_self t _ _ hllt, hzp])
            (fun j hj hpj hrj => by rw [hzp] at hpj; cases hpj)
            (fun j hj hjz hrj hpj => by
              rw [hzl] at hrj
              rw [get_setRoot]
              exact get_setParent_ne t _ (fun he => hrj (by rw [he])))
          have hx2 : x2 = some l := by rw [hc1 hroot, hzl]
          have hsp2 : Shaped ((t.setParent l none).setRoot (some l))
              ((t.setParent l none).setRoot (some l)).root none h2
              none none (mem.erase z) := by
            rw [hx2] at hsp
            exact hsp
          by_cases hcol : (((t.setParent l none).setRoot (some l)).get z).color = Color.BLACK
          · rw [if_pos hcol]
            obtain ⟨h3, hsh3, _⟩ := wf_fix_delete hsp2 hnd2 hlmem2
            exact ⟨h3, mem.erase z, hsh3, hnd2⟩
          · rw [if_neg hcol]
            exact ⟨h2, mem.erase z, hsp2, hnd2⟩
        · simp only []
          obtain ⟨hpm, hslot⟩ :
              p ∈ mem ∧ ((t.get p).left = some z ∨ (t.get p).right = some z) := by
            rcases shaped_parent_field hs hzm hzp with ⟨_, hcon⟩ | hgood
            · cases hcon
            · exact hgood
          have hzp_ne : z ≠ p := shaped_child_ne hs hnd hpm hslot
          have hplt : p < t.nodes.length := (shaped_mem_props hs hpm).1
          have htrne : t.root ≠ some z := by
            intro he
            have hq := shaped_x_parent (he ▸ hs)
            rw [hzp] at hq
            cases hq
          have hpmem2 : p ∈ mem.erase z := (List.mem_erase_of_ne (Ne.symm hzp_ne)).2 hpm
          have hp2 : ((t.setParent l (some p)).get p).left = (t.get p).left := by
            by_cases hlp : l = p
            · subst hlp
              rw [get_setParent_self t _ _ hllt]
            · rw [get_setParent_ne t _ hlp]
          rw [hp2]
          by_cases hpl : (t.get p).left = some z
          · rw [if_pos hpl]
            obtain ⟨x2, h2, hc1, hc2, hsp⟩ := shaped_splice_left
              (u := (t.setParent l (some p)).setLeft p (some l))
              (show t.nodes.length ≤ ((t.setParent l (some p)).setLeft p (some l)).nodes.length
                from le_of_eq (by rw [length_setLeft, length_setParent])) hs hnd hzm hzr
              (fun pj hpj => by cases hpj)
              (fun j hj hrj hpj => by
                rw [hzl] at hrj; injection hrj with hje; subst hje
                rw [hzp] at hpj
                rw [get_setLeft_ne _ _ (fun he => hpj (by rw [he])),
                  get_setParent_self t _ _ hllt, hzp])
              (fun j hj hpj hrj => by
                rw [hzp] at hpj; injection hpj with hje; subst hje
                rw [hzl] at hrj
                rw [get_setLeft_self _ _ _ (by rw [length_setParent]; exact hplt),
                  get_setParent_ne t _ (fun he => hrj (by rw [he])),
                  if_pos hpl, hzl])
              (fun j hj hjz hrj hpj => by
                rw [hzp] at hpj
                rw [hzl] at hrj
                rw [get_setLeft_ne _ _ (fun he => hpj (by rw [he]))]
                exact get_setParent_ne t _ (fun he => hrj (by rw [he])))
            have hx2 : x2 = t.root := hc2 htrne
            have hsp2 : Shaped ((t.setParent l (some p)).setLeft p (some l))
                ((t.setParent l (some p)).setLeft p (some l)).root none h2
                none none (mem.erase z) := by
              rw [hx2] at hsp
              exact hsp
            by_cases hcol :
                (((t.setParent l (some p)).setLeft p (some l)).get z).color = Color.BLACK
            · rw [if_pos hcol]
              obtain ⟨h3, hsh3, _⟩ := wf_fix_delete hsp2 hnd2 hlmem2
              exact ⟨h3, mem.erase z, hsh3, hnd2⟩
            · rw [if_neg hcol]
              exact ⟨h2, mem.erase z, hsp2, hnd2⟩
          · rw [if_neg hpl]
            obtain ⟨x2, h2, hc1, hc2, hsp⟩ := shaped_splice_left
              (u := (t.setParent l (some p)).setRight p (some l))
              (show t.nodes.length ≤ ((t.setParent l (some p)).setRight p (some l)).nodes.length
                from le_of_eq (by rw [length_setRight, length_setParent])) hs hnd hzm hzr
              (fun pj hpj => by cases hpj)
              (fun j hj hrj hpj => by
                rw [hzl] at hrj; injection hrj with hje; subst hje
                rw [hzp] at hpj
                rw [get_setRight_ne _ _ (fun he => hpj (by rw [he])),
                  get_setParent_self t _ _ hllt, hzp])
              (fun j hj hpj hrj => by
                rw [hzp] at hpj; injection hpj with hje; subst hje
                rw [hzl] at hrj
                rw [get_setRight_self _ _ _ (by rw [length_setParent]; exact hplt),
                  get_setParent_ne t _ (fun he => hrj (by rw [he])),
                  if_neg hpl, hzl])
              (fun j hj hjz hrj hpj => by
                rw [hzp] at hpj
                rw [hzl] at hrj
                rw [get_setRight_ne _ _ (fun he => hpj (by rw [he]))]
                exact get_setParent_ne t _ (fun he => hrj (by rw [he])))
            have hx2 : x2 = t.root := hc2 htrne
            have hsp2 : Shaped ((t.setParent l (some p)).setRight p (some l))
                ((t.setParent l (some p)).setRight p (some l)).root none h2
                none none (mem.erase z) := by
              rw [hx2] at hsp
              exact hsp
            by_cases hcol :
                (((t.setParent l (some p)).setRight p (some l)).get z).color = Color.BLACK
            · rw [if_pos hcol]
              obtain ⟨h3, hsh3, _⟩ := wf_fix_delete hsp2 hnd2 hlmem2
              exact ⟨h3, mem.erase z, hsh3, hnd2⟩
            · rw [if_neg hcol]
              exact ⟨h2, mem.erase z, hsp2, hnd2⟩
    · rw [if_neg hcond]
      push_neg at hcond
      obtain ⟨hl0, hr0⟩ := hcond
      rcases hzl : (t.get z).left with _ | l0
      · exact absurd hzl hl0
      rcases hzr0 : (t.get z).right with _ | r0
      · exact absurd hzr0 hr0
      have hsucc : t.successor (some z) =
          some (RedBlackTree.findMinGo (t.nodes.length + 1) t r0) := by
        simp only [RedBlackTree.successor, hzr0, RedBlackTree.find_min]
      rw [hsucc]
      simp only []
      obtain ⟨par2, hz2, lo2, hi2, sub, hsz, hsubl⟩ := shaped_at_mem_sublist hs hzm
      cases hsz
      rename_i hzh Lz Rz hzlt2 hzpar2 hzlo2 hzhi2 hLz hRz
      rw [hzr0] at hRz
      have hsubRz : Rz.Sublist mem :=
        ((List.sublist_cons_self z Rz).trans (List.sublist_append_right Lz _)).trans hsubl
      have hndRz : Rz.Nodup := List.Nodup.sublist hsubRz hnd
      have hndsub : (Lz ++ z :: Rz).Nodup := List.Nodup.sublist hsubl hnd
      have hlenRz : Rz.length ≤ t.nodes.length := shaped_mem_length_le hRz hndRz
      obtain ⟨rest, hRzlist, hyl⟩ := findMinGo_leftmost (shaped_min_height hRz) rfl
        (show Rz.length ≤ t.nodes.length + 1 by omega)
      generalize hyg : RedBlackTree.findMinGo (t.nodes.length + 1) t r0 = yi
        at hRzlist hyl ⊢
      have hyiRz : yi ∈ Rz := by rw [hRzlist]; exact List.mem_cons_self _ _
      have hyim : yi ∈ mem := hsubl.subset (by simp [hyiRz])
      have hyizi : yi ≠ z := by
        intro he
        have hz_notin : ¬z ∈ Rz := by
          have hq := (List.nodup_append.1 hndsub).2.1
          exact (List.nodup_cons.1 hq).1
        exact hz_notin (he ▸ hyiRz)
      have hylt : yi < t.nodes.length := (shaped_mem_props hs hyim).1
      have hnd2y : (mem.erase yi).Nodup := hnd.erase yi
      have hmlen : mem.length ≤ t.nodes.length := shaped_mem_length_le hs hnd
      obtain ⟨p, hyp⟩ : ∃ p, (t.get yi).parent = some p := by
        rcases hcase : (t.get yi).parent with _ | p
        · rcases shaped_parent_none hRz hyiRz hcase with ⟨_, hcon⟩
          cases hcon
        · exact ⟨p, rfl⟩
      obtain ⟨hpm, hslot⟩ :
          p ∈ mem ∧ ((t.get p).left = some yi ∨ (t.get p).right = some yi) := by
        rcases shaped_parent_field hs hyim hyp with ⟨_, hcon⟩ | hgood
        · cases hcon
        · exact hgood
      have hyp_ne : yi ≠ p := shaped_child_ne hs hnd hpm hslot
      have hplt : p < t.nodes.length := (shaped_mem_props hs hpm).1
      have hpmem2 : p ∈ mem.erase yi := (List.mem_erase_of_ne (Ne.symm hyp_ne)).2 hpm
      rw [hyl]
      simp only []
      rcases hyr : (t.get yi).right with _ | xi
      · simp only []
        rw [hyp]
        simp only []
        rw [if_pos hyizi]
        by_cases hpl : (t.get p).left = some yi
        · rw [if_pos hpl]
          rw [show ((t.setLeft p none).get yi).key = (t.get yi).key from by
            rw [get_setLeft_ne t _ (Ne.symm hyp_ne)]]
          obtain ⟨h2, hshD, hyiMem, hyiZ, hpMem⟩ := shaped_delete_two
            (u := (t.setLeft p none).setKey z ((t.get yi).key))
            (show t.nodes.length ≤
                ((t.setLeft p none).setKey z ((t.get yi).key)).nodes.length from
              le_of_eq (by rw [length_setKey, length_setLeft])) hs hnd hzm hzr0
            hyg.symm (by omega)
            (fun hrz hpz => by
              have hpz2 : p ≠ z := fun he => hpz (by rw [hyp, he])
              rw [get_setKey_self _ _ _ (by rw [length_setLeft]; exact hzlt),
                get_setLeft_ne t _ hpz2])
            (fun hrz hpz => by
              have hpz2 : p = z := by
                have hq := hyp.symm.trans hpz
                injection hq
              subst hpz2
              rw [if_pos hpl, hyr,
                get_setKey_self _ _ _ (by rw [length_setLeft]; exact hzlt),
                get_setLeft_self t _ _ hplt])
            (fun j hj hjz hrj hpj => by rw [hyr] at hrj; cases hrj)
            (fun j hj hjz hpj hrj => by
              have hje : p = j := by
                have hq := hyp.symm.trans hpj
                injection hq
              subst hje
              rw [if_pos hpl, hyr,
                get_setKey_ne _ _ (Ne.symm hjz),
                get_setLeft_self t _ _ hplt])
            (fun j hj hjz hjy hrj hpj => by
              rw [hyp] at hpj
              rw [get_setKey_ne _ _ (Ne.symm hjz)]
              exact get_setLeft_ne t _ (fun he => hpj (by rw [he])))
          by_cases hcol :
              (((t.setLeft p none).setKey z ((t.get yi).key)).get yi).color = Color.BLACK
          · rw [if_pos hcol]
            obtain ⟨h3, hsh3, _⟩ := wf_fix_delete_null
              (show Shaped ((t.setLeft p none).setKey z ((t.get yi).key))
                  ((t.setLeft p none).setKey z ((t.get yi).key)).root none h2
                  none none (mem.erase yi) from hshD) hnd2y hpmem2
            exact ⟨h3, mem.erase yi, hsh3, hnd2y⟩
          · rw [if_neg hcol]
            exact ⟨h2, mem.erase yi,
              (show Shaped ((t.setLeft p none).setKey z ((t.get yi).key))
                  ((t.setLeft p none).setKey z ((t.get yi).key)).root none h2
                  none none (mem.erase yi) from hshD), hnd2y⟩
        · rw [if_neg hpl]
          rw [show ((t.setRight p none).get yi).key = (t.get yi).key from by
            rw [get_setRight_ne t _ (Ne.symm hyp_ne)]]
          obtain ⟨h2, hshD, hyiMem, hyiZ, hpMem⟩ := shaped_delete_two
            (u := (t.setRight p none).setKey z ((t.get yi).key))
            (show t.nodes.length ≤
                ((t.setRight p none).setKey z ((t.get yi).key)).nodes.length from
              le_of_eq (by rw [length_setKey, length_setRight])) hs hnd hzm hzr0
            hyg.symm (by omega)
            (fun hrz hpz => by
              have hpz2 : p ≠ z := fun he => hpz (by rw [hyp, he])
              rw [get_setKey_self _ _ _ (by rw [length_setRight]; exact hzlt),
                get_setRight_ne t _ hpz2])
            (fun hrz hpz => by
              have hpz2 : p = z := by
                have hq := hyp.symm.trans hpz
                injection hq
              subst hpz2
              rw [if_neg hpl, hyr,
                get_setKey_self _ _ _ (by rw [length_setRight]; exact hzlt),
                get_setRight_self t _ _ hplt])
            (fun j hj hjz hrj hpj => by rw [hyr] at hrj; cases hrj)
            (fun j hj hjz hpj hrj => by
              have hje : p = j := by
                have hq := hyp.symm.trans hpj
                injection hq
              subst hje
              rw [if_neg hpl, hyr,
                get_setKey_ne _ _ (Ne.symm hjz),
                get_setRight_self t _ _ hplt])
            (fun j hj hjz hjy hrj hpj => by
              rw [hyp] at hpj
              rw [get_setKey_ne _ _ (Ne.symm hjz)]
              exact get_setRight_ne t _ (fun he => hpj (by rw [he])))
          by_cases hcol :
              (((t.setRight p none).setKey z ((t.get yi).key)).get yi).color = Color.BLACK
          · rw [if_pos hcol]
            obtain ⟨h3, hsh3, _⟩ := wf_fix_delete_null
              (show Shaped ((t.setRight p none).setKey z ((t.get yi).key))
                  ((t.setRight p none).setKey z ((t.get yi).key)).root none h2
                  none none (mem.erase yi) from hshD) hnd2y hpmem2
            exact ⟨h3, mem.erase yi, hsh3, hnd2y⟩
          · rw [if_neg hcol]
            exact ⟨h2, mem.erase yi,
              (show Shaped ((t.setRight p none).setKey z ((t.get yi).key))
                  ((t.setRight p none).setKey z ((t.get yi).key)).root none h2
                  none none (mem.erase yi) from hshD), hnd2y⟩
      · simp only []
        have hxim : xi ∈ mem := shaped_child_mem_right hs hyim hyr
        have hxilt : xi < t.nodes.length := (shaped_mem_props hs hxim).1
        have hxiyi : xi ≠ yi := shaped_child_ne hs hnd hyim (Or.inr hyr)
        rw [hyp]
        have hq1 : ((t.setParent xi (some p)).get yi).parent = (t.get yi).parent := by
          rw [get_setParent_ne t _ hxiyi]
        rw [hq1, hyp]
        simp only []
        have hq2 : ((t.setParent xi (some p)).get p).left = (t.get p).left := by
          by_cases hxp : xi = p
          · subst hxp
            rw [get_setParent_self t _ _ hxilt]
          · rw [get_setParent_ne t _ hxp]
        rw [hq2]
        rw [if_pos hyizi]
        by_cases hpl : (t.get p).left = some yi
        · rw [if_pos hpl]
          rw [show (((t.setParent xi (some p)).setLeft p (some xi)).get yi).key = (t.get yi).key from by
            rw [get_setLeft_ne _ _ (Ne.symm hyp_ne), get_setParent_ne t _ hxiyi]]
          obtain ⟨h2, hshD, hyiMem, hyiZ, hpMem⟩ := shaped_delete_two
            (u := ((t.setParent xi (some p)).setLeft p (some xi)).setKey z ((t.get yi).key))
            (show t.nodes.length ≤ (((t.setParent xi (some p)).setLeft p (some xi)).setKey z ((t.get yi).key)).nodes.length from
              le_of_eq (by rw [length_setKey, length_setLeft, length_setParent])) hs hnd hzm hzr0
            hyg.symm (by omega)
            (fun hrz hpz => by
              have hpz2 : p ≠ z := fun he => hpz (by rw [hyp, he])
              have hxz : xi ≠ z := fun he => hrz (by rw [hyr, he])
              rw [get_setKey_self _ _ _
                  (by rw [length_setLeft, length_setParent]; exact hzlt),
                get_setLeft_ne _ _ hpz2, get_setParent_ne t _ hxz])
            (fun hrz hpz => by
              have hxz : xi ≠ z := fun he => hrz (by rw [hyr, he])
              have hpz2 : p = z := by
                have hq := hyp.symm.trans hpz
                injection hq
              subst hpz2
              rw [if_pos hpl, hyr,
                get_setKey_self _ _ _
                  (by rw [length_setLeft, length_setParent]; exact hzlt),
                get_setLeft_self _ _ _ (by rw [length_setParent]; exact hplt),
                get_setParent_ne t _ hxz])
            (fun j hj hjz hrj hpj => by
              have hje : xi = j := by
                have hq := hyr.symm.trans hrj
                injection hq
              subst hje
              rw [hyp] at hpj
              have hpxi : p ≠ xi := fun he => hpj (by rw [he])
              rw [hyp, get_setKey_ne _ _ (Ne.symm hjz),
                get_setLeft_ne _ _ hpxi, get_setParent_self t _ _ hxilt])
            (fun j hj hjz hpj hrj => by
              have hje : p = j := by
                have hq := hyp.symm.trans hpj
                injection hq
              subst hje
              have hxp : xi ≠ p := fun he => hrj (by rw [hyr, he])
              rw [if_pos hpl, hyr,
                get_setKey_ne _ _ (Ne.symm hjz),
                get_setLeft_self _ _ _ (by rw [length_setParent]; exact hplt),
                get_setParent_ne t _ hxp])
            (fun j hj hjz hjy hrj hpj => by
              rw [hyp] at hpj
              have hxj : xi ≠ j := fun he => hrj (by rw [hyr, he])
              rw [get_setKey_ne _ _ (Ne.symm hjz),
                get_setLeft_ne _ _ (fun he => hpj (by rw [he]))]
              exact get_setParent_ne t _ hxj)
          have hximem2 : xi ∈ mem.erase yi := (List.mem_erase_of_ne hxiyi).2 hxim
          by_cases hcol : ((((t.setParent xi (some p)).setLeft p (some xi)).setKey z ((t.get yi).key)).get yi).color = Color.BLACK
          · rw [if_pos hcol]
            obtain ⟨h3, hsh3, _⟩ := wf_fix_delete
              (show Shaped (((t.setParent xi (some p)).setLeft p (some xi)).setKey z ((t.get yi).key)) (((t.setParent xi (some p)).setLeft p (some xi)).setKey z ((t.get yi).key)).root none h2 none none (mem.erase yi) from hshD)
              hnd2y hximem2
            exact ⟨h3, mem.erase yi, hsh3, hnd2y⟩
          · rw [if_neg hcol]
            exact ⟨h2, mem.erase yi,
              (show Shaped (((t.setParent xi (some p)).setLeft p (some xi)).setKey z ((t.get yi).key)) (((t.setParent xi (some p)).setLeft p (some xi)).setKey z ((t.get yi).key)).root none h2 none none (mem.erase yi) from hshD),
              hnd2y⟩
        · rw [if_neg hpl]
          rw [show (((t.setParent xi (some p)).setRight p (some xi)).get yi).key = (t.get yi).key from by
            rw [get_setRight_ne _ _ (Ne.symm hyp_ne), get_setParent_ne t _ hxiyi]]
          obtain ⟨h2, hshD, hyiMem, hyiZ, hpMem⟩ := shaped_delete_two
            (u := ((t.setParent xi (some p)).setRight p (some xi)).setKey z ((t.get yi).key))
            (show t.nodes.length ≤ (((t.setParent xi (some p)).setRight p (some xi)).setKey z ((t.get yi).key)).nodes.length from
              le_of_eq (by rw [length_setKey, length_setRight, length_setParent])) hs hnd hzm hzr0
            hyg.symm (by omega)
            (fun hrz hpz => by
              have hpz2 : p ≠ z := fun he => hpz (by rw [hyp, he])
              have hxz : xi ≠ z := fun he => hrz (by rw [hyr, he])
              rw [get_setKey_self _ _ _
                  (by rw [length_setRight, length_setParent]; exact hzlt),
                get_setRight_ne _ _ hpz2, get_setParent_ne t _ hxz])
            (fun hrz hpz => by
              have hxz : xi ≠ z := fun he => hrz (by rw [hyr, he])
              have hpz2 : p = z := by
                have hq := hyp.symm.trans hpz
                injection hq
              subst hpz2
              rw [if_neg hpl, hyr,
                get_setKey_self _ _ _
                  (by rw [length_setRight, length_setParent]; exact hzlt),
                get_setRight_self _ _ _ (by rw [length_setParent]; exact hplt),
                get_setParent_ne t _ hxz])
            (fun j hj hjz hrj hpj => by
              have hje : xi = j := by
                have hq := hyr.symm.trans hrj
                injection hq
              subst hje
              rw [hyp] at hpj
              have hpxi : p ≠ xi := fun he => hpj (by rw [he])
              rw [hyp, get_setKey_ne _ _ (Ne.symm hjz),
                get_setRight_ne _ _ hpxi, get_setParent_self t _ _ hxilt])
            (fun j hj hjz hpj hrj => by
              have hje : p = j := by
                have hq := hyp.symm.trans hpj
                injection hq
              subst hje
              have hxp : xi ≠ p := fun he => hrj (by rw [hyr, he])
              rw [if_neg hpl, hyr,
                get_setKey_ne _ _ (Ne.symm hjz),
                get_setRight_self _ _ _ (by rw [length_setParent]; exact hplt),
                get_setParent_ne t _ hxp])
            (fun j hj hjz hjy hrj hpj => by
              rw [hyp] at hpj
              have hxj : xi ≠ j := fun he => hrj (by rw [hyr, he])
              rw [get_setKey_ne _ _ (Ne.symm hjz),
                get_setRight_ne _ _ (fun he => hpj (by rw [he]))]
              exact get_setParent_ne t _ hxj)
          have hximem2 : xi ∈ mem.erase yi := (List.mem_erase_of_ne hxiyi).2 hxim
          by_cases hcol : ((((t.setParent xi (some p)).setRight p (some xi)).setKey z ((t.get yi).key)).get yi).color = Color.BLACK
          · rw [if_pos hcol]
            obtain ⟨h3, hsh3, _⟩ := wf_fix_delete
              (show Shaped (((t.setParent xi (some p)).setRight p (some xi)).setKey z ((t.get yi).key)) (((t.setParent xi (some p)).setRight p (some xi)).setKey z ((t.get yi).key)).root none h2 none none (mem.erase yi) from hshD)
              hnd2y hximem2
            exact ⟨h3, mem.erase yi, hsh3, hnd2y⟩
          · rw [if_neg hcol]
            exact ⟨h2, mem.erase yi,
              (show Shaped (((t.setParent xi (some p)).setRight p (some xi)).setKey z ((t.get yi).key)) (((t.setParent xi (some p)).setRight p (some xi)).setKey z ((t.get yi).key)).root none h2 none none (mem.erase yi) from hshD),
              hnd2y⟩

end RB
namespace RB

/-- Every state reachable by the public operations from a well-formed
state is well-formed. -/
theorem wf_applyOps {t : RedBlackTree} {mem : List Nat} {h : Nat}
    (hs : Shaped t t.root none h none none mem) (hnd : mem.Nodup) :
    ∀ ops : List Op, ∃ h2 mem2,
      Shaped (applyOps t ops) (applyOps t ops).root none h2 none none mem2 ∧
      mem2.Nodup := by
  intro ops
  induction ops generalizing t mem h with
  | nil => exact ⟨h, mem, hs, hnd⟩
  | cons op rest ih =>
    cases op with
    | ins k =>
      obtain ⟨h2, mem2, hperm, hsh, hlen⟩ := @wf_insert t mem h k hs hnd
      have hnotin : ¬t.nodes.length ∈ mem := fun hmem =>
        absurd (shaped_mem_props hs hmem).1 (lt_irrefl _)
      have hnd2 : mem2.Nodup := hperm.nodup_iff.2 (List.nodup_cons.2 ⟨hnotin, hnd⟩)
      exact ih hsh hnd2
    | del k =>
      obtain ⟨h2, mem2, hsh, hnd2⟩ := wf_delete k hs hnd
      exact ih hsh hnd2

/-- C3: for every tree state reachable by public operations (`insert`,
`delete`) from the empty tree, the in-order traversal yields the tree's
keys in non-decreasing sorted order. -/
theorem C3_inorder_sorted (ops : List Op) :
    List.Pairwise (· ≤ ·)
      (((applyOps RedBlackTree.empty ops).in_order_traversal
          (applyOps RedBlackTree.empty ops).root).map Prod.fst) := by
  have hs0 : Shaped RedBlackTree.empty RedBlackTree.empty.root none 0 none none [] :=
    Shaped.nil none 0 none none
  obtain ⟨h2, mem2, hsh, hnd2⟩ := wf_applyOps hs0 List.nodup_nil ops
  have hfe : (applyOps RedBlackTree.empty ops).in_order_traversal
      (applyOps RedBlackTree.empty ops).root =
      mem2.map (fun j => (((applyOps RedBlackTree.empty ops).get j).key,
        ((applyOps RedBlackTree.empty ops).get j).color)) := by
    simp only [RedBlackTree.in_order_traversal]
    exact inOrderGo_eq (shaped_min_height hsh)
      (by have := shaped_mem_length_le hsh hnd2; omega)
  rw [hfe, List.map_map]
  simpa [Function.comp] using shaped_sorted hsh

end RB
